import Mathlib

/-!
# The dataflow lowering engine of ELL (`libraries/compiler/src/Dataflow.cpp`)

A shallow embedding of `DataNode::Process`, the `ReceiveData`/`OnProcess`
overrides of the five node kinds, `DataNode::AddDependent` and
`DataFlowGraph::GetNodeAt`.
The formatted printing helper `PrintFormat` of
`libraries/utilities/tcc/Format.tcc` is embedded in the namespace `utilities`.

* Pointers to nodes are positions in the graph's node store; pointers to
  Variables are `Option Variable` (`none` is `nullptr`).
* The engine never writes to a Variable, so a Variable is carried by value
  together with its identity.
* Every call that leaves a function body (to the compiler, to the Variable
  registry, to a dependent's `ReceiveData`) is recorded in a log, tagged with
  the nesting level of the `Process` activation that issued it.
* A failed `assert` and a dereference of `nullptr` stop the run with a fault.
* `Process` and `ReceiveData` call each other; the recursion is bounded by a
  fuel argument, and running out of fuel is reported as a fault of its own.
-/

namespace Dataflow

/-! ## Variables and the collaborators of the engine -/

/-- The numeric kind of a Variable, as returned by `Variable::Type()`. -/
abbrev ValueType := Nat

/-- The operator carried by a `BinaryNode`. -/
abbrev OperatorType := Nat

/-- A `DataNode*`: the position of the node in the graph's node store. -/
abbrev NodeId := Nat

/-- Shape class of a Variable. -/
inductive Shape
  | scalar
  | vector
deriving DecidableEq, Repr

/-- Modelled from the spec: the class `Variable` (ScalarVar.h and its base are
not among the sources). The spec gives a Variable a value type, a shape class
(scalar or vector), a literal flag and a computed flag; `id` is the identity
of the object (its address). -/
structure Variable where
  id : Nat
  valueType : ValueType
  shape : Shape
  IsLiteral : Bool
  IsComputed : Bool
deriving DecidableEq, Repr

/-- The test `Variable::IsVector()`. -/
def Variable.IsVector (v : Variable) : Bool :=
  decide (v.shape = Shape.vector)

/-- The test `Variable::IsScalar()`. -/
def Variable.IsScalar (v : Variable) : Bool :=
  decide (v.shape = Shape.scalar)

/-- Modelled from the spec: the Variable registry reached through
`graph.Variables()` and the `Combine` request (their code is not among the
sources). The registry's own state is an abstract token that each request may
advance. `Combine` answers with a Variable or with nothing; the two allocation
requests always answer with a Variable. -/
structure Registry where
  Combine : Nat → Variable → Variable → OperatorType → Option Variable × Nat
  AddLocalScalarVariable : Nat → ValueType → Variable × Nat
  AddVectorElementVariable : Nat → ValueType → Variable → Int → Variable × Nat

/-! ## Nodes and graphs -/

/-- The five concrete node classes with their data members. -/
inductive NodeKind
  | literal (pVar : Option Variable)
  | arg (pVar : Option Variable)
  | input (elementIndex : Int) (pVar : Option Variable)
  | output (pDestVar : Option Variable) (elementIndex : Int) (pVar : Option Variable)
  | binary (op : OperatorType) (pSrc1 pSrc2 pResult : Option Variable)
deriving DecidableEq, Repr

/-- A `DataNode`: the member `_dependencies` and the members of its class. -/
structure DataNode where
  dependencies : List NodeId
  kind : NodeKind
deriving DecidableEq, Repr

/-- A `DataFlowGraph`: the node store `_nodes` and the state of its Variable
registry. -/
structure DataFlowGraph where
  nodes : List DataNode
  registry : Nat
deriving DecidableEq, Repr

/-! ## Observable calls and faults -/

/-- The calls recorded in the log. -/
inductive Event
  | enter (node : NodeId)
  | result (node : NodeId) (pResult : Option Variable)
  | compile (node : NodeId)
  | combine (a b : Variable) (op : OperatorType)
  | addLocalScalar (type : ValueType)
  | addVectorElement (type : ValueType) (data : Variable) (index : Int)
  | receive (node : NodeId) (data : Variable)
  | freeVar (v : Variable)
deriving DecidableEq, Repr

/-- A logged call together with the nesting level of the `Process` activation
it belongs to. -/
structure Call where
  depth : Nat
  event : Event
deriving DecidableEq, Repr

/-- The ways a run stops early. -/
inductive Fault
  | nullDependent
  | notLiteral
  | shapeMismatch
  | typeMismatch
  | nullOperand
  | noSuchNode
  | outOfFuel
deriving DecidableEq, Repr

/-- What a call leaves behind: the graph, the calls it issued, and the fault
that stopped it, if any. -/
structure Run where
  graph : DataFlowGraph
  log : List Call
  fault : Option Fault
deriving DecidableEq, Repr

/-- Replace the node stored at position `n`. -/
def DataFlowGraph.setNode (g : DataFlowGraph) (n : NodeId) (node : DataNode) : DataFlowGraph :=
  { g with nodes := g.nodes.set n node }

/-! ## Construction -/

/-- The constructor `LiteralNode::LiteralNode(pVar)` with its assertion. -/
def LiteralNode (pVar : Option Variable) : Except Fault DataNode :=
  match pVar with
  | some v => if v.IsLiteral then Except.ok ⟨[], NodeKind.literal (some v)⟩ else Except.error Fault.notLiteral
  | none => Except.error Fault.notLiteral

/-- The constructor `ArgNode::ArgNode(pVar)`. -/
def ArgNode (pVar : Option Variable) : DataNode :=
  ⟨[], NodeKind.arg pVar⟩

/-- The constructor `InputNode::InputNode(elementIndex)`. -/
def InputNode (elementIndex : Int) : DataNode :=
  ⟨[], NodeKind.input elementIndex none⟩

/-- The constructor `OutputNode::OutputNode(pDestVar, elementIndex)`. -/
def OutputNode (pDestVar : Option Variable) (elementIndex : Int) : DataNode :=
  ⟨[], NodeKind.output pDestVar elementIndex none⟩

/-- The constructor `BinaryNode::BinaryNode(op)`. -/
def BinaryNode (op : OperatorType) : DataNode :=
  ⟨[], NodeKind.binary op none none none⟩

/-- The method `DataNode::AddDependent(pNode)` called on node `n`. -/
def AddDependent (g : DataFlowGraph) (n : NodeId) (pNode : Option NodeId) : Run :=
  match g.nodes[n]? with
  | none => ⟨g, [], some Fault.noSuchNode⟩
  | some node =>
    match pNode with
    | none => ⟨g, [], some Fault.nullDependent⟩
    | some m => ⟨g.setNode n { node with dependencies := node.dependencies ++ [m] }, [], none⟩

/-- The method `DataFlowGraph::GetNodeAt(offset)`. -/
def GetNodeAt (g : DataFlowGraph) (offset : Nat) : Option DataNode :=
  g.nodes[offset]?

/-- Modelled from the spec: the insertion of a new node into the node store of
the graph (the method is declared in DataFlowGraph.h, which is not among the
sources). The spec makes insertion order the addressable order and has no
removal, so the node goes to the end of the store. -/
def AddNode (g : DataFlowGraph) (node : DataNode) : DataFlowGraph :=
  { g with nodes := g.nodes ++ [node] }

/-- A sequence of `AddDependent` calls made by a client, each one a pair of
the node it is called on and the argument `pNode`; a fault ends the sequence. -/
def wire : List (NodeId × Option NodeId) → DataFlowGraph → Run
  | [], g => ⟨g, [], none⟩
  | call :: rest, g =>
    let r := AddDependent g call.1 call.2
    match r.fault with
    | some f => ⟨r.graph, r.log, some f⟩
    | none =>
      let r2 := wire rest r.graph
      ⟨r2.graph, r.log ++ r2.log, r2.fault⟩

/-! ## Processing -/

/-- The test `_pResult == nullptr || !_pResult->IsComputed()` of
`BinaryNode::OnProcess`. -/
def needsCode (pResult : Option Variable) : Bool :=
  match pResult with
  | none => true
  | some r => !r.IsComputed

/-- The virtual `OnProcess` of node `n` (whose current value is `node`), run at
nesting level `d`. Returns the result pointer and the run. -/
def OnProcess (reg : Registry) (d : Nat) (g : DataFlowGraph) (n : NodeId) (node : DataNode) :
    Option Variable × Run :=
  match node.kind with
  | NodeKind.literal pVar => (pVar, ⟨g, [⟨d, Event.compile n⟩], none⟩)
  | NodeKind.arg pVar => (pVar, ⟨g, [], none⟩)
  | NodeKind.input _ pVar => (pVar, ⟨g, [⟨d, Event.compile n⟩], none⟩)
  | NodeKind.output _ _ pVar => (pVar, ⟨g, [⟨d, Event.compile n⟩], none⟩)
  | NodeKind.binary op pSrc1 pSrc2 _ =>
    match pSrc1, pSrc2 with
    | some a, some b =>
      if a.valueType = b.valueType then
        let c := reg.Combine g.registry a b op
        if needsCode c.1 then
          let l := reg.AddLocalScalarVariable c.2 a.valueType
          (some l.1,
            ⟨{ nodes := g.nodes.set n { node with kind := NodeKind.binary op (some a) (some b) (some l.1) },
               registry := l.2 },
             [⟨d, Event.combine a b op⟩, ⟨d, Event.addLocalScalar a.valueType⟩, ⟨d, Event.compile n⟩],
             none⟩)
        else
          (c.1,
            ⟨{ nodes := g.nodes.set n { node with kind := NodeKind.binary op (some a) (some b) c.1 },
               registry := c.2 },
             [⟨d, Event.combine a b op⟩],
             none⟩)
      else (none, ⟨g, [], some Fault.typeMismatch⟩)
    | _, _ => (none, ⟨g, [], some Fault.nullOperand⟩)

/-- The loop of `DataNode::Process` over `_dependencies`: each dependent in
turn gets `ReceiveData(graph, compiler, *pResult)`; `recv` is that virtual
call. A fault in a dependent stops the loop. -/
def pushAll (recv : DataFlowGraph → NodeId → Variable → Run) (d : Nat) (v : Variable) :
    List NodeId → DataFlowGraph → Run
  | [], g => ⟨g, [], none⟩
  | dep :: rest, g =>
    let r := recv g dep v
    match r.fault with
    | some f => ⟨r.graph, ⟨d, Event.receive dep v⟩ :: r.log, some f⟩
    | none =>
      let r2 := pushAll recv d v rest r.graph
      ⟨r2.graph, ⟨d, Event.receive dep v⟩ :: (r.log ++ r2.log), r2.fault⟩

/-- Modelled from the spec: the body of the base-class `DataNode::ReceiveData`
(in Dataflow.h, which is not among the sources). Literal and Argument nodes do
not override it; the spec makes them sources that start a cascade without
receiving data, so the call does nothing. -/
def baseReceiveData (g : DataFlowGraph) : Run :=
  ⟨g, [], none⟩

/-- The virtual `ReceiveData(graph, compiler, data)` of node `n`, run at
nesting level `d`; `proc` is the call `Process(graph, compiler)` on a node. -/
def receiveWith (reg : Registry) (proc : DataFlowGraph → NodeId → Run) (d : Nat)
    (g : DataFlowGraph) (n : NodeId) (data : Variable) : Run :=
  match g.nodes[n]? with
  | none => ⟨g, [], some Fault.noSuchNode⟩
  | some node =>
    match node.kind with
    | NodeKind.literal _ => baseReceiveData g
    | NodeKind.arg _ => baseReceiveData g
    | NodeKind.input elementIndex _ =>
      if data.IsVector then
        let e := reg.AddVectorElementVariable g.registry data.valueType data elementIndex
        let r := proc
          { nodes := g.nodes.set n { node with kind := NodeKind.input elementIndex (some e.1) },
            registry := e.2 } n
        ⟨r.graph, ⟨d, Event.addVectorElement data.valueType data elementIndex⟩ :: r.log, r.fault⟩
      else ⟨g, [], some Fault.shapeMismatch⟩
    | NodeKind.output pDestVar elementIndex _ =>
      if data.IsScalar then
        proc (g.setNode n { node with kind := NodeKind.output pDestVar elementIndex (some data) }) n
      else ⟨g, [], some Fault.shapeMismatch⟩
    | NodeKind.binary op pSrc1 pSrc2 pResult =>
      match pSrc1 with
      | none => ⟨g.setNode n { node with kind := NodeKind.binary op (some data) pSrc2 pResult }, [], none⟩
      | some a =>
        proc (g.setNode n { node with kind := NodeKind.binary op (some a) (some data) pResult }) n

/-- The method `DataNode::Process(graph, compiler)` on node `n`, at nesting
level `d`, with `fuel` bounding the depth of the cascade it may start. The
dependents are read once: no step of a cascade writes to a `_dependencies`
list. -/
def Process (reg : Registry) : Nat → Nat → DataFlowGraph → NodeId → Run
  | 0, _, g, _ => ⟨g, [], some Fault.outOfFuel⟩
  | fuel + 1, d, g, n =>
    match g.nodes[n]? with
    | none => ⟨g, [], some Fault.noSuchNode⟩
    | some node =>
      let p := OnProcess reg d g n node
      match p.2.fault with
      | some f => ⟨p.2.graph, ⟨d, Event.enter n⟩ :: p.2.log, some f⟩
      | none =>
        match p.1 with
        | none => ⟨p.2.graph, ⟨d, Event.enter n⟩ :: (p.2.log ++ [⟨d, Event.result n none⟩]), none⟩
        | some v =>
          let r := pushAll
            (fun g1 m x => receiveWith reg (fun g2 k => Process reg fuel (d + 1) g2 k) (d + 1) g1 m x)
            d v node.dependencies p.2.graph
          match r.fault with
          | some f =>
            ⟨r.graph, ⟨d, Event.enter n⟩ :: (p.2.log ++ ⟨d, Event.result n (some v)⟩ :: r.log), some f⟩
          | none =>
            ⟨r.graph,
             ⟨d, Event.enter n⟩ :: (p.2.log ++ ⟨d, Event.result n (some v)⟩ :: (r.log ++ [⟨d, Event.freeVar v⟩])),
             none⟩

/-- The virtual `ReceiveData(graph, compiler, data)` of node `n` at nesting
level `d`; the `Process` call it may make has `fuel` to spend. -/
def ReceiveData (reg : Registry) (fuel d : Nat) (g : DataFlowGraph) (n : NodeId) (data : Variable) : Run :=
  receiveWith reg (fun g2 k => Process reg fuel d g2 k) d g n data

/-- A sequence of `ReceiveData` calls made on node `n` from outside, one per
element of the list, each at nesting level `d` with `fuel` to spend; a fault
ends the sequence. -/
def deliver (reg : Registry) (fuel d : Nat) (n : NodeId) : List Variable → DataFlowGraph → Run
  | [], g => ⟨g, [], none⟩
  | x :: rest, g =>
    let r := ReceiveData reg fuel d g n x
    match r.fault with
    | some f => ⟨r.graph, r.log, some f⟩
    | none =>
      let r2 := deliver reg fuel d n rest r.graph
      ⟨r2.graph, r.log ++ r2.log, r2.fault⟩

/-- The calls a client makes on a graph: wiring, driving a node, feeding a
node. -/
inductive ClientCall
  | addDependent (n : NodeId) (pNode : Option NodeId)
  | process (n : NodeId)
  | receiveData (n : NodeId) (data : Variable)
deriving DecidableEq, Repr

/-- One client call, made at nesting level 0 with `fuel` to spend. -/
def perform (reg : Registry) (fuel : Nat) (g : DataFlowGraph) : ClientCall → Run
  | ClientCall.addDependent n pNode => AddDependent g n pNode
  | ClientCall.process n => Process reg fuel 0 g n
  | ClientCall.receiveData n data => ReceiveData reg fuel 0 g n data

/-- A sequence of client calls, one after the other; a fault ends the
sequence. -/
def session (reg : Registry) (fuel : Nat) : List ClientCall → DataFlowGraph → Run
  | [], g => ⟨g, [], none⟩
  | call :: rest, g =>
    let r := perform reg fuel g call
    match r.fault with
    | some f => ⟨r.graph, r.log, some f⟩
    | none =>
      let r2 := session reg fuel rest r.graph
      ⟨r2.graph, r.log ++ r2.log, r2.fault⟩

/-! ## Reading a log -/

/-- Calls issued by `DataNode::Process` itself (as opposed to calls issued by
an `OnProcess` or `ReceiveData` override). -/
def Event.fromProcess : Event → Bool
  | Event.enter _ => true
  | Event.result _ _ => true
  | Event.receive _ _ => true
  | Event.freeVar _ => true
  | _ => false

/-- Whether a logged call is a `ReceiveData` on a dependent or a `FreeVar`. -/
def Event.isPushOrFree : Event → Bool
  | Event.receive _ _ => true
  | Event.freeVar _ => true
  | _ => false

/-- Whether a logged call is an emission call `compiler.Compile(node)`. -/
def Event.isCompile : Event → Bool
  | Event.compile _ => true
  | _ => false

/-- Whether a logged call is a `Combine` request. -/
def Event.isCombine : Event → Bool
  | Event.combine _ _ _ => true
  | _ => false

/-- Whether a logged call is a request for a local scalar Variable. -/
def Event.isAddLocalScalar : Event → Bool
  | Event.addLocalScalar _ => true
  | _ => false

/-- Whether a logged call is `FreeVar(v)`. -/
def Event.isFreeOf (v : Variable) : Event → Bool
  | Event.freeVar w => decide (w = v)
  | _ => false

/-- Whether a logged call records that an `OnProcess` returned `v`. -/
def Event.isResultOf (v : Variable) : Event → Bool
  | Event.result _ (some w) => decide (w = v)
  | _ => false

/-- The `ReceiveData` and `FreeVar` calls of a log that were issued at nesting
level `d`, in order. -/
def pushesAndFrees (d : Nat) (log : List Call) : List Event :=
  (log.filter (fun c => decide (c.depth = d) && c.event.isPushOrFree)).map Call.event

/-- All calls of a log that were issued at nesting level `d`, in order. -/
def callsAt (d : Nat) (log : List Call) : List Event :=
  (log.filter (fun c => decide (c.depth = d))).map Call.event

/-- The `ReceiveData` calls of a log that were issued at nesting level `d`, in
order, as pairs of receiving node and delivered Variable. -/
def pushes (d : Nat) (log : List Call) : List (NodeId × Variable) :=
  (pushesAndFrees d log).filterMap
    (fun e => match e with
      | Event.receive m v => some (m, v)
      | _ => none)

/-- How many times `v` was passed to `FreeVar` in a log. -/
def frees (v : Variable) (log : List Call) : Nat :=
  log.countP (fun c => c.event.isFreeOf v)

/-- How many times an `OnProcess` returned `v` in a log. -/
def returns (v : Variable) (log : List Call) : Nat :=
  log.countP (fun c => c.event.isResultOf v)

/-- Whether some `ReceiveData` call of the log delivers a Variable that an
earlier call of the log (or `freed`) already passed to `FreeVar`. -/
def receivesFreed : List Variable → List Call → Bool
  | _, [] => false
  | freed, c :: rest =>
    match c.event with
    | Event.freeVar v => receivesFreed (v :: freed) rest
    | Event.receive _ v => freed.contains v || receivesFreed freed rest
    | _ => receivesFreed freed rest

/-- Whether some `Combine` request of the log has an operand that an earlier
call of the log (or `freed`) already passed to `FreeVar`. -/
def combinesFreed : List Variable → List Call → Bool
  | _, [] => false
  | freed, c :: rest =>
    match c.event with
    | Event.freeVar v => combinesFreed (v :: freed) rest
    | Event.combine a b _ => freed.contains a || freed.contains b || combinesFreed freed rest
    | _ => combinesFreed freed rest

/-- The `Combine` requests of a log, in order. -/
def combines (log : List Call) : List (Variable × Variable × OperatorType) :=
  log.filterMap
    (fun c => match c.event with
      | Event.combine a b op => some (a, b, op)
      | _ => none)

/-- The Variables delivered to node `m` by the `ReceiveData` calls of a log,
in order. -/
def deliveriesTo (m : NodeId) (log : List Call) : List Variable :=
  log.filterMap
    (fun c => match c.event with
      | Event.receive k v => if k = m then some v else none
      | _ => none)

/-- How many emission calls a log holds for node `n`. -/
def emissionsOf (n : NodeId) (log : List Call) : Nat :=
  log.countP (fun c => decide (c.event = Event.compile n))

/-- The nesting levels at which `v` was passed to `FreeVar`, in the order of
the calls. -/
def freeDepths (v : Variable) (log : List Call) : List Nat :=
  (log.filter (fun c => c.event.isFreeOf v)).map Call.depth

/-! ## How a cascade may change a graph -/

/-- What a cascade can do to the members of a node: the class and its
constructor arguments stay, and a filled first operand slot stays as it is. -/
def NodeKind.evolves : NodeKind → NodeKind → Prop
  | NodeKind.literal p, NodeKind.literal q => p = q
  | NodeKind.arg p, NodeKind.arg q => p = q
  | NodeKind.input i _, NodeKind.input j _ => i = j
  | NodeKind.output p i _, NodeKind.output q j _ => p = q ∧ i = j
  | NodeKind.binary op s _ _, NodeKind.binary op2 s2 _ _ => op = op2 ∧ ∀ a, s = some a → s2 = some a
  | _, _ => False

/-- A node after a cascade: same dependents, members changed as allowed. -/
def DataNode.evolves (a b : DataNode) : Prop :=
  a.dependencies = b.dependencies ∧ a.kind.evolves b.kind

/-- A graph after a cascade: the same positions hold nodes, each changed as
allowed. -/
def DataFlowGraph.evolves (g h : DataFlowGraph) : Prop :=
  g.nodes.length = h.nodes.length ∧
    ∀ (i : Nat) (a : DataNode), g.nodes[i]? = some a → ∃ b, h.nodes[i]? = some b ∧ a.evolves b

/-- A node after some `AddDependent` calls: same class and members, and the
old dependents list is an initial segment of the new one. -/
def DataNode.rewired (a b : DataNode) : Prop :=
  b.kind = a.kind ∧ ∃ added, b.dependencies = a.dependencies ++ added

/-- A graph after some `AddDependent` calls: the same positions hold nodes,
each changed as allowed. -/
def DataFlowGraph.rewired (g h : DataFlowGraph) : Prop :=
  g.nodes.length = h.nodes.length ∧
    ∀ (i : Nat) (a : DataNode), g.nodes[i]? = some a → ∃ b, h.nodes[i]? = some b ∧ a.rewired b

/-- Whether position `k` of the graph holds an ArgNode. -/
def DataFlowGraph.argAt (g : DataFlowGraph) (k : NodeId) : Prop :=
  ∃ deps pVar, g.nodes[k]? = some ⟨deps, NodeKind.arg pVar⟩

/-- Whether position `k` of the graph holds a BinaryNode. -/
def DataFlowGraph.binaryAt (g : DataFlowGraph) (k : NodeId) : Prop :=
  ∃ deps op s1 s2 res, g.nodes[k]? = some ⟨deps, NodeKind.binary op s1 s2 res⟩

/-- Whether node `k`, if it is a BinaryNode, has both operand slots filled. -/
def DataFlowGraph.ready (g : DataFlowGraph) (k : NodeId) : Prop :=
  ∀ deps op s1 s2 res, g.nodes[k]? = some ⟨deps, NodeKind.binary op s1 s2 res⟩ →
    s1 ≠ none ∧ s2 ≠ none

/-- The dependents list of node `a`; empty when `a` designates no node. -/
def DataFlowGraph.depsOf (g : DataFlowGraph) (a : NodeId) : List NodeId :=
  match g.nodes[a]? with
  | some node => node.dependencies
  | none => []

/-- A dependency chain: nodes of the graph, each a dependent of the one
before it. -/
def DataFlowGraph.chain (g : DataFlowGraph) (c : List NodeId) : Prop :=
  List.Chain' (fun a b => b ∈ g.depsOf a) c ∧ ∀ a ∈ c, a < g.nodes.length

/-- The dependency edges contain no cycle: no dependency chain comes back to
a node it has visited. -/
def DataFlowGraph.acyclic (g : DataFlowGraph) : Prop :=
  ∀ c, g.chain c → c.Nodup

/-- The dependents list `deps` leads through the OutputNodes `os`: each is the
only dependent of its predecessor, and the last has no dependents. -/
def outputChain (g : DataFlowGraph) : List NodeId → List NodeId → Prop
  | deps, [] => deps = []
  | deps, o :: rest =>
    deps = [o] ∧ ∃ odeps pDestVar elementIndex pVar,
      g.nodes[o]? = some ⟨odeps, NodeKind.output pDestVar elementIndex pVar⟩ ∧
        outputChain g odeps rest

/-- The calls that pushing `v` at level `d` into a chain of OutputNodes sets
off. -/
def outputChainLog (d : Nat) (v : Variable) : List NodeId → List Call
  | [] => []
  | o :: rest =>
    ⟨d, Event.receive o v⟩ :: ⟨d + 1, Event.enter o⟩ :: ⟨d + 1, Event.compile o⟩ ::
      ⟨d + 1, Event.result o (some v)⟩ :: (outputChainLog (d + 1) v rest ++ [⟨d + 1, Event.freeVar v⟩])

/-- The levels `d + k, ..., d + 1, d`, innermost first. -/
def countdown : Nat → Nat → List Nat
  | d, 0 => [d]
  | d, k + 1 => countdown (d + 1) k ++ [d]

/-! ## Sample registries, Variables and graphs -/

/-- A registry that never folds: `Combine` answers with nothing, and the
allocation requests hand out scalar Variables numbered by the registry state. -/
def plainRegistry : Registry where
  Combine := fun s _ _ _ => (none, s)
  AddLocalScalarVariable := fun s t => (⟨s, t, Shape.scalar, false, false⟩, s + 1)
  AddVectorElementVariable := fun s t _ _ => (⟨s, t, Shape.scalar, false, false⟩, s + 1)

/-- A registry whose `Combine` folds two computed operands into a computed
Variable and declines otherwise. -/
def foldingRegistry : Registry where
  Combine := fun s a b _ =>
    if a.IsComputed && b.IsComputed then (some ⟨s, a.valueType, Shape.scalar, false, true⟩, s + 1)
    else (none, s)
  AddLocalScalarVariable := fun s t => (⟨s, t, Shape.scalar, false, false⟩, s + 1)
  AddVectorElementVariable := fun s t _ _ => (⟨s, t, Shape.scalar, false, false⟩, s + 1)

/-- The literal 5. -/
def literalFive : Variable := ⟨100, 0, Shape.scalar, true, true⟩

/-- The literal 4. -/
def literalFour : Variable := ⟨101, 0, Shape.scalar, true, true⟩

/-- A scalar of another value type. -/
def otherTypeScalar : Variable := ⟨102, 1, Shape.scalar, false, false⟩

/-- Node 0 is a literal with two OutputNode dependents, nodes 1 and 2. -/
def fanOutGraph : DataFlowGraph :=
  ⟨[⟨[1, 2], NodeKind.literal (some literalFive)⟩,
    ⟨[], NodeKind.output none 0 none⟩,
    ⟨[], NodeKind.output none 1 none⟩], 0⟩

/-- Node 0 is an ArgNode built from `nullptr`, with an OutputNode dependent. -/
def nullArgGraph : DataFlowGraph :=
  ⟨[⟨[1], NodeKind.arg none⟩, ⟨[], NodeKind.output none 0 none⟩], 0⟩

/-- Node 0 is a literal whose only dependent is the OutputNode 1. -/
def literalOutputGraph : DataFlowGraph :=
  ⟨[⟨[1], NodeKind.literal (some literalFive)⟩, ⟨[], NodeKind.output none 0 none⟩], 0⟩

/-- The graph of scenario 1 once the BinaryNode 2 has received both literals
and before its `OnProcess` runs. -/
def readyProductGraph : DataFlowGraph :=
  ⟨[⟨[2], NodeKind.literal (some literalFive)⟩,
    ⟨[2], NodeKind.literal (some literalFour)⟩,
    ⟨[3], NodeKind.binary 2 (some literalFive) (some literalFour) none⟩,
    ⟨[], NodeKind.output none 0 none⟩], 0⟩

/-- A vector-shaped Variable. -/
def inputVector : Variable := ⟨103, 0, Shape.vector, false, false⟩

/-- A LiteralNode for the literal 5 without dependents. -/
def loneLiteralGraph : DataFlowGraph :=
  ⟨[⟨[], NodeKind.literal (some literalFive)⟩], 0⟩

/-- Node 0 is an InputNode for element 2 with two OutputNode dependents,
nodes 1 and 2. -/
def inputFanOutGraph : DataFlowGraph :=
  ⟨[⟨[1, 2], NodeKind.input 2 none⟩,
    ⟨[], NodeKind.output none 0 none⟩,
    ⟨[], NodeKind.output none 1 none⟩], 0⟩

/-- Node 0 is an OutputNode used as a tap: its dependents are the OutputNodes
1 and 2. -/
def outputTapGraph : DataFlowGraph :=
  ⟨[⟨[1, 2], NodeKind.output none 0 none⟩,
    ⟨[], NodeKind.output none 1 none⟩,
    ⟨[], NodeKind.output none 2 none⟩], 0⟩

/-- Node 0 is an ArgNode wrapping the literal 5's Variable, with two
OutputNode dependents, nodes 1 and 2. -/
def argFanOutGraph : DataFlowGraph :=
  ⟨[⟨[1, 2], NodeKind.arg (some literalFive)⟩,
    ⟨[], NodeKind.output none 0 none⟩,
    ⟨[], NodeKind.output none 1 none⟩], 0⟩

/-- The empty graph. -/
def emptyGraph : DataFlowGraph :=
  ⟨[], 0⟩

/-- Two fresh source nodes with the members `kindA` and `kindB` at positions 0
and 1 and a BinaryNode with empty slots at position 2, not yet wired. -/
def twoSourcesGraph (kindA kindB : NodeKind) (op : OperatorType) (depsC : List NodeId)
    (registry : Nat) : DataFlowGraph :=
  ⟨[⟨[], kindA⟩, ⟨[], kindB⟩, ⟨depsC, NodeKind.binary op none none none⟩], registry⟩

/-- Node 0 is a literal that has the fresh BinaryNode 1 registered twice as
dependent; node 2 is an OutputNode fed by the BinaryNode. -/
def doubleEdgeGraph : DataFlowGraph :=
  ⟨[⟨[1, 1], NodeKind.literal (some literalFive)⟩,
    ⟨[2], NodeKind.binary 2 none none none⟩,
    ⟨[], NodeKind.output none 0 none⟩], 0⟩

/-- Node 0 is a literal feeding the chain of OutputNodes 1, 2, 3. -/
def outputChainGraph : DataFlowGraph :=
  ⟨[⟨[1], NodeKind.literal (some literalFive)⟩,
    ⟨[2], NodeKind.output none 0 none⟩,
    ⟨[3], NodeKind.output none 1 none⟩,
    ⟨[], NodeKind.output none 2 none⟩], 0⟩

/-- A single fresh BinaryNode (operator 2) without dependents. -/
def loneBinaryGraph : DataFlowGraph :=
  ⟨[⟨[], NodeKind.binary 2 none none none⟩], 0⟩

/-- Scenario 1 of the spec: the literals 5 and 4 (nodes 0 and 1) feed the
BinaryNode 2 (operator 2, multiply), which feeds the OutputNode 3. -/
def productGraph : DataFlowGraph :=
  ⟨[⟨[2], NodeKind.literal (some literalFive)⟩,
    ⟨[2], NodeKind.literal (some literalFour)⟩,
    ⟨[3], NodeKind.binary 2 none none none⟩,
    ⟨[], NodeKind.output none 0 none⟩], 0⟩

end Dataflow

namespace utilities

/-! ## Formatted printing (`libraries/utilities/tcc/Format.tcc`) -/

/-- The terminator of a C string. -/
def NUL : Char := Char.ofNat 0

/-- One `operator<<` call on the output stream: a character of the format or
one of the arguments. -/
inductive Insertion (α : Type)
  | character (c : Char)
  | argument (arg : α)
deriving DecidableEq, Repr

/-- The character `*format`. A `const char* format` is the list of characters
stored from the pointer on; what follows the list is the terminator. -/
def deref (format : List Char) : Char :=
  format.headD NUL

/-- The loop `while (*format != substitutionSymbol && *format != 0)` of
`PrintFormat`: every character passed is written unless it is
`whitespaceSymbol`. Returns the stream and the advanced `format`. -/
def copyLiteral {α : Type} (substitutionSymbol whitespaceSymbol : Char) :
    List (Insertion α) → List Char → List (Insertion α) × List Char
  | os, [] => (os, [])
  | os, c :: rest =>
    if c ≠ substitutionSymbol ∧ c ≠ NUL then
      if c ≠ whitespaceSymbol then
        copyLiteral substitutionSymbol whitespaceSymbol (os ++ [Insertion.character c]) rest
      else copyLiteral substitutionSymbol whitespaceSymbol os rest
    else (os, c :: rest)

/-- The variadic `PrintFormat(os, format, arg, args...)`; the stream is the
list of insertions made so far. The two symbols are constants of Format.h and
the call with no argument left is the overload `PrintFormat(os, format)` of
Format.cpp; neither file is among the sources, so all three are parameters.
When `substitutionSymbol` is the terminator the code steps past the end of the
string; the model stays at the end. -/
def PrintFormat {α : Type} (printRest : List (Insertion α) → List Char → List (Insertion α))
    (substitutionSymbol whitespaceSymbol : Char) :
    List (Insertion α) → List Char → List α → List (Insertion α)
  | os, format, [] => printRest os format
  | os, format, arg :: args =>
    if deref format = NUL then os
    else
      let r := copyLiteral substitutionSymbol whitespaceSymbol os format
      if deref r.2 = substitutionSymbol then
        PrintFormat printRest substitutionSymbol whitespaceSymbol
          (r.1 ++ [Insertion.argument arg]) r.2.tail args
      else PrintFormat printRest substitutionSymbol whitespaceSymbol r.1 r.2 args

/-- The overload `PrintFormat(format, args...)` that returns a string: the
contents of a fresh stream after the call above, as the insertions made. -/
def PrintFormatString {α : Type} (printRest : List (Insertion α) → List Char → List (Insertion α))
    (substitutionSymbol whitespaceSymbol : Char) (format : List Char) (args : List α) :
    List (Insertion α) :=
  PrintFormat printRest substitutionSymbol whitespaceSymbol [] format args

/-- A stretch of format text: no substitution symbol and no terminator in it. -/
def plainText (substitutionSymbol : Char) (text : List Char) : Prop :=
  ∀ c ∈ text, c ≠ substitutionSymbol ∧ c ≠ NUL

instance (substitutionSymbol : Char) (text : List Char) : Decidable (plainText substitutionSymbol text) := by
  unfold plainText
  infer_instance

/-- What copying a text writes: its characters other than `whitespaceSymbol`,
in order. -/
def literal {α : Type} (whitespaceSymbol : Char) (text : List Char) : List (Insertion α) :=
  (text.filter (fun c => decide (c ≠ whitespaceSymbol))).map Insertion.character

/-- The format made of the given texts, each followed by one substitution
symbol. -/
def fieldsFormat {α : Type} (substitutionSymbol : Char) (fields : List (List Char × α)) : List Char :=
  (fields.map (fun s => s.1 ++ [substitutionSymbol])).flatten

/-- The arguments paired with the texts. -/
def fieldsArgs {α : Type} (fields : List (List Char × α)) : List α :=
  fields.map Prod.snd

/-- Each text copied, each followed by the argument paired with it. -/
def fieldsWritten {α : Type} (whitespaceSymbol : Char) (fields : List (List Char × α)) :
    List (Insertion α) :=
  (fields.map (fun s => literal whitespaceSymbol s.1 ++ [Insertion.argument s.2])).flatten

/-- A stand-in for the overload without arguments: it marks the stream with
the characters it was handed. -/
def echoRest (os : List (Insertion Nat)) (format : List Char) : List (Insertion Nat) :=
  os ++ format.map Insertion.character

end utilities

namespace Dataflow

/-! ## General facts about runs -/

/-- One unfolding of `Process`. -/
theorem Process_succ (reg : Registry) (fuel d : Nat) (g : DataFlowGraph) (n : NodeId) :
    Process reg (fuel + 1) d g n =
      match g.nodes[n]? with
      | none => ⟨g, [], some Fault.noSuchNode⟩
      | some node =>
        match (OnProcess reg d g n node).2.fault with
        | some f => ⟨(OnProcess reg d g n node).2.graph,
            ⟨d, Event.enter n⟩ :: (OnProcess reg d g n node).2.log, some f⟩
        | none =>
          match (OnProcess reg d g n node).1 with
          | none => ⟨(OnProcess reg d g n node).2.graph,
              ⟨d, Event.enter n⟩ :: ((OnProcess reg d g n node).2.log ++ [⟨d, Event.result n none⟩]), none⟩
          | some v =>
            match (pushAll (fun g1 m x => ReceiveData reg fuel (d + 1) g1 m x) d v node.dependencies
                (OnProcess reg d g n node).2.graph).fault with
            | some f =>
              ⟨(pushAll (fun g1 m x => ReceiveData reg fuel (d + 1) g1 m x) d v node.dependencies
                  (OnProcess reg d g n node).2.graph).graph,
               ⟨d, Event.enter n⟩ :: ((OnProcess reg d g n node).2.log ++ ⟨d, Event.result n (some v)⟩ ::
                 (pushAll (fun g1 m x => ReceiveData reg fuel (d + 1) g1 m x) d v node.dependencies
                  (OnProcess reg d g n node).2.graph).log), some f⟩
            | none =>
              ⟨(pushAll (fun g1 m x => ReceiveData reg fuel (d + 1) g1 m x) d v node.dependencies
                  (OnProcess reg d g n node).2.graph).graph,
               ⟨d, Event.enter n⟩ :: ((OnProcess reg d g n node).2.log ++ ⟨d, Event.result n (some v)⟩ ::
                 ((pushAll (fun g1 m x => ReceiveData reg fuel (d + 1) g1 m x) d v node.dependencies
                  (OnProcess reg d g n node).2.graph).log ++ [⟨d, Event.freeVar v⟩])), none⟩ := by
  rfl

theorem OnProcess_depth (reg : Registry) (d : Nat) (g : DataFlowGraph) (n : NodeId) (node : DataNode) :
    ∀ c ∈ (OnProcess reg d g n node).2.log, c.depth = d := by
  unfold OnProcess
  intro c hc
  split at hc
  all_goals try (simp at hc; try (simp [hc]))
  split at hc
  · split at hc
    · split at hc
      · simp at hc
        rcases hc with h | h | h <;> simp [h]
      · simp at hc
        simp [hc]
    · simp at hc
  · simp at hc


theorem OnProcess_log_events (reg : Registry) (d : Nat) (g : DataFlowGraph) (n : NodeId) (node : DataNode) :
    ∀ c ∈ (OnProcess reg d g n node).2.log, c.event.fromProcess = false := by
  unfold OnProcess
  intro c hc
  split at hc
  all_goals try (simp at hc; try (simp [hc, Event.fromProcess]))
  split at hc
  · split at hc
    · split at hc
      · simp at hc
        rcases hc with h | h | h <;> simp [h, Event.fromProcess]
      · simp at hc
        simp [hc, Event.fromProcess]
    · simp at hc
  · simp at hc

theorem pushAll_depth (recv : DataFlowGraph → NodeId → Variable → Run) (d : Nat) (v : Variable)
    (h : ∀ g m x, ∀ c ∈ (recv g m x).log, d < c.depth) :
    ∀ (deps : List NodeId) (g : DataFlowGraph), ∀ c ∈ (pushAll recv d v deps g).log, d ≤ c.depth := by
  intro deps
  induction deps with
  | nil => intro g c hc; simp [pushAll] at hc
  | cons dep rest ih =>
    intro g c hc
    simp only [pushAll] at hc
    split at hc
    · simp at hc
      rcases hc with hc | hc
      · simp [hc]
      · exact Nat.le_of_lt (h _ _ _ c hc)
    · simp at hc
      rcases hc with hc | hc | hc
      · simp [hc]
      · exact Nat.le_of_lt (h _ _ _ c hc)
      · exact ih _ c hc

theorem receiveWith_depth (reg : Registry) (proc : DataFlowGraph → NodeId → Run) (d : Nat)
    (h : ∀ g k, ∀ c ∈ (proc g k).log, d ≤ c.depth) (g : DataFlowGraph) (n : NodeId) (data : Variable) :
    ∀ c ∈ (receiveWith reg proc d g n data).log, d ≤ c.depth := by
  intro c hc
  unfold receiveWith at hc
  split at hc
  · simp at hc
  · split at hc
    · simp [baseReceiveData] at hc
    · simp [baseReceiveData] at hc
    · split at hc
      · simp at hc
        rcases hc with hc | hc
        · simp [hc]
        · exact h _ _ c hc
      · simp at hc
    · split at hc
      · exact h _ _ c hc
      · simp at hc
    · split at hc
      · simp at hc
      · exact h _ _ c hc

theorem Process_depth (reg : Registry) :
    ∀ (fuel d : Nat) (g : DataFlowGraph) (n : NodeId), ∀ c ∈ (Process reg fuel d g n).log, d ≤ c.depth := by
  intro fuel
  induction fuel with
  | zero => intro d g n c hc; simp [Process] at hc
  | succ fuel ih =>
    intro d g n c hc
    have hpush : ∀ (v : Variable) (deps : List NodeId) (g1 : DataFlowGraph),
        ∀ c ∈ (pushAll (fun g1 m x => ReceiveData reg fuel (d + 1) g1 m x) d v deps g1).log, d ≤ c.depth := by
      intro v deps g1
      apply pushAll_depth
      intro g2 m x c hc
      exact Nat.lt_of_succ_le (receiveWith_depth reg _ (d + 1) (fun g3 k => ih (d + 1) g3 k) g2 m x c hc)
    rw [Process_succ] at hc
    split at hc
    · simp at hc
    · rename_i node hnode
      have hon := OnProcess_depth reg d g n node
      split at hc
      · simp at hc
        rcases hc with hc | hc
        · simp [hc]
        · exact Nat.le_of_eq (hon c hc).symm
      · split at hc
        · simp at hc
          rcases hc with hc | hc | hc
          · simp [hc]
          · exact Nat.le_of_eq (hon c hc).symm
          · simp [hc]
        · split at hc
          · simp at hc
            rcases hc with hc | hc | hc | hc
            · simp [hc]
            · exact Nat.le_of_eq (hon c hc).symm
            · simp [hc]
            · exact hpush _ _ _ c hc
          · simp at hc
            rcases hc with hc | hc | hc | hc | hc
            · simp [hc]
            · exact Nat.le_of_eq (hon c hc).symm
            · simp [hc]
            · exact hpush _ _ _ c hc
            · simp [hc]

theorem ReceiveData_depth (reg : Registry) (fuel d : Nat) (g : DataFlowGraph) (n : NodeId) (data : Variable) :
    ∀ c ∈ (ReceiveData reg fuel d g n data).log, d ≤ c.depth :=
  receiveWith_depth reg _ d (fun g3 k => Process_depth reg fuel d g3 k) g n data


/-- The shape of a `Process` run that was not stopped by a fault. -/
theorem Process_ok_inv (reg : Registry) (fuel d : Nat) (g : DataFlowGraph) (n : NodeId)
    (hok : (Process reg (fuel + 1) d g n).fault = none) :
    ∃ node, g.nodes[n]? = some node ∧ (OnProcess reg d g n node).2.fault = none ∧
      (((OnProcess reg d g n node).1 = none ∧
          Process reg (fuel + 1) d g n = ⟨(OnProcess reg d g n node).2.graph,
            ⟨d, Event.enter n⟩ :: ((OnProcess reg d g n node).2.log ++ [⟨d, Event.result n none⟩]), none⟩) ∨
       (∃ v, (OnProcess reg d g n node).1 = some v ∧
          (pushAll (fun g1 m x => ReceiveData reg fuel (d + 1) g1 m x) d v node.dependencies
              (OnProcess reg d g n node).2.graph).fault = none ∧
          Process reg (fuel + 1) d g n =
            ⟨(pushAll (fun g1 m x => ReceiveData reg fuel (d + 1) g1 m x) d v node.dependencies
                (OnProcess reg d g n node).2.graph).graph,
             ⟨d, Event.enter n⟩ :: ((OnProcess reg d g n node).2.log ++ ⟨d, Event.result n (some v)⟩ ::
               ((pushAll (fun g1 m x => ReceiveData reg fuel (d + 1) g1 m x) d v node.dependencies
                  (OnProcess reg d g n node).2.graph).log ++ [⟨d, Event.freeVar v⟩])), none⟩)) := by
  rw [Process_succ] at hok ⊢
  cases hnode : g.nodes[n]? with
  | none => simp [hnode] at hok
  | some node =>
    simp only [hnode] at hok ⊢
    refine ⟨node, rfl, ?_⟩
    cases hf : (OnProcess reg d g n node).2.fault with
    | some f => simp [hf] at hok
    | none =>
      simp only [hf] at hok ⊢
      refine ⟨trivial, ?_⟩
      cases hr : (OnProcess reg d g n node).1 with
      | none => left; simp
      | some v =>
        right
        simp only [hr] at hok ⊢
        cases hp : (pushAll (fun g1 m x => ReceiveData reg fuel (d + 1) g1 m x) d v node.dependencies
              (OnProcess reg d g n node).2.graph).fault with
        | some f => simp [hp] at hok
        | none => exact ⟨v, rfl, hp, by simp [hp]⟩

theorem pushesAndFrees_append (d : Nat) (l1 l2 : List Call) :
    pushesAndFrees d (l1 ++ l2) = pushesAndFrees d l1 ++ pushesAndFrees d l2 := by
  simp [pushesAndFrees]

theorem pushesAndFrees_deeper (d : Nat) (l : List Call) (h : ∀ c ∈ l, d < c.depth) :
    pushesAndFrees d l = [] := by
  simp only [pushesAndFrees, List.map_eq_nil_iff, List.filter_eq_nil_iff]
  intro c hc
  have := h c hc
  simp
  intro h2
  omega

theorem pushesAndFrees_other (d : Nat) (l : List Call) (h : ∀ c ∈ l, c.event.fromProcess = false) :
    pushesAndFrees d l = [] := by
  simp only [pushesAndFrees, List.map_eq_nil_iff, List.filter_eq_nil_iff]
  intro c hc
  have := h c hc
  cases hce : c.event <;> simp_all [Event.fromProcess, Event.isPushOrFree]

theorem pushAll_direct (recv : DataFlowGraph → NodeId → Variable → Run) (d : Nat) (v : Variable)
    (h : ∀ g m x, ∀ c ∈ (recv g m x).log, d < c.depth) :
    ∀ (deps : List NodeId) (g : DataFlowGraph), (pushAll recv d v deps g).fault = none →
      pushesAndFrees d (pushAll recv d v deps g).log = deps.map (fun m => Event.receive m v) := by
  intro deps
  induction deps with
  | nil => intro g _; simp [pushAll, pushesAndFrees]
  | cons dep rest ih =>
    intro g hok
    simp only [pushAll] at hok ⊢
    cases hf : (recv g dep v).fault with
    | some f => simp [hf] at hok
    | none =>
      simp only [hf] at hok ⊢
      have e : (⟨d, Event.receive dep v⟩ :: ((recv g dep v).log ++ (pushAll recv d v rest (recv g dep v).graph).log) : List Call)
          = [⟨d, Event.receive dep v⟩] ++ ((recv g dep v).log ++ (pushAll recv d v rest (recv g dep v).graph).log) := rfl
      rw [e, pushesAndFrees_append, pushesAndFrees_append, pushesAndFrees_deeper d _ (h g dep v), ih _ hok]
      simp [pushesAndFrees, Event.isPushOrFree]

/-- The `ReceiveData` and `FreeVar` calls that a completed `Process` issues
itself, read off the result of `OnProcess`. -/
theorem Process_direct (reg : Registry) (fuel d : Nat) (g : DataFlowGraph) (n : NodeId)
    (node : DataNode) (hnode : g.nodes[n]? = some node)
    (hok : (Process reg (fuel + 1) d g n).fault = none) :
    pushesAndFrees d (Process reg (fuel + 1) d g n).log =
      match (OnProcess reg d g n node).1 with
      | none => []
      | some r => node.dependencies.map (fun m => Event.receive m r) ++ [Event.freeVar r] := by
  obtain ⟨node1, hnode1, _, hcase⟩ := Process_ok_inv reg fuel d g n hok
  rw [hnode] at hnode1
  cases hnode1
  rcases hcase with ⟨hnone, heq⟩ | ⟨v, hv, hpush, heq⟩
  · rw [hnone, heq]
    have e : ∀ (a : Call) (l1 : List Call) (b : Call), a :: (l1 ++ [b]) = [a] ++ (l1 ++ [b]) := by
      intros; simp
    simp only [e, pushesAndFrees_append]
    rw [pushesAndFrees_other d _ (OnProcess_log_events reg d g n node)]
    simp [pushesAndFrees, Event.isPushOrFree]
  · rw [hv, heq]
    have e : ∀ (a : Call) (l1 : List Call) (b : Call) (l2 : List Call) (c : Call),
        a :: (l1 ++ b :: (l2 ++ [c])) = [a] ++ (l1 ++ ([b] ++ (l2 ++ [c]))) := by
      intros; simp
    simp only [e, pushesAndFrees_append]
    rw [pushesAndFrees_other d _ (OnProcess_log_events reg d g n node)]
    rw [pushAll_direct _ d v (fun g2 m x c hc => Nat.lt_of_succ_le (ReceiveData_depth reg fuel (d + 1) g2 m x c hc)) _ _ hpush]
    simp [pushesAndFrees, Event.isPushOrFree]

/-! ## C1 and C2: what `Process` sends to the dependents -/

/-- C1. When `OnProcess` of a node produces a result `r`, the `ReceiveData` and
`FreeVar` calls that a completed `Process` issues itself are exactly one
`ReceiveData(m, r)` per entry `m` of the dependents list, in registration
order, followed by `FreeVar(r)`. -/
theorem Process_pushes_then_frees (reg : Registry) (fuel d : Nat) (g : DataFlowGraph) (n : NodeId)
    (node : DataNode) (r : Variable)
    (hnode : g.nodes[n]? = some node)
    (hres : (OnProcess reg d g n node).1 = some r)
    (hok : (Process reg (fuel + 1) d g n).fault = none) :
    pushesAndFrees d (Process reg (fuel + 1) d g n).log =
      node.dependencies.map (fun m => Event.receive m r) ++ [Event.freeVar r] := by
  obtain ⟨node1, hnode1, _, hcase⟩ := Process_ok_inv reg fuel d g n hok
  rw [hnode] at hnode1
  cases hnode1
  rcases hcase with ⟨hnone, _⟩ | ⟨v, hv, hpush, heq⟩
  · rw [hres] at hnone
    cases hnone
  · rw [hres] at hv
    cases hv
    rw [heq]
    have e : ∀ (a : Call) (l1 : List Call) (b : Call) (l2 : List Call) (c : Call),
        a :: (l1 ++ b :: (l2 ++ [c])) = [a] ++ (l1 ++ ([b] ++ (l2 ++ [c]))) := by
      intros; simp
    simp only [e, pushesAndFrees_append]
    rw [pushesAndFrees_other d _ (OnProcess_log_events reg d g n node)]
    rw [pushAll_direct _ d r
      (fun g2 m x c hc => Nat.lt_of_succ_le (ReceiveData_depth reg fuel (d + 1) g2 m x c hc)) _ _ hpush]
    simp [pushesAndFrees, Event.isPushOrFree]

/-- Witness for C1 on the literal with two OutputNode dependents. -/
theorem Process_pushes_then_frees_witness :
    pushesAndFrees 0 (Process plainRegistry 3 0 fanOutGraph 0).log =
      [Event.receive 1 literalFive, Event.receive 2 literalFive, Event.freeVar literalFive] :=
  Process_pushes_then_frees plainRegistry 2 0 fanOutGraph 0
    ⟨[1, 2], NodeKind.literal (some literalFive)⟩ literalFive rfl rfl rfl

/-- C2, counterexample. The ArgNode 0 of `nullArgGraph` has one dependent, its
`Process` completes, and no `ReceiveData` call was made at all. -/
theorem Process_null_result_sends_nothing :
    (GetNodeAt nullArgGraph 0).map DataNode.dependencies = some [1] ∧
      (Process plainRegistry 3 0 nullArgGraph 0).fault = none ∧
      (Process plainRegistry 3 0 nullArgGraph 0).log =
        [⟨0, Event.enter 0⟩, ⟨0, Event.result 0 none⟩] := by
  decide

/-- C2, amended. After a completed `Process` on a node whose `OnProcess`
produced a result `r`, each of the `k` entries of the dependents list has been
sent exactly one `ReceiveData` call by that `Process`, carrying `r`, in
registration order; when `OnProcess` produced no result, `Process` sent no
`ReceiveData` call. -/
theorem Process_pushes (reg : Registry) (fuel d : Nat) (g : DataFlowGraph) (n : NodeId)
    (node : DataNode) (hnode : g.nodes[n]? = some node)
    (hok : (Process reg (fuel + 1) d g n).fault = none) :
    pushes d (Process reg (fuel + 1) d g n).log =
      match (OnProcess reg d g n node).1 with
      | none => []
      | some r => node.dependencies.map (fun m => (m, r)) := by
  unfold pushes
  rw [Process_direct reg fuel d g n node hnode hok]
  cases (OnProcess reg d g n node).1 with
  | none => simp
  | some r =>
    simp only [List.filterMap_append, List.filterMap_cons, List.filterMap_nil, List.append_nil]
    induction node.dependencies with
    | nil => simp
    | cons m rest ih => simp [ih]

/-- Witness for the amended C2 on the literal with two OutputNode dependents. -/
theorem Process_pushes_witness :
    pushes 0 (Process plainRegistry 3 0 fanOutGraph 0).log = [(1, literalFive), (2, literalFive)] :=
  Process_pushes plainRegistry 2 0 fanOutGraph 0
    ⟨[1, 2], NodeKind.literal (some literalFive)⟩ rfl rfl

/-! ## C3 and C4: when result Variables are freed -/

theorem frees_append (v : Variable) (l1 l2 : List Call) :
    frees v (l1 ++ l2) = frees v l1 + frees v l2 := by
  simp [frees, List.countP_append]

theorem returns_append (v : Variable) (l1 l2 : List Call) :
    returns v (l1 ++ l2) = returns v l1 + returns v l2 := by
  simp [returns, List.countP_append]

theorem frees_other (v : Variable) (l : List Call) (h : ∀ c ∈ l, c.event.fromProcess = false) :
    frees v l = 0 := by
  simp only [frees, List.countP_eq_zero]
  intro c hc
  have := h c hc
  cases hce : c.event <;> simp_all [Event.fromProcess, Event.isFreeOf]

theorem returns_other (v : Variable) (l : List Call) (h : ∀ c ∈ l, c.event.fromProcess = false) :
    returns v l = 0 := by
  simp only [returns, List.countP_eq_zero]
  intro c hc
  have := h c hc
  cases hce : c.event <;> simp_all [Event.fromProcess, Event.isResultOf]

/-- The push loop keeps frees and returns in step when every `ReceiveData`
does. -/
theorem pushAll_balanced (recv : DataFlowGraph → NodeId → Variable → Run) (d : Nat) (x : Variable)
    (v : Variable)
    (h : ∀ g m, (recv g m x).fault = none → frees v (recv g m x).log = returns v (recv g m x).log) :
    ∀ (deps : List NodeId) (g : DataFlowGraph), (pushAll recv d x deps g).fault = none →
      frees v (pushAll recv d x deps g).log = returns v (pushAll recv d x deps g).log := by
  intro deps
  induction deps with
  | nil => intro g _; simp [pushAll, frees, returns]
  | cons dep rest ih =>
    intro g hok
    simp only [pushAll] at hok ⊢
    cases hf : (recv g dep x).fault with
    | some f => simp [hf] at hok
    | none =>
      simp only [hf] at hok ⊢
      have e : (⟨d, Event.receive dep x⟩ :: ((recv g dep x).log ++ (pushAll recv d x rest (recv g dep x).graph).log) : List Call)
          = [⟨d, Event.receive dep x⟩] ++ ((recv g dep x).log ++ (pushAll recv d x rest (recv g dep x).graph).log) := rfl
      rw [e, frees_append, frees_append, returns_append, returns_append, h g dep hf, ih _ hok]
      simp [frees, returns, Event.isFreeOf, Event.isResultOf]

/-- An override of `ReceiveData` keeps frees and returns in step when the
`Process` it calls does. -/
theorem receiveWith_balanced (reg : Registry) (proc : DataFlowGraph → NodeId → Run) (d : Nat)
    (v : Variable)
    (h : ∀ g k, (proc g k).fault = none → frees v (proc g k).log = returns v (proc g k).log)
    (g : DataFlowGraph) (n : NodeId) (data : Variable)
    (hok : (receiveWith reg proc d g n data).fault = none) :
    frees v (receiveWith reg proc d g n data).log = returns v (receiveWith reg proc d g n data).log := by
  unfold receiveWith at hok ⊢
  split
  · simp [frees, returns]
  · rename_i node hnode
    simp only [hnode] at hok
    split
    · simp [frees, returns, baseReceiveData]
    · simp [frees, returns, baseReceiveData]
    · rename_i hk
      simp only [hk] at hok
      split
      · rename_i hv
        simp only [hv, if_true] at hok
        have hb := h _ _ hok
        have e : ∀ (a : Call) (l : List Call), a :: l = [a] ++ l := fun _ _ => rfl
        simp only [e _ (proc _ _).log]
        rw [frees_append, returns_append, hb]
        simp [frees, returns, Event.isFreeOf, Event.isResultOf]
      · simp [frees, returns]
    · rename_i hk
      simp only [hk] at hok
      split
      · rename_i hv
        simp only [hv, if_true] at hok
        exact h _ _ hok
      · simp [frees, returns]
    · rename_i hk
      simp only [hk] at hok
      split
      · simp [frees, returns]
      · exact h _ _ hok


/-- In a completed `Process` run, every Variable is passed to `FreeVar` as
many times as an `OnProcess` returned it. -/
theorem Process_balanced (reg : Registry) (v : Variable) :
    ∀ (fuel d : Nat) (g : DataFlowGraph) (n : NodeId), (Process reg fuel d g n).fault = none →
      frees v (Process reg fuel d g n).log = returns v (Process reg fuel d g n).log := by
  intro fuel
  induction fuel with
  | zero => intro d g n hok; simp [Process] at hok
  | succ fuel ih =>
    intro d g n hok
    obtain ⟨node, _, _, hcase⟩ := Process_ok_inv reg fuel d g n hok
    have hon := OnProcess_log_events reg d g n node
    rcases hcase with ⟨_, heq⟩ | ⟨x, _, hpush, heq⟩
    · rw [heq]
      have e : ∀ (a : Call) (l1 : List Call) (b : Call), a :: (l1 ++ [b]) = [a] ++ (l1 ++ [b]) := by
        intros; simp
      simp only [e, frees_append, returns_append]
      rw [frees_other v _ hon, returns_other v _ hon]
      simp [frees, returns, Event.isFreeOf, Event.isResultOf]
    · rw [heq]
      have e : ∀ (a : Call) (l1 : List Call) (b : Call) (l2 : List Call) (c : Call),
          a :: (l1 ++ b :: (l2 ++ [c])) = [a] ++ (l1 ++ ([b] ++ (l2 ++ [c]))) := by
        intros; simp
      simp only [e, frees_append, returns_append]
      rw [frees_other v _ hon, returns_other v _ hon]
      have hb := pushAll_balanced (fun g1 m y => ReceiveData reg fuel (d + 1) g1 m y) d x v
        (fun g2 m hm => receiveWith_balanced reg _ (d + 1) v (fun g3 k => ih (d + 1) g3 k) g2 m x hm)
        _ _ hpush
      rw [hb]
      simp only [frees, returns, List.countP_cons, List.countP_nil, Event.isFreeOf, Event.isResultOf]
      omega

/-- C3, counterexample. In `literalOutputGraph` one `Process` on the literal
completes; the literal's Variable is returned by the `OnProcess` of the
literal and of the OutputNode, and is passed to `FreeVar` twice. -/
theorem literal_freed_twice :
    (Process plainRegistry 3 0 literalOutputGraph 0).fault = none ∧
      returns literalFive (Process plainRegistry 3 0 literalOutputGraph 0).log = 2 ∧
      frees literalFive (Process plainRegistry 3 0 literalOutputGraph 0).log = 2 := by
  decide

/-- C3, amended. In every completed cascade started by `Process` on a node,
every Variable is passed to `FreeVar` exactly once for each time an
`OnProcess` returned it; so a returned Variable is freed at least once, and
more than once when several `OnProcess` executions returned it. -/
theorem Process_frees_each_result (reg : Registry) (fuel d : Nat) (g : DataFlowGraph) (n : NodeId)
    (v : Variable) (hok : (Process reg fuel d g n).fault = none) :
    frees v (Process reg fuel d g n).log = returns v (Process reg fuel d g n).log ∧
      (0 < returns v (Process reg fuel d g n).log → 0 < frees v (Process reg fuel d g n).log) := by
  have hb := Process_balanced reg v fuel d g n hok
  refine ⟨hb, ?_⟩
  intro hpos
  rw [hb]
  exact hpos

/-- Witness for the amended C3 on the literal with two OutputNode dependents:
its Variable is returned three times and freed three times. -/
theorem Process_frees_each_result_witness :
    frees literalFive (Process plainRegistry 3 0 fanOutGraph 0).log = 3 ∧
      returns literalFive (Process plainRegistry 3 0 fanOutGraph 0).log = 3 := by
  have h := Process_frees_each_result plainRegistry 3 0 fanOutGraph 0 literalFive (by decide)
  refine ⟨?_, by decide⟩
  rw [h.1]
  decide

/-- C4, counterexample. In `fanOutGraph` the first dependent, an OutputNode,
passes the literal's Variable to `FreeVar` before the second dependent
receives it. -/
theorem fanOut_receives_freed :
    (Process plainRegistry 3 0 fanOutGraph 0).fault = none ∧
      receivesFreed [] (Process plainRegistry 3 0 fanOutGraph 0).log = true := by
  decide

/-- C4, amended. The `FreeVar` that a completed `Process` issues for its own
result `r` is the last call of the whole run: all `k` pushes of `r` that this
`Process` sends, with everything they set off, come before it, and
`Process` itself frees nothing earlier. -/
theorem Process_frees_last (reg : Registry) (fuel d : Nat) (g : DataFlowGraph) (n : NodeId)
    (node : DataNode) (r : Variable)
    (hnode : g.nodes[n]? = some node)
    (hres : (OnProcess reg d g n node).1 = some r)
    (hok : (Process reg (fuel + 1) d g n).fault = none) :
    ∃ before, (Process reg (fuel + 1) d g n).log = before ++ [⟨d, Event.freeVar r⟩] ∧
      pushesAndFrees d before = node.dependencies.map (fun m => Event.receive m r) := by
  obtain ⟨node1, hnode1, _, hcase⟩ := Process_ok_inv reg fuel d g n hok
  rw [hnode] at hnode1
  cases hnode1
  rcases hcase with ⟨hnone, _⟩ | ⟨v, hv, hpush, heq⟩
  · rw [hres] at hnone
    cases hnone
  · rw [hres] at hv
    cases hv
    refine ⟨⟨d, Event.enter n⟩ :: ((OnProcess reg d g n node).2.log ++ ⟨d, Event.result n (some r)⟩ ::
      (pushAll (fun g1 m x => ReceiveData reg fuel (d + 1) g1 m x) d r node.dependencies
        (OnProcess reg d g n node).2.graph).log), ?_, ?_⟩
    · rw [heq]
      simp
    · have e : ∀ (a : Call) (l1 : List Call) (b : Call) (l2 : List Call),
          a :: (l1 ++ b :: l2) = [a] ++ (l1 ++ ([b] ++ l2)) := by
        intros; simp
      simp only [e, pushesAndFrees_append]
      rw [pushesAndFrees_other d _ (OnProcess_log_events reg d g n node)]
      rw [pushAll_direct _ d r
        (fun g2 m x c hc => Nat.lt_of_succ_le (ReceiveData_depth reg fuel (d + 1) g2 m x c hc)) _ _ hpush]
      simp [pushesAndFrees, Event.isPushOrFree]

/-- Witness for the amended C4 on the literal with two OutputNode dependents. -/
theorem Process_frees_last_witness :
    ∃ before, (Process plainRegistry 3 0 fanOutGraph 0).log = before ++ [⟨0, Event.freeVar literalFive⟩] ∧
      pushesAndFrees 0 before = [Event.receive 1 literalFive, Event.receive 2 literalFive] :=
  Process_frees_last plainRegistry 2 0 fanOutGraph 0
    ⟨[1, 2], NodeKind.literal (some literalFive)⟩ literalFive rfl rfl rfl

/-! ## How a cascade changes the graph -/

theorem kind_evolves_refl (k : NodeKind) : k.evolves k := by
  cases k <;> simp [NodeKind.evolves]

theorem kind_evolves_trans {a b c : NodeKind} (h1 : a.evolves b) (h2 : b.evolves c) :
    a.evolves c := by
  cases a <;> cases b <;> simp [NodeKind.evolves] at h1 <;>
    cases c <;> simp [NodeKind.evolves] at h2 ⊢
  · exact h1.trans h2
  · exact h1.trans h2
  · exact h1.trans h2
  · exact ⟨h1.1.trans h2.1, h1.2.trans h2.2⟩
  · exact ⟨h1.1.trans h2.1, fun x hx => h2.2 x (h1.2 x hx)⟩

theorem node_evolves_refl (a : DataNode) : a.evolves a :=
  ⟨rfl, kind_evolves_refl a.kind⟩

theorem node_evolves_trans {a b c : DataNode} (h1 : a.evolves b) (h2 : b.evolves c) :
    a.evolves c :=
  ⟨h1.1.trans h2.1, kind_evolves_trans h1.2 h2.2⟩

theorem graph_evolves_refl (g : DataFlowGraph) : g.evolves g :=
  ⟨rfl, fun _ a h => ⟨a, h, node_evolves_refl a⟩⟩

theorem graph_evolves_trans {g h k : DataFlowGraph} (h1 : g.evolves h) (h2 : h.evolves k) :
    g.evolves k := by
  refine ⟨h1.1.trans h2.1, ?_⟩
  intro i a ha
  obtain ⟨b, hb, hab⟩ := h1.2 i a ha
  obtain ⟨c, hc, hbc⟩ := h2.2 i b hb
  exact ⟨c, hc, node_evolves_trans hab hbc⟩

/-- Overwriting a node by an allowed successor, with any registry state. -/
theorem evolves_set (g : DataFlowGraph) (n : NodeId) (node node2 : DataNode) (s : Nat)
    (hnode : g.nodes[n]? = some node) (hev : node.evolves node2) :
    g.evolves { nodes := g.nodes.set n node2, registry := s } := by
  refine ⟨by simp, ?_⟩
  intro i a ha
  by_cases hi : n = i
  · subst hi
    rw [hnode] at ha
    cases ha
    refine ⟨node2, ?_, hev⟩
    have hlt : n < g.nodes.length := by
      rcases List.getElem?_eq_some.mp hnode with ⟨h, _⟩
      exact h
    simp [List.getElem?_set, hlt]
  · refine ⟨a, ?_, node_evolves_refl a⟩
    simp [List.getElem?_set, hi, ha]

theorem OnProcess_evolves (reg : Registry) (d : Nat) (g : DataFlowGraph) (n : NodeId) (node : DataNode)
    (hnode : g.nodes[n]? = some node) : g.evolves (OnProcess reg d g n node).2.graph := by
  unfold OnProcess
  split
  · exact graph_evolves_refl g
  · exact graph_evolves_refl g
  · exact graph_evolves_refl g
  · exact graph_evolves_refl g
  · rename_i op s1 s2 res hk
    split
    · split
      · dsimp only
        split
        · exact evolves_set g n node _ _ hnode ⟨rfl, by simp [hk, NodeKind.evolves]⟩
        · exact evolves_set g n node _ _ hnode ⟨rfl, by simp [hk, NodeKind.evolves]⟩
      · exact graph_evolves_refl g
    · exact graph_evolves_refl g

theorem pushAll_evolves (recv : DataFlowGraph → NodeId → Variable → Run) (d : Nat) (v : Variable)
    (h : ∀ (g : DataFlowGraph) (m : NodeId) (x : Variable), g.evolves (recv g m x).graph) :
    ∀ (deps : List NodeId) (g : DataFlowGraph), g.evolves (pushAll recv d v deps g).graph := by
  intro deps
  induction deps with
  | nil => intro g; exact graph_evolves_refl g
  | cons dep rest ih =>
    intro g
    simp only [pushAll]
    split
    · exact h g dep v
    · exact graph_evolves_trans (h g dep v) (ih _)

theorem receiveWith_evolves (reg : Registry) (proc : DataFlowGraph → NodeId → Run) (d : Nat)
    (h : ∀ (g : DataFlowGraph) (k : NodeId), g.evolves (proc g k).graph) (g : DataFlowGraph) (n : NodeId) (data : Variable) :
    g.evolves (receiveWith reg proc d g n data).graph := by
  unfold receiveWith
  split
  · exact graph_evolves_refl g
  · rename_i node hnode
    split
    · exact graph_evolves_refl g
    · exact graph_evolves_refl g
    · rename_i hk
      split
      · refine graph_evolves_trans ?_ (h _ _)
        exact evolves_set g n node _ _ hnode ⟨rfl, by simp [hk, NodeKind.evolves]⟩
      · exact graph_evolves_refl g
    · rename_i hk
      split
      · refine graph_evolves_trans ?_ (h _ _)
        exact evolves_set g n node _ _ hnode ⟨rfl, by simp [hk, NodeKind.evolves]⟩
      · exact graph_evolves_refl g
    · rename_i hk
      split
      · exact evolves_set g n node _ _ hnode ⟨rfl, by simp [hk, NodeKind.evolves]⟩
      · refine graph_evolves_trans ?_ (h _ _)
        exact evolves_set g n node _ _ hnode ⟨rfl, by simp [hk, NodeKind.evolves]⟩

theorem Process_evolves (reg : Registry) :
    ∀ (fuel d : Nat) (g : DataFlowGraph) (n : NodeId), g.evolves (Process reg fuel d g n).graph := by
  intro fuel
  induction fuel with
  | zero => intro d g n; exact graph_evolves_refl g
  | succ fuel ih =>
    intro d g n
    have hpush : ∀ (v : Variable) (deps : List NodeId) (g1 : DataFlowGraph),
        g1.evolves (pushAll (fun g1 m x => ReceiveData reg fuel (d + 1) g1 m x) d v deps g1).graph := by
      intro v deps g1
      apply pushAll_evolves
      intro g2 m x
      exact receiveWith_evolves reg _ (d + 1) (fun g3 k => ih (d + 1) g3 k) g2 m x
    rw [Process_succ]
    split
    · exact graph_evolves_refl g
    · rename_i node hnode
      have hon := OnProcess_evolves reg d g n node hnode
      split
      · exact hon
      · split
        · exact hon
        · split
          · exact graph_evolves_trans hon (hpush _ _ _)
          · exact graph_evolves_trans hon (hpush _ _ _)

theorem ReceiveData_evolves (reg : Registry) (fuel d : Nat) (g : DataFlowGraph) (n : NodeId)
    (data : Variable) : g.evolves (ReceiveData reg fuel d g n data).graph :=
  receiveWith_evolves reg _ d (fun g3 k => Process_evolves reg fuel d g3 k) g n data

theorem deliver_evolves (reg : Registry) (fuel d : Nat) (n : NodeId) :
    ∀ (ds : List Variable) (g : DataFlowGraph), g.evolves (deliver reg fuel d n ds g).graph := by
  intro ds
  induction ds with
  | nil => intro g; exact graph_evolves_refl g
  | cons x rest ih =>
    intro g
    simp only [deliver]
    split
    · exact ReceiveData_evolves reg fuel d g n x
    · exact graph_evolves_trans (ReceiveData_evolves reg fuel d g n x) (ih _)

/-! ## C5: the first operand of a BinaryNode -/

/-- Reading back a node that was just stored. -/
theorem getElem?_set_self_of_some (nodes : List DataNode) (n : NodeId) (node node2 : DataNode)
    (hnode : nodes[n]? = some node) : (nodes.set n node2)[n]? = some node2 := by
  have hlt : n < nodes.length := by
    rcases List.getElem?_eq_some.mp hnode with ⟨h, _⟩
    exact h
  simp [List.getElem?_set, hlt]

/-- A `Process` call on a node of the graph logs its entry first. -/
theorem Process_logs_enter (reg : Registry) (fuel d : Nat) (g : DataFlowGraph) (n : NodeId)
    (node : DataNode) (hnode : g.nodes[n]? = some node) :
    ∃ rest, (Process reg (fuel + 1) d g n).log = ⟨d, Event.enter n⟩ :: rest := by
  rw [Process_succ]
  simp only [hnode]
  split
  · exact ⟨_, rfl⟩
  · split
    · exact ⟨_, rfl⟩
    · split
      · exact ⟨_, rfl⟩
      · exact ⟨_, rfl⟩

/-- The first `ReceiveData` on a BinaryNode with empty slots, as an equation. -/
theorem ReceiveData_binary_empty (reg : Registry) (fuel d : Nat) (g : DataFlowGraph) (n : NodeId)
    (deps : List NodeId) (op : OperatorType) (data : Variable)
    (hnode : g.nodes[n]? = some ⟨deps, NodeKind.binary op none none none⟩) :
    ReceiveData reg fuel d g n data =
      ⟨g.setNode n ⟨deps, NodeKind.binary op (some data) none none⟩, [], none⟩ := by
  simp [ReceiveData, receiveWith, hnode]

/-- C5. The first `ReceiveData` on a freshly constructed BinaryNode (whatever
dependents were registered on it) issues no call at all, raises no fault, and
changes the graph only by storing the data in operand slot 1; slot 2 and the
result slot stay empty. -/
theorem BinaryNode_first_receive (reg : Registry) (fuel d : Nat) (g : DataFlowGraph) (n : NodeId)
    (deps : List NodeId) (op : OperatorType) (data : Variable)
    (hnode : g.nodes[n]? = some ⟨deps, NodeKind.binary op none none none⟩) :
    (ReceiveData reg fuel d g n data).log = [] ∧
      (ReceiveData reg fuel d g n data).fault = none ∧
      (ReceiveData reg fuel d g n data).graph =
        g.setNode n ⟨deps, NodeKind.binary op (some data) none none⟩ ∧
      GetNodeAt (ReceiveData reg fuel d g n data).graph n =
        some ⟨deps, NodeKind.binary op (some data) none none⟩ := by
  have h := ReceiveData_binary_empty reg fuel d g n deps op data hnode
  have hget : (g.setNode n ⟨deps, NodeKind.binary op (some data) none none⟩).nodes[n]? =
      some ⟨deps, NodeKind.binary op (some data) none none⟩ :=
    getElem?_set_self_of_some g.nodes n _ _ hnode
  rw [h]
  exact ⟨rfl, rfl, rfl, hget⟩

/-- Witness for C5 on the BinaryNode of `productGraph`, which has a dependent. -/
theorem BinaryNode_first_receive_witness :
    (ReceiveData plainRegistry 3 0 productGraph 2 literalFive).log = [] ∧
      (ReceiveData plainRegistry 3 0 productGraph 2 literalFive).fault = none ∧
      (ReceiveData plainRegistry 3 0 productGraph 2 literalFive).graph =
        productGraph.setNode 2 ⟨[3], NodeKind.binary 2 (some literalFive) none none⟩ ∧
      GetNodeAt (ReceiveData plainRegistry 3 0 productGraph 2 literalFive).graph 2 =
        some ⟨[3], NodeKind.binary 2 (some literalFive) none none⟩ :=
  BinaryNode_first_receive plainRegistry 3 0 productGraph 2 [3] 2 literalFive rfl

/-- A `ReceiveData` on a BinaryNode whose slot 1 is filled calls `Process`. -/
theorem BinaryNode_later_receive_enters (reg : Registry) (fuel d : Nat) (g : DataFlowGraph)
    (n : NodeId) (deps : List NodeId) (op : OperatorType) (a : Variable)
    (s2 res : Option Variable) (data : Variable)
    (hnode : g.nodes[n]? = some ⟨deps, NodeKind.binary op (some a) s2 res⟩) :
    ∃ rest, (ReceiveData reg (fuel + 1) d g n data).log = ⟨d, Event.enter n⟩ :: rest := by
  have h : ReceiveData reg (fuel + 1) d g n data =
      Process reg (fuel + 1) d (g.setNode n ⟨deps, NodeKind.binary op (some a) (some data) res⟩) n := by
    simp [ReceiveData, receiveWith, hnode]
  rw [h]
  exact Process_logs_enter reg fuel d _ n _ (getElem?_set_self_of_some g.nodes n _ _ hnode)

/-- After a nonempty sequence of `ReceiveData` calls on a fresh BinaryNode,
slot 1 holds the first Variable of the sequence. -/
theorem deliver_keeps_first (reg : Registry) (fuel d : Nat) (g : DataFlowGraph) (n : NodeId)
    (deps : List NodeId) (op : OperatorType) (x : Variable) (rest : List Variable)
    (hnode : g.nodes[n]? = some ⟨deps, NodeKind.binary op none none none⟩) :
    ∃ s2 res, (deliver reg fuel d n (x :: rest) g).graph.nodes[n]? =
      some ⟨deps, NodeKind.binary op (some x) s2 res⟩ := by
  have hfirst := ReceiveData_binary_empty reg fuel d g n deps op x hnode
  have hfault : (ReceiveData reg fuel d g n x).fault = none := by rw [hfirst]
  have hget : (ReceiveData reg fuel d g n x).graph.nodes[n]? =
      some ⟨deps, NodeKind.binary op (some x) none none⟩ := by
    rw [hfirst]
    exact getElem?_set_self_of_some g.nodes n _ _ hnode
  have hev := deliver_evolves reg fuel d n rest (ReceiveData reg fuel d g n x).graph
  obtain ⟨b, hb, hdeps, hkind⟩ := hev.2 n _ hget
  have hd : (deliver reg fuel d n (x :: rest) g).graph =
      (deliver reg fuel d n rest (ReceiveData reg fuel d g n x).graph).graph := by
    simp [deliver, hfault]
  rw [hd, hb]
  cases b with
  | mk bdeps bkind =>
    cases bkind <;> simp [NodeKind.evolves] at hkind
    rename_i op2 s1 s2 res
    obtain ⟨hop, hs1⟩ := hkind
    simp at hdeps
    subst hop
    subst hdeps
    exact ⟨s2, res, by simp [hs1]⟩

/-! ## C7 to C10: the fold-or-emit decision of a BinaryNode -/

/-- The emit branch of `BinaryNode::OnProcess`. -/
theorem OnProcess_binary_emit (reg : Registry) (d : Nat) (g : DataFlowGraph) (n : NodeId)
    (deps : List NodeId) (op : OperatorType) (a b : Variable) (res : Option Variable)
    (htype : a.valueType = b.valueType)
    (hn : needsCode (reg.Combine g.registry a b op).1 = true) :
    OnProcess reg d g n ⟨deps, NodeKind.binary op (some a) (some b) res⟩ =
      (some (reg.AddLocalScalarVariable (reg.Combine g.registry a b op).2 a.valueType).1,
        ⟨{ nodes := g.nodes.set n ⟨deps, NodeKind.binary op (some a) (some b)
              (some (reg.AddLocalScalarVariable (reg.Combine g.registry a b op).2 a.valueType).1)⟩,
           registry := (reg.AddLocalScalarVariable (reg.Combine g.registry a b op).2 a.valueType).2 },
         [⟨d, Event.combine a b op⟩, ⟨d, Event.addLocalScalar a.valueType⟩, ⟨d, Event.compile n⟩],
         none⟩) := by
  simp only [OnProcess, htype, if_true, hn]

/-- The fold branch of `BinaryNode::OnProcess`. -/
theorem OnProcess_binary_fold (reg : Registry) (d : Nat) (g : DataFlowGraph) (n : NodeId)
    (deps : List NodeId) (op : OperatorType) (a b : Variable) (res : Option Variable)
    (htype : a.valueType = b.valueType)
    (hn : needsCode (reg.Combine g.registry a b op).1 = false) :
    OnProcess reg d g n ⟨deps, NodeKind.binary op (some a) (some b) res⟩ =
      ((reg.Combine g.registry a b op).1,
        ⟨{ nodes := g.nodes.set n ⟨deps, NodeKind.binary op (some a) (some b)
              (reg.Combine g.registry a b op).1⟩,
           registry := (reg.Combine g.registry a b op).2 },
         [⟨d, Event.combine a b op⟩],
         none⟩) := by
  simp only [OnProcess, htype, if_true, hn]
  simp

/-- C7. With both slots holding Variables of the same type and `Combine`
answering with a Variable whose computed flag is set, `OnProcess` of a
BinaryNode returns exactly that Variable and its only call is the `Combine`
request: no local scalar is allocated and no emission call is made. -/
theorem BinaryNode_fold_path (reg : Registry) (d : Nat) (g : DataFlowGraph) (n : NodeId)
    (deps : List NodeId) (op : OperatorType) (a b : Variable) (res : Option Variable) (c : Variable)
    (htype : a.valueType = b.valueType)
    (hcombine : (reg.Combine g.registry a b op).1 = some c)
    (hcomputed : c.IsComputed = true) :
    (OnProcess reg d g n ⟨deps, NodeKind.binary op (some a) (some b) res⟩).1 = some c ∧
      (OnProcess reg d g n ⟨deps, NodeKind.binary op (some a) (some b) res⟩).2.log =
        [⟨d, Event.combine a b op⟩] ∧
      (OnProcess reg d g n ⟨deps, NodeKind.binary op (some a) (some b) res⟩).2.fault = none ∧
      (OnProcess reg d g n ⟨deps, NodeKind.binary op (some a) (some b) res⟩).2.graph.registry =
        (reg.Combine g.registry a b op).2 := by
  have hn : needsCode (reg.Combine g.registry a b op).1 = false := by
    simp [hcombine, needsCode, hcomputed]
  rw [OnProcess_binary_fold reg d g n deps op a b res htype hn]
  exact ⟨hcombine, rfl, rfl, rfl⟩

/-- Witness for C7: the folding registry on the two literals. -/
theorem BinaryNode_fold_path_witness :
    (OnProcess foldingRegistry 0 readyProductGraph 2
        ⟨[3], NodeKind.binary 2 (some literalFive) (some literalFour) none⟩).1 =
        some ⟨0, 0, Shape.scalar, false, true⟩ ∧
      (OnProcess foldingRegistry 0 readyProductGraph 2
        ⟨[3], NodeKind.binary 2 (some literalFive) (some literalFour) none⟩).2.log =
        [⟨0, Event.combine literalFive literalFour 2⟩] ∧
      (OnProcess foldingRegistry 0 readyProductGraph 2
        ⟨[3], NodeKind.binary 2 (some literalFive) (some literalFour) none⟩).2.fault = none ∧
      (OnProcess foldingRegistry 0 readyProductGraph 2
        ⟨[3], NodeKind.binary 2 (some literalFive) (some literalFour) none⟩).2.graph.registry =
        (foldingRegistry.Combine readyProductGraph.registry literalFive literalFour 2).2 :=
  BinaryNode_fold_path foldingRegistry 0 readyProductGraph 2 [3] 2 literalFive literalFour none
    ⟨0, 0, Shape.scalar, false, true⟩ rfl rfl rfl

/-- C8. With both slots holding Variables of the same type and `Combine`
answering with nothing or with a Variable that is not computed, `OnProcess` of
a BinaryNode requests exactly one local scalar of the operands' type, makes
exactly one emission call for the node, and returns the Variable the registry
allocated, not the answer of `Combine`. -/
theorem BinaryNode_emit_path (reg : Registry) (d : Nat) (g : DataFlowGraph) (n : NodeId)
    (deps : List NodeId) (op : OperatorType) (a b : Variable) (res : Option Variable)
    (htype : a.valueType = b.valueType)
    (hcombine : (reg.Combine g.registry a b op).1 = none ∨
      ∃ c, (reg.Combine g.registry a b op).1 = some c ∧ c.IsComputed = false) :
    (OnProcess reg d g n ⟨deps, NodeKind.binary op (some a) (some b) res⟩).1 =
        some (reg.AddLocalScalarVariable (reg.Combine g.registry a b op).2 a.valueType).1 ∧
      (OnProcess reg d g n ⟨deps, NodeKind.binary op (some a) (some b) res⟩).2.log =
        [⟨d, Event.combine a b op⟩, ⟨d, Event.addLocalScalar a.valueType⟩, ⟨d, Event.compile n⟩] ∧
      (OnProcess reg d g n ⟨deps, NodeKind.binary op (some a) (some b) res⟩).2.fault = none := by
  have hn : needsCode (reg.Combine g.registry a b op).1 = true := by
    rcases hcombine with h | ⟨c, h, hc⟩
    · simp [h, needsCode]
    · simp [h, needsCode, hc]
  rw [OnProcess_binary_emit reg d g n deps op a b res htype hn]
  exact ⟨rfl, rfl, rfl⟩

/-- Witness for C8: the registry that never folds, on the two literals. -/
theorem BinaryNode_emit_path_witness :
    (OnProcess plainRegistry 0 readyProductGraph 2
        ⟨[3], NodeKind.binary 2 (some literalFive) (some literalFour) none⟩).1 =
        some ⟨0, 0, Shape.scalar, false, false⟩ ∧
      (OnProcess plainRegistry 0 readyProductGraph 2
        ⟨[3], NodeKind.binary 2 (some literalFive) (some literalFour) none⟩).2.log =
        [⟨0, Event.combine literalFive literalFour 2⟩, ⟨0, Event.addLocalScalar 0⟩,
          ⟨0, Event.compile 2⟩] ∧
      (OnProcess plainRegistry 0 readyProductGraph 2
        ⟨[3], NodeKind.binary 2 (some literalFive) (some literalFour) none⟩).2.fault = none :=
  BinaryNode_emit_path plainRegistry 0 readyProductGraph 2 [3] 2 literalFive literalFour none rfl
    (Or.inl rfl)

/-- C9, counterexample. Both operands are computed literals, `Combine` answers
with nothing, and `OnProcess` allocates a local scalar and makes an emission
call; the Variable it returns is not computed. -/
theorem computed_operands_emit :
    literalFive.IsComputed = true ∧ literalFour.IsComputed = true ∧
      (OnProcess plainRegistry 0 readyProductGraph 2
        ⟨[3], NodeKind.binary 2 (some literalFive) (some literalFour) none⟩).2.log =
        [⟨0, Event.combine literalFive literalFour 2⟩, ⟨0, Event.addLocalScalar 0⟩,
          ⟨0, Event.compile 2⟩] ∧
      (OnProcess plainRegistry 0 readyProductGraph 2
        ⟨[3], NodeKind.binary 2 (some literalFive) (some literalFour) none⟩).1 =
        some ⟨0, 0, Shape.scalar, false, false⟩ := by
  decide

/-- C9, amended. Whatever the computed flags of the two same-typed operands,
`OnProcess` of a BinaryNode makes no emission call and no allocation exactly
when `Combine` answered with a computed Variable, and it then returns that
computed Variable; in every other case it allocates one local scalar and makes
exactly one emission call. -/
theorem BinaryNode_fold_decision (reg : Registry) (d : Nat) (g : DataFlowGraph) (n : NodeId)
    (deps : List NodeId) (op : OperatorType) (a b : Variable) (res : Option Variable)
    (htype : a.valueType = b.valueType) :
    ((∃ c, (reg.Combine g.registry a b op).1 = some c ∧ c.IsComputed = true) →
        (∃ c, (OnProcess reg d g n ⟨deps, NodeKind.binary op (some a) (some b) res⟩).1 = some c ∧
          c.IsComputed = true) ∧
        (OnProcess reg d g n ⟨deps, NodeKind.binary op (some a) (some b) res⟩).2.log.countP
          (fun k => k.event.isCompile) = 0 ∧
        (OnProcess reg d g n ⟨deps, NodeKind.binary op (some a) (some b) res⟩).2.log.countP
          (fun k => k.event.isAddLocalScalar) = 0) ∧
      ((¬ ∃ c, (reg.Combine g.registry a b op).1 = some c ∧ c.IsComputed = true) →
        (OnProcess reg d g n ⟨deps, NodeKind.binary op (some a) (some b) res⟩).2.log.countP
          (fun k => k.event.isCompile) = 1 ∧
        (OnProcess reg d g n ⟨deps, NodeKind.binary op (some a) (some b) res⟩).2.log.countP
          (fun k => k.event.isAddLocalScalar) = 1) := by
  constructor
  · rintro ⟨c, hc, hcomp⟩
    have hn : needsCode (reg.Combine g.registry a b op).1 = false := by
      simp [hc, needsCode, hcomp]
    rw [OnProcess_binary_fold reg d g n deps op a b res htype hn]
    exact ⟨⟨c, hc, hcomp⟩, by simp [Event.isCompile], by simp [Event.isAddLocalScalar]⟩
  · intro hno
    have hn : needsCode (reg.Combine g.registry a b op).1 = true := by
      cases hc : (reg.Combine g.registry a b op).1 with
      | none => simp [needsCode]
      | some c =>
        cases hcomp : c.IsComputed with
        | true => exact absurd ⟨c, hc, hcomp⟩ hno
        | false => simp [needsCode, hcomp]
    rw [OnProcess_binary_emit reg d g n deps op a b res htype hn]
    exact ⟨by simp [Event.isCompile], by simp [Event.isAddLocalScalar]⟩

/-- Witness for the amended C9 with the folding registry on the two literals. -/
theorem BinaryNode_fold_decision_witness :
    (OnProcess foldingRegistry 0 readyProductGraph 2
        ⟨[3], NodeKind.binary 2 (some literalFive) (some literalFour) none⟩).2.log.countP
          (fun k => k.event.isCompile) = 0 :=
  ((BinaryNode_fold_decision foldingRegistry 0 readyProductGraph 2 [3] 2 literalFive literalFour none
    rfl).1 ⟨⟨0, 0, Shape.scalar, false, true⟩, rfl, rfl⟩).2.1

/-- C10. When slot 1 of a BinaryNode holds a Variable whose value type differs
from that of the data, the `ReceiveData` that fills slot 2 enters `Process`
and stops there with the type-mismatch fault: the log holds nothing but the
entry, so no `Combine` request, no allocation, no emission call, no result, no
`ReceiveData` on a dependent and no `FreeVar`. -/
theorem BinaryNode_type_guard (reg : Registry) (fuel d : Nat) (g : DataFlowGraph) (n : NodeId)
    (deps : List NodeId) (op : OperatorType) (a : Variable) (s2 res : Option Variable)
    (data : Variable)
    (hnode : g.nodes[n]? = some ⟨deps, NodeKind.binary op (some a) s2 res⟩)
    (htype : a.valueType ≠ data.valueType) :
    (ReceiveData reg (fuel + 1) d g n data).fault = some Fault.typeMismatch ∧
      (ReceiveData reg (fuel + 1) d g n data).log = [⟨d, Event.enter n⟩] := by
  have h : ReceiveData reg (fuel + 1) d g n data =
      Process reg (fuel + 1) d (g.setNode n ⟨deps, NodeKind.binary op (some a) (some data) res⟩) n := by
    simp [ReceiveData, receiveWith, hnode]
  have hget : (g.setNode n ⟨deps, NodeKind.binary op (some a) (some data) res⟩).nodes[n]? =
      some ⟨deps, NodeKind.binary op (some a) (some data) res⟩ :=
    getElem?_set_self_of_some g.nodes n _ _ hnode
  rw [h, Process_succ]
  simp [hget, OnProcess, htype]

/-- Witness for C10: the BinaryNode of `productGraph` holding the literal 5 is
sent a scalar of another value type. -/
theorem BinaryNode_type_guard_witness :
    (ReceiveData plainRegistry 3 0
        (ReceiveData plainRegistry 3 0 productGraph 2 literalFive).graph 2 otherTypeScalar).fault =
        some Fault.typeMismatch ∧
      (ReceiveData plainRegistry 3 0
        (ReceiveData plainRegistry 3 0 productGraph 2 literalFive).graph 2 otherTypeScalar).log =
        [⟨0, Event.enter 2⟩] :=
  BinaryNode_type_guard plainRegistry 2 0
    (ReceiveData plainRegistry 3 0 productGraph 2 literalFive).graph 2 [3] 2 literalFive none none
    otherTypeScalar rfl (by decide)

/-! ## The calls a `Process` activation makes itself -/

theorem callsAt_append (d : Nat) (l1 l2 : List Call) :
    callsAt d (l1 ++ l2) = callsAt d l1 ++ callsAt d l2 := by
  simp [callsAt]

theorem callsAt_cons_same (d : Nat) (e : Event) (l : List Call) :
    callsAt d (⟨d, e⟩ :: l) = e :: callsAt d l := by
  simp [callsAt]

theorem callsAt_deeper (d : Nat) (l : List Call) (h : ∀ c ∈ l, d < c.depth) :
    callsAt d l = [] := by
  simp only [callsAt, List.map_eq_nil_iff, List.filter_eq_nil_iff]
  intro c hc
  have := h c hc
  simp
  omega

theorem callsAt_same (d : Nat) (l : List Call) (h : ∀ c ∈ l, c.depth = d) :
    callsAt d l = l.map Call.event := by
  unfold callsAt
  rw [List.filter_eq_self.mpr]
  intro c hc
  simp [h c hc]

/-- The calls a completed push loop makes at its own level are the
`ReceiveData` calls, one per dependent. -/
theorem pushAll_callsAt (recv : DataFlowGraph → NodeId → Variable → Run) (d : Nat) (v : Variable)
    (h : ∀ g m x, ∀ c ∈ (recv g m x).log, d < c.depth) :
    ∀ (deps : List NodeId) (g : DataFlowGraph), (pushAll recv d v deps g).fault = none →
      callsAt d (pushAll recv d v deps g).log = deps.map (fun m => Event.receive m v) := by
  intro deps
  induction deps with
  | nil => intro g _; simp [pushAll, callsAt]
  | cons dep rest ih =>
    intro g hok
    simp only [pushAll] at hok ⊢
    cases hf : (recv g dep v).fault with
    | some f => simp [hf] at hok
    | none =>
      simp only [hf] at hok ⊢
      rw [callsAt_cons_same, callsAt_append, callsAt_deeper d _ (h g dep v), ih _ hok]
      simp

/-- The calls a completed `Process` makes at its own level: the entry, the
calls of `OnProcess`, the result, and for a result that is present one
`ReceiveData` per dependent followed by `FreeVar`. -/
theorem Process_callsAt (reg : Registry) (fuel d : Nat) (g : DataFlowGraph) (n : NodeId)
    (node : DataNode) (hnode : g.nodes[n]? = some node)
    (hok : (Process reg (fuel + 1) d g n).fault = none) :
    callsAt d (Process reg (fuel + 1) d g n).log =
      Event.enter n :: ((OnProcess reg d g n node).2.log.map Call.event ++
        match (OnProcess reg d g n node).1 with
        | none => [Event.result n none]
        | some r => Event.result n (some r) ::
            (node.dependencies.map (fun m => Event.receive m r) ++ [Event.freeVar r])) := by
  obtain ⟨node1, hnode1, _, hcase⟩ := Process_ok_inv reg fuel d g n hok
  rw [hnode] at hnode1
  cases hnode1
  have hon := callsAt_same d _ (OnProcess_depth reg d g n node)
  rcases hcase with ⟨hnone, heq⟩ | ⟨v, hv, hpush, heq⟩
  · rw [hnone, heq]
    simp only [callsAt_cons_same, callsAt_append, hon]
    simp [callsAt]
  · rw [hv, heq]
    have hp := pushAll_callsAt (fun g1 m x => ReceiveData reg fuel (d + 1) g1 m x) d v
      (fun g2 m x c hc => Nat.lt_of_succ_le (ReceiveData_depth reg fuel (d + 1) g2 m x c hc)) _ _ hpush
    simp only [callsAt_cons_same, callsAt_append, hon, hp]
    simp [callsAt]

/-! ## C11 to C14: InputNode and OutputNode -/

/-- C11. `ReceiveData` on an InputNode with data that is not vector-shaped
stops with the shape-mismatch fault before anything else happens: no call is
logged (no allocation request, no `Process`, no emission, no push) and the
graph, with the node's stored result Variable, is as before. -/
theorem InputNode_shape_guard (reg : Registry) (fuel d : Nat) (g : DataFlowGraph) (n : NodeId)
    (deps : List NodeId) (elementIndex : Int) (pVar : Option Variable) (data : Variable)
    (hnode : g.nodes[n]? = some ⟨deps, NodeKind.input elementIndex pVar⟩)
    (hshape : data.IsVector = false) :
    (ReceiveData reg fuel d g n data).fault = some Fault.shapeMismatch ∧
      (ReceiveData reg fuel d g n data).log = [] ∧
      (ReceiveData reg fuel d g n data).graph = g ∧
      GetNodeAt (ReceiveData reg fuel d g n data).graph n =
        some ⟨deps, NodeKind.input elementIndex pVar⟩ := by
  have h : ReceiveData reg fuel d g n data = ⟨g, [], some Fault.shapeMismatch⟩ := by
    simp [ReceiveData, receiveWith, hnode, hshape]
  rw [h]
  exact ⟨rfl, rfl, rfl, hnode⟩

/-- Witness for C11: the InputNode of `inputFanOutGraph` is sent a scalar. -/
theorem InputNode_shape_guard_witness :
    (ReceiveData plainRegistry 3 0 inputFanOutGraph 0 literalFive).fault = some Fault.shapeMismatch ∧
      (ReceiveData plainRegistry 3 0 inputFanOutGraph 0 literalFive).log = [] ∧
      (ReceiveData plainRegistry 3 0 inputFanOutGraph 0 literalFive).graph = inputFanOutGraph ∧
      GetNodeAt (ReceiveData plainRegistry 3 0 inputFanOutGraph 0 literalFive).graph 0 =
        some ⟨[1, 2], NodeKind.input 2 none⟩ :=
  InputNode_shape_guard plainRegistry 3 0 inputFanOutGraph 0 [1, 2] 2 none literalFive rfl rfl

/-- C12. `ReceiveData` on an OutputNode with data that is not scalar-shaped
stops with the shape-mismatch fault before anything else happens: the data is
not stored, and no call is logged (no emission, no push to a dependent, no
`FreeVar`). -/
theorem OutputNode_shape_guard (reg : Registry) (fuel d : Nat) (g : DataFlowGraph) (n : NodeId)
    (deps : List NodeId) (pDestVar : Option Variable) (elementIndex : Int)
    (pVar : Option Variable) (data : Variable)
    (hnode : g.nodes[n]? = some ⟨deps, NodeKind.output pDestVar elementIndex pVar⟩)
    (hshape : data.IsScalar = false) :
    (ReceiveData reg fuel d g n data).fault = some Fault.shapeMismatch ∧
      (ReceiveData reg fuel d g n data).log = [] ∧
      (ReceiveData reg fuel d g n data).graph = g ∧
      GetNodeAt (ReceiveData reg fuel d g n data).graph n =
        some ⟨deps, NodeKind.output pDestVar elementIndex pVar⟩ := by
  have h : ReceiveData reg fuel d g n data = ⟨g, [], some Fault.shapeMismatch⟩ := by
    simp [ReceiveData, receiveWith, hnode, hshape]
  rw [h]
  exact ⟨rfl, rfl, rfl, hnode⟩

/-- Witness for C12: the tap of `outputTapGraph` is sent a vector. -/
theorem OutputNode_shape_guard_witness :
    (ReceiveData plainRegistry 3 0 outputTapGraph 0 inputVector).fault = some Fault.shapeMismatch ∧
      (ReceiveData plainRegistry 3 0 outputTapGraph 0 inputVector).log = [] ∧
      (ReceiveData plainRegistry 3 0 outputTapGraph 0 inputVector).graph = outputTapGraph ∧
      GetNodeAt (ReceiveData plainRegistry 3 0 outputTapGraph 0 inputVector).graph 0 =
        some ⟨[1, 2], NodeKind.output none 0 none⟩ :=
  OutputNode_shape_guard plainRegistry 3 0 outputTapGraph 0 [1, 2] none 0 none inputVector rfl rfl

/-- C13. A completed `ReceiveData` on an InputNode with element index `i` and
vector-shaped data makes, at its own level, exactly these calls in this order:
one request for a vector-element view with arguments (type of the data, the
data, `i`), the entry of `Process`, one emission call for the node, and then,
with `e` the Variable the registry answered, one `ReceiveData(m, e)` per
dependent `m` in registration order, followed by `FreeVar(e)`. -/
theorem InputNode_receive (reg : Registry) (fuel d : Nat) (g : DataFlowGraph) (n : NodeId)
    (deps : List NodeId) (elementIndex : Int) (pVar : Option Variable) (data : Variable)
    (hnode : g.nodes[n]? = some ⟨deps, NodeKind.input elementIndex pVar⟩)
    (hshape : data.IsVector = true)
    (hok : (ReceiveData reg (fuel + 1) d g n data).fault = none) :
    callsAt d (ReceiveData reg (fuel + 1) d g n data).log =
      [Event.addVectorElement data.valueType data elementIndex, Event.enter n, Event.compile n,
        Event.result n (some (reg.AddVectorElementVariable g.registry data.valueType data elementIndex).1)] ++
      deps.map (fun m => Event.receive m
        (reg.AddVectorElementVariable g.registry data.valueType data elementIndex).1) ++
      [Event.freeVar (reg.AddVectorElementVariable g.registry data.valueType data elementIndex).1] := by
  have hget : (g.nodes.set n ⟨deps, NodeKind.input elementIndex
      (some (reg.AddVectorElementVariable g.registry data.valueType data elementIndex).1)⟩)[n]? =
      some ⟨deps, NodeKind.input elementIndex
        (some (reg.AddVectorElementVariable g.registry data.valueType data elementIndex).1)⟩ :=
    getElem?_set_self_of_some g.nodes n _ _ hnode
  have h : ReceiveData reg (fuel + 1) d g n data =
      ⟨(Process reg (fuel + 1) d
          { nodes := g.nodes.set n ⟨deps, NodeKind.input elementIndex
              (some (reg.AddVectorElementVariable g.registry data.valueType data elementIndex).1)⟩,
            registry := (reg.AddVectorElementVariable g.registry data.valueType data elementIndex).2 } n).graph,
       ⟨d, Event.addVectorElement data.valueType data elementIndex⟩ ::
        (Process reg (fuel + 1) d
          { nodes := g.nodes.set n ⟨deps, NodeKind.input elementIndex
              (some (reg.AddVectorElementVariable g.registry data.valueType data elementIndex).1)⟩,
            registry := (reg.AddVectorElementVariable g.registry data.valueType data elementIndex).2 } n).log,
       (Process reg (fuel + 1) d
          { nodes := g.nodes.set n ⟨deps, NodeKind.input elementIndex
              (some (reg.AddVectorElementVariable g.registry data.valueType data elementIndex).1)⟩,
            registry := (reg.AddVectorElementVariable g.registry data.valueType data elementIndex).2 } n).fault⟩ := by
    simp [ReceiveData, receiveWith, hnode, hshape]
  rw [h] at hok ⊢
  rw [callsAt_cons_same, Process_callsAt reg fuel d _ n _ hget hok]
  simp [OnProcess]

/-- Witness for C13 on the InputNode of `inputFanOutGraph`. -/
theorem InputNode_receive_witness :
    callsAt 0 (ReceiveData plainRegistry 3 0 inputFanOutGraph 0 inputVector).log =
      [Event.addVectorElement 0 inputVector 2, Event.enter 0, Event.compile 0,
        Event.result 0 (some ⟨0, 0, Shape.scalar, false, false⟩)] ++
      [Event.receive 1 ⟨0, 0, Shape.scalar, false, false⟩,
        Event.receive 2 ⟨0, 0, Shape.scalar, false, false⟩] ++
      [Event.freeVar ⟨0, 0, Shape.scalar, false, false⟩] :=
  InputNode_receive plainRegistry 2 0 inputFanOutGraph 0 [1, 2] 2 none inputVector rfl rfl rfl

/-- C14. A completed `ReceiveData` on an OutputNode with scalar-shaped data
`s` makes, at its own level, exactly these calls in this order: the entry of
`Process`, one emission call for the node, and then one `ReceiveData(m, s)`
with the very same `s` per dependent `m` in registration order, followed by
`FreeVar(s)`. -/
theorem OutputNode_receive (reg : Registry) (fuel d : Nat) (g : DataFlowGraph) (n : NodeId)
    (deps : List NodeId) (pDestVar : Option Variable) (elementIndex : Int)
    (pVar : Option Variable) (s : Variable)
    (hnode : g.nodes[n]? = some ⟨deps, NodeKind.output pDestVar elementIndex pVar⟩)
    (hshape : s.IsScalar = true)
    (hok : (ReceiveData reg (fuel + 1) d g n s).fault = none) :
    callsAt d (ReceiveData reg (fuel + 1) d g n s).log =
      [Event.enter n, Event.compile n, Event.result n (some s)] ++
      deps.map (fun m => Event.receive m s) ++ [Event.freeVar s] := by
  have hget : (g.setNode n ⟨deps, NodeKind.output pDestVar elementIndex (some s)⟩).nodes[n]? =
      some ⟨deps, NodeKind.output pDestVar elementIndex (some s)⟩ :=
    getElem?_set_self_of_some g.nodes n _ _ hnode
  have h : ReceiveData reg (fuel + 1) d g n s =
      Process reg (fuel + 1) d (g.setNode n ⟨deps, NodeKind.output pDestVar elementIndex (some s)⟩) n := by
    simp [ReceiveData, receiveWith, hnode, hshape]
  rw [h] at hok ⊢
  rw [Process_callsAt reg fuel d _ n _ hget hok]
  simp [OnProcess]

/-- Witness for C14 on the tap of `outputTapGraph`. -/
theorem OutputNode_receive_witness :
    callsAt 0 (ReceiveData plainRegistry 3 0 outputTapGraph 0 literalFive).log =
      [Event.enter 0, Event.compile 0, Event.result 0 (some literalFive)] ++
      [Event.receive 1 literalFive, Event.receive 2 literalFive] ++ [Event.freeVar literalFive] :=
  OutputNode_receive plainRegistry 2 0 outputTapGraph 0 [1, 2] none 0 none literalFive rfl rfl rfl

/-! ## No emission call is ever made for an ArgNode -/

/-- A cascade leaves an ArgNode an ArgNode. -/
theorem argAt_of_evolves {g h : DataFlowGraph} (hev : g.evolves h) (k : NodeId)
    (ha : g.argAt k) : h.argAt k := by
  obtain ⟨deps, pVar, hk⟩ := ha
  obtain ⟨b, hb, hdeps, hkind⟩ := hev.2 k _ hk
  cases b with
  | mk bdeps bkind =>
    cases bkind <;> simp [NodeKind.evolves] at hkind
    exact ⟨bdeps, _, hb⟩

theorem OnProcess_no_compile_arg (reg : Registry) (d : Nat) (g : DataFlowGraph) (n : NodeId)
    (node : DataNode) (hnode : g.nodes[n]? = some node) :
    ∀ c ∈ (OnProcess reg d g n node).2.log, ∀ k, c.event = Event.compile k → ¬ g.argAt k := by
  intro c hc k hk
  rintro ⟨deps, pVar, harg⟩
  unfold OnProcess at hc
  split at hc
  · rename_i hkind
    simp at hc
    rw [hc] at hk
    simp at hk
    subst hk
    rw [hnode] at harg
    cases harg
    simp at hkind
  · simp at hc
  · rename_i hkind
    simp at hc
    rw [hc] at hk
    simp at hk
    subst hk
    rw [hnode] at harg
    cases harg
    simp at hkind
  · rename_i hkind
    simp at hc
    rw [hc] at hk
    simp at hk
    subst hk
    rw [hnode] at harg
    cases harg
    simp at hkind
  · rename_i hkind
    split at hc
    · split at hc
      · dsimp only at hc
        split at hc
        · simp at hc
          rcases hc with hc | hc | hc <;> rw [hc] at hk <;> simp at hk
          subst hk
          rw [hnode] at harg
          cases harg
          simp at hkind
        · simp at hc
          rw [hc] at hk
          simp at hk
      · simp at hc
    · simp at hc

theorem pushAll_no_compile_arg (recv : DataFlowGraph → NodeId → Variable → Run) (d : Nat)
    (v : Variable)
    (hev : ∀ (g : DataFlowGraph) (m : NodeId) (x : Variable), g.evolves (recv g m x).graph)
    (h : ∀ (g : DataFlowGraph) (m : NodeId) (x : Variable), ∀ c ∈ (recv g m x).log,
      ∀ k, c.event = Event.compile k → ¬ g.argAt k) :
    ∀ (deps : List NodeId) (g : DataFlowGraph), ∀ c ∈ (pushAll recv d v deps g).log,
      ∀ k, c.event = Event.compile k → ¬ g.argAt k := by
  intro deps
  induction deps with
  | nil => intro g c hc; simp [pushAll] at hc
  | cons dep rest ih =>
    intro g c hc k hk
    simp only [pushAll] at hc
    split at hc
    · simp at hc
      rcases hc with hc | hc
      · rw [hc] at hk
        simp at hk
      · exact h g dep v c hc k hk
    · simp at hc
      rcases hc with hc | hc | hc
      · rw [hc] at hk
        simp at hk
      · exact h g dep v c hc k hk
      · exact fun ha => ih _ c hc k hk (argAt_of_evolves (hev g dep v) k ha)

theorem receiveWith_no_compile_arg (reg : Registry) (proc : DataFlowGraph → NodeId → Run) (d : Nat)
    (h : ∀ (g : DataFlowGraph) (m : NodeId), ∀ c ∈ (proc g m).log,
      ∀ k, c.event = Event.compile k → ¬ g.argAt k)
    (g : DataFlowGraph) (n : NodeId) (data : Variable) :
    ∀ c ∈ (receiveWith reg proc d g n data).log, ∀ k, c.event = Event.compile k → ¬ g.argAt k := by
  intro c hc k hk
  unfold receiveWith at hc
  split at hc
  · simp at hc
  · rename_i node hnode
    split at hc
    · simp [baseReceiveData] at hc
    · simp [baseReceiveData] at hc
    · rename_i hkind
      split at hc
      · simp at hc
        rcases hc with hc | hc
        · rw [hc] at hk
          simp at hk
        · intro ha
          refine h _ _ c hc k hk (argAt_of_evolves ?_ k ha)
          exact evolves_set g n node _ _ hnode ⟨rfl, by simp [hkind, NodeKind.evolves]⟩
      · simp at hc
    · rename_i hkind
      split at hc
      · intro ha
        refine h _ _ c hc k hk (argAt_of_evolves ?_ k ha)
        exact evolves_set g n node _ _ hnode ⟨rfl, by simp [hkind, NodeKind.evolves]⟩
      · simp at hc
    · rename_i hkind
      split at hc
      · simp at hc
      · intro ha
        refine h _ _ c hc k hk (argAt_of_evolves ?_ k ha)
        exact evolves_set g n node _ _ hnode ⟨rfl, by simp [hkind, NodeKind.evolves]⟩

/-- No run of `Process` logs an emission call for a node that is an ArgNode
in the graph the run starts from. -/
theorem Process_no_compile_arg (reg : Registry) :
    ∀ (fuel d : Nat) (g : DataFlowGraph) (n : NodeId), ∀ c ∈ (Process reg fuel d g n).log,
      ∀ k, c.event = Event.compile k → ¬ g.argAt k := by
  intro fuel
  induction fuel with
  | zero => intro d g n c hc; simp [Process] at hc
  | succ fuel ih =>
    intro d g n c hc k hk
    rw [Process_succ] at hc
    split at hc
    · simp at hc
    · rename_i node hnode
      have hon := OnProcess_no_compile_arg reg d g n node hnode
      have hev := OnProcess_evolves reg d g n node hnode
      have hpush : ∀ (v : Variable) (deps : List NodeId),
          ∀ c ∈ (pushAll (fun g1 m x => ReceiveData reg fuel (d + 1) g1 m x) d v deps
            (OnProcess reg d g n node).2.graph).log, ∀ k, c.event = Event.compile k → ¬ g.argAt k := by
        intro v deps c hc k hk ha
        exact pushAll_no_compile_arg (fun g1 m x => ReceiveData reg fuel (d + 1) g1 m x) d v
          (fun g2 m x => ReceiveData_evolves reg fuel (d + 1) g2 m x)
          (fun g2 m x => receiveWith_no_compile_arg reg _ (d + 1) (fun g3 j => ih (d + 1) g3 j) g2 m x)
          deps _ c hc k hk (argAt_of_evolves hev k ha)
      split at hc
      · simp at hc
        rcases hc with hc | hc
        · rw [hc] at hk
          simp at hk
        · exact hon c hc k hk
      · split at hc
        · simp at hc
          rcases hc with hc | hc | hc
          · rw [hc] at hk
            simp at hk
          · exact hon c hc k hk
          · rw [hc] at hk
            simp at hk
        · split at hc
          · simp at hc
            rcases hc with hc | hc | hc | hc
            · rw [hc] at hk
              simp at hk
            · exact hon c hc k hk
            · rw [hc] at hk
              simp at hk
            · exact hpush _ _ c hc k hk
          · simp at hc
            rcases hc with hc | hc | hc | hc | hc
            · rw [hc] at hk
              simp at hk
            · exact hon c hc k hk
            · rw [hc] at hk
              simp at hk
            · exact hpush _ _ c hc k hk
            · rw [hc] at hk
              simp at hk

/-! ## C15 to C17: LiteralNode and ArgNode -/

/-- C15. For a LiteralNode wrapping the Variable `v`, every `OnProcess` makes
exactly one emission call for the node, leaves the graph as it is and returns
`v`; a completed `Process` on the node therefore makes, at its own level, the
entry, that emission call, and one `ReceiveData(m, v)` per dependent `m`,
followed by `FreeVar(v)`. The constructor fails on an absent Variable and on a
Variable whose literal flag is not set, and succeeds otherwise. -/
theorem LiteralNode_process (reg : Registry) (fuel d : Nat) (g : DataFlowGraph) (n : NodeId)
    (deps : List NodeId) (v : Variable)
    (hnode : g.nodes[n]? = some ⟨deps, NodeKind.literal (some v)⟩)
    (hok : (Process reg (fuel + 1) d g n).fault = none) :
    OnProcess reg d g n ⟨deps, NodeKind.literal (some v)⟩ =
        (some v, ⟨g, [⟨d, Event.compile n⟩], none⟩) ∧
      callsAt d (Process reg (fuel + 1) d g n).log =
        [Event.enter n, Event.compile n, Event.result n (some v)] ++
        deps.map (fun m => Event.receive m v) ++ [Event.freeVar v] ∧
      LiteralNode none = Except.error Fault.notLiteral ∧
      (∀ w : Variable, w.IsLiteral = false → LiteralNode (some w) = Except.error Fault.notLiteral) ∧
      (∀ w : Variable, w.IsLiteral = true →
        LiteralNode (some w) = Except.ok ⟨[], NodeKind.literal (some w)⟩) := by
  refine ⟨rfl, ?_, rfl, ?_, ?_⟩
  · rw [Process_callsAt reg fuel d g n _ hnode hok]
    simp [OnProcess]
  · intro w hw
    simp [LiteralNode, hw]
  · intro w hw
    simp [LiteralNode, hw]

/-- Witness for C15 on the literal of `fanOutGraph`. -/
theorem LiteralNode_process_witness :
    callsAt 0 (Process plainRegistry 3 0 fanOutGraph 0).log =
      [Event.enter 0, Event.compile 0, Event.result 0 (some literalFive)] ++
      [Event.receive 1 literalFive, Event.receive 2 literalFive] ++ [Event.freeVar literalFive] :=
  (LiteralNode_process plainRegistry 2 0 fanOutGraph 0 [1, 2] literalFive rfl rfl).2.1

/-- C16, counterexample. `Process` on a LiteralNode without dependents passes
the wrapped literal Variable to `FreeVar`. -/
theorem lone_literal_freed :
    (Process plainRegistry 1 0 loneLiteralGraph 0).fault = none ∧
      (Process plainRegistry 1 0 loneLiteralGraph 0).log =
        [⟨0, Event.enter 0⟩, ⟨0, Event.compile 0⟩, ⟨0, Event.result 0 (some literalFive)⟩,
          ⟨0, Event.freeVar literalFive⟩] := by
  decide

/-- C16, amended. A completed `Process` on a LiteralNode, with any number of
dependents, passes the wrapped literal Variable to `FreeVar` exactly once
itself, as the last call of the run; `LiteralNode::OnProcess` frees nothing. -/
theorem LiteralNode_frees_wrapped (reg : Registry) (fuel d : Nat) (g : DataFlowGraph) (n : NodeId)
    (deps : List NodeId) (v : Variable)
    (hnode : g.nodes[n]? = some ⟨deps, NodeKind.literal (some v)⟩)
    (hok : (Process reg (fuel + 1) d g n).fault = none) :
    (callsAt d (Process reg (fuel + 1) d g n).log).count (Event.freeVar v) = 1 ∧
      (Process reg (fuel + 1) d g n).log.getLast? = some ⟨d, Event.freeVar v⟩ ∧
      frees v (OnProcess reg d g n ⟨deps, NodeKind.literal (some v)⟩).2.log = 0 := by
  refine ⟨?_, ?_, ?_⟩
  · rw [Process_callsAt reg fuel d g n _ hnode hok]
    have hmap : List.count (Event.freeVar v) (deps.map (fun m => Event.receive m v)) = 0 := by
      rw [List.count_eq_zero]
      simp
    simp [OnProcess, List.count_cons, List.count_append, hmap]
  · obtain ⟨node1, hnode1, _, hcase⟩ := Process_ok_inv reg fuel d g n hok
    rw [hnode] at hnode1
    cases hnode1
    rcases hcase with ⟨hnone, _⟩ | ⟨x, hx, _, heq⟩
    · simp [OnProcess] at hnone
    · simp only [OnProcess] at hx
      cases hx
      rw [heq]
      have e : ∀ (a : Call) (l1 : List Call) (b : Call) (l2 : List Call) (c : Call),
          a :: (l1 ++ b :: (l2 ++ [c])) = (a :: (l1 ++ b :: l2)) ++ [c] := by
        intros; simp
      simp only [e, List.getLast?_concat]
  · simp [OnProcess, frees, Event.isFreeOf]

/-- Witness for the amended C16 on the literal of `fanOutGraph`. -/
theorem LiteralNode_frees_wrapped_witness :
    (callsAt 0 (Process plainRegistry 3 0 fanOutGraph 0).log).count (Event.freeVar literalFive) = 1 ∧
      (Process plainRegistry 3 0 fanOutGraph 0).log.getLast? = some ⟨0, Event.freeVar literalFive⟩ ∧
      frees literalFive (OnProcess plainRegistry 0 fanOutGraph 0
        ⟨[1, 2], NodeKind.literal (some literalFive)⟩).2.log = 0 :=
  LiteralNode_frees_wrapped plainRegistry 2 0 fanOutGraph 0 [1, 2] literalFive rfl rfl

/-- C17. For an ArgNode wrapping the Variable `v`, `OnProcess` returns `v`,
makes no call and leaves the graph as it is; no run of `Process` on the node,
however deep its cascade, logs an emission call for the node; and a completed
`Process` makes, at its own level, the entry and one `ReceiveData(m, v)` per
dependent `m` in registration order, followed by `FreeVar(v)`. -/
theorem ArgNode_process (reg : Registry) (fuel d : Nat) (g : DataFlowGraph) (n : NodeId)
    (deps : List NodeId) (v : Variable)
    (hnode : g.nodes[n]? = some ⟨deps, NodeKind.arg (some v)⟩) :
    OnProcess reg d g n ⟨deps, NodeKind.arg (some v)⟩ = (some v, ⟨g, [], none⟩) ∧
      (∀ c ∈ (Process reg fuel d g n).log, c.event ≠ Event.compile n) ∧
      ((Process reg (fuel + 1) d g n).fault = none →
        callsAt d (Process reg (fuel + 1) d g n).log =
          [Event.enter n, Event.result n (some v)] ++
          deps.map (fun m => Event.receive m v) ++ [Event.freeVar v]) := by
  refine ⟨rfl, ?_, ?_⟩
  · intro c hc hk
    exact Process_no_compile_arg reg fuel d g n c hc n hk ⟨deps, some v, hnode⟩
  · intro hok
    rw [Process_callsAt reg fuel d g n _ hnode hok]
    simp [OnProcess]

/-- Witness for C17 on the ArgNode of `argFanOutGraph`. -/
theorem ArgNode_process_witness :
    callsAt 0 (Process plainRegistry 3 0 argFanOutGraph 0).log =
      [Event.enter 0, Event.result 0 (some literalFive)] ++
      [Event.receive 1 literalFive, Event.receive 2 literalFive] ++ [Event.freeVar literalFive] :=
  (ArgNode_process plainRegistry 2 0 argFanOutGraph 0 [1, 2] literalFive rfl).2.2 rfl

/-! ## C18 to C20: wiring and positional lookup -/

theorem node_rewired_refl (a : DataNode) : a.rewired a :=
  ⟨rfl, [], by simp⟩

theorem node_rewired_trans {a b c : DataNode} (h1 : a.rewired b) (h2 : b.rewired c) :
    a.rewired c := by
  obtain ⟨hk1, e1, he1⟩ := h1
  obtain ⟨hk2, e2, he2⟩ := h2
  exact ⟨hk2.trans hk1, e1 ++ e2, by rw [he2, he1, List.append_assoc]⟩

theorem graph_rewired_refl (g : DataFlowGraph) : g.rewired g :=
  ⟨rfl, fun _ a h => ⟨a, h, node_rewired_refl a⟩⟩

theorem graph_rewired_trans {g h k : DataFlowGraph} (h1 : g.rewired h) (h2 : h.rewired k) :
    g.rewired k := by
  refine ⟨h1.1.trans h2.1, ?_⟩
  intro i a ha
  obtain ⟨b, hb, hab⟩ := h1.2 i a ha
  obtain ⟨c, hc, hbc⟩ := h2.2 i b hb
  exact ⟨c, hc, node_rewired_trans hab hbc⟩

/-- What a successful `AddDependent` leaves in the graph. -/
theorem AddDependent_some (g : DataFlowGraph) (n m : NodeId) (node : DataNode)
    (hnode : g.nodes[n]? = some node) :
    AddDependent g n (some m) =
      ⟨g.setNode n ⟨node.dependencies ++ [m], node.kind⟩, [], none⟩ := by
  simp [AddDependent, hnode]

/-- One `AddDependent` call, successful or not, only extends dependents
lists. -/
theorem AddDependent_rewired (g : DataFlowGraph) (n : NodeId) (pNode : Option NodeId) :
    g.rewired (AddDependent g n pNode).graph := by
  unfold AddDependent
  split
  · exact graph_rewired_refl g
  · rename_i node hnode
    split
    · exact graph_rewired_refl g
    · rename_i m
      refine ⟨by simp [DataFlowGraph.setNode], ?_⟩
      intro i a ha
      by_cases hi : n = i
      · subst hi
        rw [hnode] at ha
        cases ha
        refine ⟨_, getElem?_set_self_of_some g.nodes n _ _ hnode, rfl, [m], rfl⟩
      · refine ⟨a, ?_, node_rewired_refl a⟩
        simp [DataFlowGraph.setNode, List.getElem?_set, hi, ha]

theorem wire_rewired :
    ∀ (calls : List (NodeId × Option NodeId)) (g : DataFlowGraph), g.rewired (wire calls g).graph := by
  intro calls
  induction calls with
  | nil => intro g; exact graph_rewired_refl g
  | cons call rest ih =>
    intro g
    simp only [wire]
    split
    · exact AddDependent_rewired g call.1 call.2
    · exact graph_rewired_trans (AddDependent_rewired g call.1 call.2) (ih _)

/-- The node store after a sequence of insertions. -/
theorem foldl_AddNode_nodes (ns : List DataNode) :
    ∀ (g : DataFlowGraph), (ns.foldl AddNode g).nodes = g.nodes ++ ns := by
  induction ns with
  | nil => intro g; simp
  | cons a rest ih =>
    intro g
    simp [List.foldl_cons, ih, AddNode]

/-- C18. `AddDependent` called on a node of the graph with a null dependent
stops with the null-dependent fault, and the graph, with the node's dependents
list and every other node, is exactly as before the call. -/
theorem AddDependent_null (g : DataFlowGraph) (n : NodeId) (node : DataNode)
    (hnode : g.nodes[n]? = some node) :
    (AddDependent g n none).fault = some Fault.nullDependent ∧
      (AddDependent g n none).graph = g ∧
      (AddDependent g n none).log = [] ∧
      GetNodeAt (AddDependent g n none).graph n = some node := by
  have h : AddDependent g n none = ⟨g, [], some Fault.nullDependent⟩ := by
    simp [AddDependent, hnode]
  rw [h]
  exact ⟨rfl, rfl, rfl, hnode⟩

/-- Witness for C18 on the literal of `fanOutGraph`. -/
theorem AddDependent_null_witness :
    (AddDependent fanOutGraph 0 none).fault = some Fault.nullDependent ∧
      (AddDependent fanOutGraph 0 none).graph = fanOutGraph ∧
      (AddDependent fanOutGraph 0 none).log = [] ∧
      GetNodeAt (AddDependent fanOutGraph 0 none).graph 0 =
        some ⟨[1, 2], NodeKind.literal (some literalFive)⟩ :=
  AddDependent_null fanOutGraph 0 ⟨[1, 2], NodeKind.literal (some literalFive)⟩ rfl

/-- C19. `AddDependent` with a non-null node `m`, called on a node whose
dependents list is `L`, succeeds and turns the list into `L ++ [m]`, whether
or not `m` is already in `L`, and changes nothing else. No `AddDependent`
call, no `Process` and no `ReceiveData` removes or reorders an entry of any
dependents list: after `AddDependent` each old list is an initial segment of
the new one, after `Process` and `ReceiveData` each list is as before. -/
theorem dependents_append_only (reg : Registry) (fuel d : Nat) (g : DataFlowGraph) (n m : NodeId)
    (node : DataNode) (hnode : g.nodes[n]? = some node) :
    (AddDependent g n (some m)).fault = none ∧
      GetNodeAt (AddDependent g n (some m)).graph n = some ⟨node.dependencies ++ [m], node.kind⟩ ∧
      (∀ i, i ≠ n → GetNodeAt (AddDependent g n (some m)).graph i = GetNodeAt g i) ∧
      (∀ (k : NodeId) (p : Option NodeId) (i : Nat) (a : DataNode), GetNodeAt g i = some a →
        ∃ b, GetNodeAt (AddDependent g k p).graph i = some b ∧
          ∃ added, b.dependencies = a.dependencies ++ added) ∧
      (∀ (k : NodeId) (i : Nat) (a : DataNode), GetNodeAt g i = some a →
        ∃ b, GetNodeAt (Process reg fuel d g k).graph i = some b ∧
          b.dependencies = a.dependencies) ∧
      (∀ (k : NodeId) (x : Variable) (i : Nat) (a : DataNode), GetNodeAt g i = some a →
        ∃ b, GetNodeAt (ReceiveData reg fuel d g k x).graph i = some b ∧
          b.dependencies = a.dependencies) := by
  refine ⟨?_, ?_, ?_, ?_, ?_, ?_⟩
  · rw [AddDependent_some g n m node hnode]
  · rw [AddDependent_some g n m node hnode]
    exact getElem?_set_self_of_some g.nodes n _ _ hnode
  · intro i hi
    rw [AddDependent_some g n m node hnode]
    simp [GetNodeAt, DataFlowGraph.setNode, List.getElem?_set, Ne.symm hi]
  · intro k p i a ha
    obtain ⟨b, hb, _, hadd⟩ := (AddDependent_rewired g k p).2 i a ha
    exact ⟨b, hb, hadd⟩
  · intro k i a ha
    obtain ⟨b, hb, hdeps, _⟩ := (Process_evolves reg fuel d g k).2 i a ha
    exact ⟨b, hb, hdeps.symm⟩
  · intro k x i a ha
    obtain ⟨b, hb, hdeps, _⟩ := (ReceiveData_evolves reg fuel d g k x).2 i a ha
    exact ⟨b, hb, hdeps.symm⟩

/-- Witness for C19: the literal of `fanOutGraph` gets node 1, already a
dependent, registered once more. -/
theorem dependents_append_only_witness :
    GetNodeAt (AddDependent fanOutGraph 0 (some 1)).graph 0 =
      some ⟨[1, 2] ++ [1], NodeKind.literal (some literalFive)⟩ :=
  (dependents_append_only plainRegistry 3 0 fanOutGraph 0 1
    ⟨[1, 2], NodeKind.literal (some literalFive)⟩ rfl).2.1

/-- C20. After the nodes `ns` were inserted one by one into a graph,
`GetNodeAt` returns the `i`-th of them at the `i`-th position behind the nodes
the graph already held, and nothing beyond the last; and whatever sequence of
`AddDependent` calls follows, `GetNodeAt` returns at every index the same
node as before: a node is returned exactly where one was returned before, with
the same class and members, its dependents list only extended by the wiring. -/
theorem GetNodeAt_stable (g0 : DataFlowGraph) (ns : List DataNode)
    (calls : List (NodeId × Option NodeId)) :
    (∀ i, GetNodeAt (ns.foldl AddNode g0) (g0.nodes.length + i) = ns[i]?) ∧
      (∀ j, j < g0.nodes.length → GetNodeAt (ns.foldl AddNode g0) j = GetNodeAt g0 j) ∧
      (∀ j, (GetNodeAt (wire calls (ns.foldl AddNode g0)).graph j).map DataNode.kind =
        (GetNodeAt (ns.foldl AddNode g0) j).map DataNode.kind) ∧
      (∀ j a, GetNodeAt (ns.foldl AddNode g0) j = some a →
        ∃ b, GetNodeAt (wire calls (ns.foldl AddNode g0)).graph j = some b ∧ a.rewired b) := by
  have hw := wire_rewired calls (ns.foldl AddNode g0)
  refine ⟨?_, ?_, ?_, hw.2⟩
  · intro i
    simp only [GetNodeAt, foldl_AddNode_nodes]
    rw [List.getElem?_append_right (Nat.le_add_right _ _), Nat.add_sub_cancel_left]
  · intro j hj
    simp [GetNodeAt, foldl_AddNode_nodes, List.getElem?_append_left hj]
  · intro j
    cases hget : GetNodeAt (ns.foldl AddNode g0) j with
    | none =>
      have hlen : (ns.foldl AddNode g0).nodes.length ≤ j := by
        simpa [GetNodeAt] using hget
      have : GetNodeAt (wire calls (ns.foldl AddNode g0)).graph j = none := by
        simp only [GetNodeAt]
        apply List.getElem?_eq_none
        rw [← hw.1]
        exact hlen
      simp [this]
    | some a =>
      obtain ⟨b, hb, hkind, _⟩ := hw.2 j a hget
      have hb2 : GetNodeAt (wire calls (ns.foldl AddNode g0)).graph j = some b := hb
      rw [hb2]
      simp [hkind]

/-- Witness for C20: an ArgNode, an InputNode and a BinaryNode are inserted in
this order into the empty graph and then wired; positions 0, 1 and 2 return
them, the BinaryNode unchanged and the other two with their new dependents. -/
theorem GetNodeAt_stable_witness :
    (GetNodeAt ([ArgNode none, InputNode 1, BinaryNode 3].foldl AddNode emptyGraph) 0 =
        some (ArgNode none) ∧
      GetNodeAt ([ArgNode none, InputNode 1, BinaryNode 3].foldl AddNode emptyGraph) 1 =
        some (InputNode 1) ∧
      GetNodeAt ([ArgNode none, InputNode 1, BinaryNode 3].foldl AddNode emptyGraph) 2 =
        some (BinaryNode 3)) ∧
      (GetNodeAt (wire [(0, some 1), (0, some 2), (1, some 2)]
          ([ArgNode none, InputNode 1, BinaryNode 3].foldl AddNode emptyGraph)).graph 2).map
            DataNode.kind = some (BinaryNode 3).kind :=
  ⟨⟨(GetNodeAt_stable emptyGraph [ArgNode none, InputNode 1, BinaryNode 3] []).1 0,
    (GetNodeAt_stable emptyGraph [ArgNode none, InputNode 1, BinaryNode 3] []).1 1,
    (GetNodeAt_stable emptyGraph [ArgNode none, InputNode 1, BinaryNode 3] []).1 2⟩,
   (GetNodeAt_stable emptyGraph [ArgNode none, InputNode 1, BinaryNode 3]
    [(0, some 1), (0, some 2), (1, some 2)]).2.2.1 2⟩

/-! ## C21: no result, no propagation -/

/-- C21. When `OnProcess` of a node produces no result, `Process` issues no
`ReceiveData` and no `FreeVar` call, whatever the dependents list holds: the
run ends where `OnProcess` ended, and when `OnProcess` raised no fault the log
is the entry, the calls of `OnProcess` and the record of the absent result. -/
theorem Process_no_result (reg : Registry) (fuel d : Nat) (g : DataFlowGraph) (n : NodeId)
    (node : DataNode) (hnode : g.nodes[n]? = some node)
    (hres : (OnProcess reg d g n node).1 = none) :
    (∀ c ∈ (Process reg (fuel + 1) d g n).log, c.event.isPushOrFree = false) ∧
      (Process reg (fuel + 1) d g n).graph = (OnProcess reg d g n node).2.graph ∧
      (Process reg (fuel + 1) d g n).fault = (OnProcess reg d g n node).2.fault ∧
      ((OnProcess reg d g n node).2.fault = none →
        (Process reg (fuel + 1) d g n).log =
          ⟨d, Event.enter n⟩ :: ((OnProcess reg d g n node).2.log ++ [⟨d, Event.result n none⟩])) := by
  have hon : ∀ c ∈ (OnProcess reg d g n node).2.log, c.event.isPushOrFree = false := by
    intro c hc
    have := OnProcess_log_events reg d g n node c hc
    cases hce : c.event <;> simp_all [Event.fromProcess, Event.isPushOrFree]
  rw [Process_succ]
  simp only [hnode, hres]
  cases hf : (OnProcess reg d g n node).2.fault with
  | some f =>
    refine ⟨?_, rfl, rfl, by simp⟩
    intro c hc
    simp at hc
    rcases hc with hc | hc
    · simp [hc, Event.isPushOrFree]
    · exact hon c hc
  | none =>
    refine ⟨?_, rfl, rfl, fun _ => rfl⟩
    intro c hc
    simp at hc
    rcases hc with hc | hc | hc
    · simp [hc, Event.isPushOrFree]
    · exact hon c hc
    · simp [hc, Event.isPushOrFree]

/-- Witness for C21 on the ArgNode built from `nullptr`, which has a
dependent. -/
theorem Process_no_result_witness :
    (∀ c ∈ (Process plainRegistry 3 0 nullArgGraph 0).log, c.event.isPushOrFree = false) ∧
      (Process plainRegistry 3 0 nullArgGraph 0).graph = nullArgGraph ∧
      (Process plainRegistry 3 0 nullArgGraph 0).fault = none :=
  ⟨(Process_no_result plainRegistry 2 0 nullArgGraph 0 ⟨[1], NodeKind.arg none⟩ rfl rfl).1,
   (Process_no_result plainRegistry 2 0 nullArgGraph 0 ⟨[1], NodeKind.arg none⟩ rfl rfl).2.1,
   (Process_no_result plainRegistry 2 0 nullArgGraph 0 ⟨[1], NodeKind.arg none⟩ rfl rfl).2.2.1⟩

/-! ## C23: a BinaryNode computes only with both slots filled -/

theorem OnProcess_fault_ready (reg : Registry) (d : Nat) (g : DataFlowGraph) (n : NodeId)
    (node : DataNode) (hnode : g.nodes[n]? = some node) (hready : g.ready n) :
    (OnProcess reg d g n node).2.fault ≠ some Fault.nullOperand := by
  cases node with
  | mk deps kind =>
    cases kind with
    | literal p => simp [OnProcess]
    | arg p => simp [OnProcess]
    | input i p => simp [OnProcess]
    | output p i q => simp [OnProcess]
    | binary op s1 s2 res =>
      obtain ⟨h1, h2⟩ := hready deps op s1 s2 res hnode
      cases s1 with
      | none => exact absurd rfl h1
      | some a =>
        cases s2 with
        | none => exact absurd rfl h2
        | some b =>
          simp only [OnProcess]
          split
          · split <;> simp
          · simp

theorem pushAll_fault_ne (recv : DataFlowGraph → NodeId → Variable → Run) (d : Nat) (v : Variable)
    (f : Fault) (h : ∀ g m x, (recv g m x).fault ≠ some f) :
    ∀ (deps : List NodeId) (g : DataFlowGraph), (pushAll recv d v deps g).fault ≠ some f := by
  intro deps
  induction deps with
  | nil => intro g; simp [pushAll]
  | cons dep rest ih =>
    intro g
    simp only [pushAll]
    cases hf : (recv g dep v).fault with
    | some f2 =>
      simp only
      intro hc
      exact h g dep v (by rw [hf, hc])
    | none => exact ih _

theorem ready_set (g : DataFlowGraph) (n : NodeId) (node node2 : DataNode) (s : Nat)
    (hnode : g.nodes[n]? = some node)
    (h2 : ∀ deps op s1 s2 res, node2 = ⟨deps, NodeKind.binary op s1 s2 res⟩ → s1 ≠ none ∧ s2 ≠ none) :
    DataFlowGraph.ready { nodes := g.nodes.set n node2, registry := s } n := by
  intro deps op s1 s2 res hget
  have hself : (g.nodes.set n node2)[n]? = some node2 := getElem?_set_self_of_some g.nodes n _ _ hnode
  have hget2 : (g.nodes.set n node2)[n]? = some ⟨deps, NodeKind.binary op s1 s2 res⟩ := hget
  rw [hself] at hget2
  exact h2 deps op s1 s2 res (Option.some.inj hget2)

theorem receiveWith_no_nullOperand (reg : Registry) (proc : DataFlowGraph → NodeId → Run) (d : Nat)
    (h : ∀ (g : DataFlowGraph) (k : NodeId), g.ready k → (proc g k).fault ≠ some Fault.nullOperand)
    (g : DataFlowGraph) (n : NodeId) (data : Variable) :
    (receiveWith reg proc d g n data).fault ≠ some Fault.nullOperand := by
  unfold receiveWith
  split
  · simp
  · rename_i node hnode
    split
    · simp [baseReceiveData]
    · simp [baseReceiveData]
    · split
      · refine h _ _ (ready_set g n node _ _ hnode ?_)
        intro deps op s1 s2 res heq
        simp at heq
      · simp
    · split
      · refine h _ _ (ready_set g n node _ _ hnode ?_)
        intro deps op s1 s2 res heq
        simp at heq
      · simp
    · split
      · simp
      · refine h _ _ (ready_set g n node _ _ hnode ?_)
        intro deps op s1 s2 res heq
        simp at heq
        obtain ⟨_, _, h1, h2, _⟩ := heq
        subst h1
        subst h2
        simp

/-- A `Process` on a node that is not a BinaryNode with an empty slot never
reaches a BinaryNode's `OnProcess` with an empty slot, however deep the
cascade. -/
theorem Process_no_nullOperand (reg : Registry) :
    ∀ (fuel d : Nat) (g : DataFlowGraph) (n : NodeId), g.ready n →
      (Process reg fuel d g n).fault ≠ some Fault.nullOperand := by
  intro fuel
  induction fuel with
  | zero => intro d g n _; simp [Process]
  | succ fuel ih =>
    intro d g n hready
    have hpush : ∀ (v : Variable) (deps : List NodeId) (g1 : DataFlowGraph),
        (pushAll (fun g1 m x => ReceiveData reg fuel (d + 1) g1 m x) d v deps g1).fault ≠
          some Fault.nullOperand := by
      intro v deps g1
      apply pushAll_fault_ne
      intro g2 m x
      exact receiveWith_no_nullOperand reg _ (d + 1) (fun g3 k hk => ih (d + 1) g3 k hk) g2 m x
    rw [Process_succ]
    split
    · simp
    · rename_i node hnode
      have hon := OnProcess_fault_ready reg d g n node hnode hready
      split
      · rename_i f hf
        simp only
        rw [← hf]
        exact hon
      · split
        · simp
        · split
          · rename_i f hf
            simp only
            rw [← hf]
            exact hpush _ _ _
          · simp

theorem ReceiveData_no_nullOperand (reg : Registry) (fuel d : Nat) (g : DataFlowGraph) (n : NodeId)
    (data : Variable) : (ReceiveData reg fuel d g n data).fault ≠ some Fault.nullOperand :=
  receiveWith_no_nullOperand reg _ d (fun g3 k hk => Process_no_nullOperand reg fuel d g3 k hk) g n data

/-- A node that is a BinaryNode after a cascade was one before. -/
theorem binaryAt_before_cascade {g h : DataFlowGraph} (hev : g.evolves h) (k : NodeId)
    (hb : h.binaryAt k) : g.binaryAt k := by
  obtain ⟨deps, op, s1, s2, res, hk⟩ := hb
  have hlt : k < g.nodes.length := by
    rw [hev.1]
    rcases List.getElem?_eq_some.mp hk with ⟨hl, _⟩
    exact hl
  obtain ⟨a, ha⟩ : ∃ a, g.nodes[k]? = some a := ⟨g.nodes[k], List.getElem?_eq_getElem hlt⟩
  obtain ⟨b, hb, _, hkind⟩ := hev.2 k a ha
  rw [hk] at hb
  cases hb
  cases a with
  | mk adeps akind =>
    cases akind <;> simp [NodeKind.evolves] at hkind
    exact ⟨adeps, _, _, _, _, ha⟩

/-- A node that is a BinaryNode after some wiring was one before. -/
theorem binaryAt_before_wiring {g h : DataFlowGraph} (hrw : g.rewired h) (k : NodeId)
    (hb : h.binaryAt k) : g.binaryAt k := by
  obtain ⟨deps, op, s1, s2, res, hk⟩ := hb
  have hlt : k < g.nodes.length := by
    rw [hrw.1]
    rcases List.getElem?_eq_some.mp hk with ⟨hl, _⟩
    exact hl
  obtain ⟨a, ha⟩ : ∃ a, g.nodes[k]? = some a := ⟨g.nodes[k], List.getElem?_eq_getElem hlt⟩
  obtain ⟨b, hb, hkind, _⟩ := hrw.2 k a ha
  rw [hk] at hb
  cases hb
  cases a with
  | mk adeps akind =>
    simp at hkind
    exact ⟨adeps, op, s1, s2, res, by rw [ha, ← hkind]⟩

theorem ready_of_not_binary (g : DataFlowGraph) (k : NodeId) (h : ¬ g.binaryAt k) : g.ready k := by
  intro deps op s1 s2 res hk
  exact absurd ⟨deps, op, s1, s2, res, hk⟩ h

theorem perform_binaryAt_before (reg : Registry) (fuel : Nat) (g : DataFlowGraph) (call : ClientCall)
    (k : NodeId) (hb : (perform reg fuel g call).graph.binaryAt k) : g.binaryAt k := by
  cases call with
  | addDependent n p => exact binaryAt_before_wiring (AddDependent_rewired g n p) k hb
  | process n => exact binaryAt_before_cascade (Process_evolves reg fuel 0 g n) k hb
  | receiveData n data => exact binaryAt_before_cascade (ReceiveData_evolves reg fuel 0 g n data) k hb

/-- C23. Start from any graph, in particular one of freshly constructed
nodes, and let a client make any sequence of `AddDependent` calls,
`ReceiveData` calls and `Process` calls on nodes that are not BinaryNodes
(Literal and Argument nodes among them): the sequence never stops on a
BinaryNode's `OnProcess` finding an operand slot empty, so every execution of
that `OnProcess` had both slots filled. -/
theorem BinaryNode_OnProcess_has_operands (reg : Registry) (fuel : Nat) :
    ∀ (calls : List ClientCall) (g : DataFlowGraph),
      (∀ n, ClientCall.process n ∈ calls → ¬ g.binaryAt n) →
      (session reg fuel calls g).fault ≠ some Fault.nullOperand := by
  intro calls
  induction calls with
  | nil => intro g _; simp [session]
  | cons call rest ih =>
    intro g hsrc
    have hone : (perform reg fuel g call).fault ≠ some Fault.nullOperand := by
      cases call with
      | addDependent n p =>
        simp only [perform, AddDependent]
        split
        · simp
        · split <;> simp
      | process n =>
        exact Process_no_nullOperand reg fuel 0 g n
          (ready_of_not_binary g n (hsrc n (List.mem_cons_self _ _)))
      | receiveData n data => exact ReceiveData_no_nullOperand reg fuel 0 g n data
    simp only [session]
    cases hf : (perform reg fuel g call).fault with
    | some f =>
      simp only
      rw [← hf]
      exact hone
    | none =>
      simp only
      apply ih
      intro n hn hb
      exact hsrc n (List.mem_cons_of_mem _ hn) (perform_binaryAt_before reg fuel g call n hb)

/-- Witness for C23: scenario 1 is wired from fresh nodes and both literals
are processed; the run completes. -/
theorem BinaryNode_OnProcess_has_operands_witness :
    (session plainRegistry 3
      [ClientCall.addDependent 0 (some 2), ClientCall.addDependent 1 (some 2),
        ClientCall.addDependent 2 (some 3), ClientCall.process 0, ClientCall.process 1]
      ([⟨[], NodeKind.literal (some literalFive)⟩, ⟨[], NodeKind.literal (some literalFour)⟩,
        BinaryNode 2, OutputNode none 0].foldl AddNode emptyGraph)).fault ≠ some Fault.nullOperand ∧
    (session plainRegistry 3
      [ClientCall.addDependent 0 (some 2), ClientCall.addDependent 1 (some 2),
        ClientCall.addDependent 2 (some 3), ClientCall.process 0, ClientCall.process 1]
      ([⟨[], NodeKind.literal (some literalFive)⟩, ⟨[], NodeKind.literal (some literalFour)⟩,
        BinaryNode 2, OutputNode none 0].foldl AddNode emptyGraph)).fault = none :=
  ⟨BinaryNode_OnProcess_has_operands plainRegistry 3 _ _ (by
    intro n hn hb
    simp at hn
    obtain ⟨deps, op, s1, s2, res, hk⟩ := hb
    rcases hn with hn | hn <;> subst hn <;> simp [AddNode, emptyGraph] at hk), by decide⟩

/-! ## C24: reads after `FreeVar` -/

/-- `OnProcess` of node `n` leaves every other node as it is. -/
theorem OnProcess_other (reg : Registry) (d : Nat) (g : DataFlowGraph) (n : NodeId) (node : DataNode)
    (i : NodeId) (hi : i ≠ n) : (OnProcess reg d g n node).2.graph.nodes[i]? = g.nodes[i]? := by
  unfold OnProcess
  split
  · rfl
  · rfl
  · rfl
  · rfl
  · split
    · split
      · dsimp only
        split
        · simp [List.getElem?_set, Ne.symm hi]
        · simp [List.getElem?_set, Ne.symm hi]
      · rfl
    · rfl

/-- A `Process` on a BinaryNode whose slots hold Variables of one type starts
with the `Combine` request for the two slots. -/
theorem Process_binary_starts (reg : Registry) (fuel d : Nat) (g : DataFlowGraph) (n : NodeId)
    (deps : List NodeId) (op : OperatorType) (a b : Variable) (res : Option Variable)
    (hnode : g.nodes[n]? = some ⟨deps, NodeKind.binary op (some a) (some b) res⟩)
    (htype : a.valueType = b.valueType) :
    ∃ rest, (Process reg (fuel + 1) d g n).log =
      ⟨d, Event.enter n⟩ :: ⟨d, Event.combine a b op⟩ :: rest := by
  have hlog : ∃ rest, (OnProcess reg d g n ⟨deps, NodeKind.binary op (some a) (some b) res⟩).2.log =
      ⟨d, Event.combine a b op⟩ :: rest := by
    cases hn : needsCode (reg.Combine g.registry a b op).1 with
    | true => rw [OnProcess_binary_emit reg d g n deps op a b res htype hn]; exact ⟨_, rfl⟩
    | false => rw [OnProcess_binary_fold reg d g n deps op a b res htype hn]; exact ⟨_, rfl⟩
  obtain ⟨rest, hrest⟩ := hlog
  rw [Process_succ]
  simp only [hnode]
  split
  · exact ⟨_, by rw [hrest]⟩
  · split
    · exact ⟨_, by rw [hrest]; rfl⟩
    · split
      · exact ⟨_, by rw [hrest]; rfl⟩
      · exact ⟨_, by rw [hrest]; rfl⟩

/-- A later `ReceiveData` on a BinaryNode, as an equation: slot 2 is
overwritten and `Process` runs. -/
theorem ReceiveData_binary_filled (reg : Registry) (fuel d : Nat) (g : DataFlowGraph) (n : NodeId)
    (deps : List NodeId) (op : OperatorType) (a : Variable) (s2 res : Option Variable)
    (data : Variable)
    (hnode : g.nodes[n]? = some ⟨deps, NodeKind.binary op (some a) s2 res⟩) :
    ReceiveData reg fuel d g n data =
      Process reg fuel d (g.setNode n ⟨deps, NodeKind.binary op (some a) (some data) res⟩) n := by
  simp [ReceiveData, receiveWith, hnode]

/-- C24, counterexample. In scenario 1, processing the literal 5 stores its
Variable in slot 1 of the BinaryNode and passes it to `FreeVar`; processing
the literal 4 afterwards makes the BinaryNode request `Combine` on the
Variable that was freed. -/
theorem first_operand_read_after_free :
    (session plainRegistry 3 [ClientCall.process 0, ClientCall.process 1] productGraph).fault = none ∧
      combinesFreed []
        (session plainRegistry 3 [ClientCall.process 0, ClientCall.process 1] productGraph).log =
        true := by
  decide

/-- C24, amended. A producer whose only dependent is a BinaryNode with empty
slots stores its result `r` in slot 1 of that node and passes `r` to `FreeVar`
right after the push, as the last call of its `Process`; the BinaryNode
computes later, on its next `ReceiveData`, and its first request is `Combine`
on that `r`: the first operand has been passed to `FreeVar` when it is
read. -/
theorem first_operand_freed_before_compute (reg : Registry) (fuel d e : Nat) (g : DataFlowGraph)
    (n b : NodeId) (node : DataNode) (bdeps : List NodeId) (op : OperatorType) (r x : Variable)
    (hnode : g.nodes[n]? = some node)
    (hdeps : node.dependencies = [b])
    (hne : b ≠ n)
    (hb : g.nodes[b]? = some ⟨bdeps, NodeKind.binary op none none none⟩)
    (hres : (OnProcess reg d g n node).1 = some r)
    (hfault : (OnProcess reg d g n node).2.fault = none)
    (htype : r.valueType = x.valueType) :
    (Process reg (fuel + 1) d g n).fault = none ∧
      (Process reg (fuel + 1) d g n).log =
        ⟨d, Event.enter n⟩ :: ((OnProcess reg d g n node).2.log ++
          [⟨d, Event.result n (some r)⟩, ⟨d, Event.receive b r⟩, ⟨d, Event.freeVar r⟩]) ∧
      GetNodeAt (Process reg (fuel + 1) d g n).graph b =
        some ⟨bdeps, NodeKind.binary op (some r) none none⟩ ∧
      ∃ rest, (ReceiveData reg (fuel + 1) e (Process reg (fuel + 1) d g n).graph b x).log =
        ⟨e, Event.enter b⟩ :: ⟨e, Event.combine r x op⟩ :: rest := by
  have hb1 : (OnProcess reg d g n node).2.graph.nodes[b]? =
      some ⟨bdeps, NodeKind.binary op none none none⟩ := by
    rw [OnProcess_other reg d g n node b hne, hb]
  have hrecv := ReceiveData_binary_empty reg fuel (d + 1) _ b bdeps op r hb1
  have hproc : Process reg (fuel + 1) d g n =
      ⟨(OnProcess reg d g n node).2.graph.setNode b ⟨bdeps, NodeKind.binary op (some r) none none⟩,
       ⟨d, Event.enter n⟩ :: ((OnProcess reg d g n node).2.log ++
          [⟨d, Event.result n (some r)⟩, ⟨d, Event.receive b r⟩, ⟨d, Event.freeVar r⟩]),
       none⟩ := by
    rw [Process_succ]
    simp only [hnode, hfault, hres, hdeps, pushAll, hrecv]
    simp
  have hget : (Process reg (fuel + 1) d g n).graph.nodes[b]? =
      some ⟨bdeps, NodeKind.binary op (some r) none none⟩ := by
    rw [hproc]
    exact getElem?_set_self_of_some _ b _ _ hb1
  refine ⟨by rw [hproc], by rw [hproc], hget, ?_⟩
  rw [ReceiveData_binary_filled reg (fuel + 1) e _ b bdeps op r none none x hget]
  exact Process_binary_starts reg fuel e _ b bdeps op r x none
    (getElem?_set_self_of_some _ b _ _ hget) htype

/-- Witness for the amended C24 on scenario 1: the literal 5 is processed, then
the BinaryNode is sent the literal 4. -/
theorem first_operand_freed_before_compute_witness :
    (Process plainRegistry 3 0 productGraph 0).log =
        [⟨0, Event.enter 0⟩, ⟨0, Event.compile 0⟩, ⟨0, Event.result 0 (some literalFive)⟩,
          ⟨0, Event.receive 2 literalFive⟩, ⟨0, Event.freeVar literalFive⟩] ∧
      ∃ rest, (ReceiveData plainRegistry 3 0 (Process plainRegistry 3 0 productGraph 0).graph 2
          literalFour).log =
        ⟨0, Event.enter 2⟩ :: ⟨0, Event.combine literalFive literalFour 2⟩ :: rest :=
  ⟨(first_operand_freed_before_compute plainRegistry 2 0 0 productGraph 0 2
      ⟨[2], NodeKind.literal (some literalFive)⟩ [3] 2 literalFive literalFour
      rfl rfl (by decide) rfl rfl rfl rfl).2.1,
   (first_operand_freed_before_compute plainRegistry 2 0 0 productGraph 0 2
      ⟨[2], NodeKind.literal (some literalFive)⟩ [3] 2 literalFive literalFour
      rfl rfl (by decide) rfl rfl rfl rfl).2.2.2⟩

/-! ## C27: a BinaryNode is never reset -/

/-- A completed later `ReceiveData` on a BinaryNode makes exactly one
`Combine` request at its own level, for slot 1 and the data. -/
theorem ReceiveData_binary_combines (reg : Registry) (fuel d : Nat) (g : DataFlowGraph) (n : NodeId)
    (deps : List NodeId) (op : OperatorType) (a : Variable) (s2 res : Option Variable) (x : Variable)
    (hnode : g.nodes[n]? = some ⟨deps, NodeKind.binary op (some a) s2 res⟩)
    (hok : (ReceiveData reg (fuel + 1) d g n x).fault = none) :
    (callsAt d (ReceiveData reg (fuel + 1) d g n x).log).filter Event.isCombine =
      [Event.combine a x op] := by
  have hget : (g.setNode n ⟨deps, NodeKind.binary op (some a) (some x) res⟩).nodes[n]? =
      some ⟨deps, NodeKind.binary op (some a) (some x) res⟩ :=
    getElem?_set_self_of_some g.nodes n _ _ hnode
  rw [ReceiveData_binary_filled reg (fuel + 1) d g n deps op a s2 res x hnode] at hok ⊢
  have hrecv : ∀ (r : Variable), List.filter Event.isCombine
      (deps.map (fun m => Event.receive m r)) = [] := by
    intro r
    rw [List.filter_eq_nil_iff]
    intro e he
    simp at he
    obtain ⟨m, _, hm⟩ := he
    simp [← hm, Event.isCombine]
  obtain ⟨node1, hnode1, hfault, _⟩ := Process_ok_inv reg fuel d _ n hok
  rw [hget] at hnode1
  cases hnode1
  have htype : a.valueType = x.valueType := by
    by_contra hne
    simp [OnProcess, hne] at hfault
  rw [Process_callsAt reg fuel d _ n _ hget hok]
  cases hn : needsCode (reg.Combine g.registry a x op).1 with
  | true =>
    have h := OnProcess_binary_emit reg d
      (g.setNode n ⟨deps, NodeKind.binary op (some a) (some x) res⟩) n deps op a x res htype hn
    rw [h]
    simp [List.filter_cons, List.filter_append, Event.isCombine, hrecv]
  | false =>
    have h := OnProcess_binary_fold reg d
      (g.setNode n ⟨deps, NodeKind.binary op (some a) (some x) res⟩) n deps op a x res htype hn
    rw [h]
    cases hc : (reg.Combine g.registry a x op).1 with
    | none => simp [hc, needsCode] at hn
    | some r =>
      have hc2 : (reg.Combine (g.setNode n ⟨deps, NodeKind.binary op (some a) (some x) res⟩).registry
          a x op).1 = some r := hc
      simp [hc2, List.filter_cons, List.filter_append, Event.isCombine, hrecv]

/-- After a `ReceiveData` on a BinaryNode whose slot 1 is filled, slot 1 is as
before and the dependents are as before. -/
theorem ReceiveData_binary_keeps (reg : Registry) (fuel d : Nat) (g : DataFlowGraph) (n : NodeId)
    (deps : List NodeId) (op : OperatorType) (a : Variable) (s2 res : Option Variable) (x : Variable)
    (hnode : g.nodes[n]? = some ⟨deps, NodeKind.binary op (some a) s2 res⟩) :
    ∃ t2 tres, (ReceiveData reg fuel d g n x).graph.nodes[n]? =
      some ⟨deps, NodeKind.binary op (some a) t2 tres⟩ := by
  obtain ⟨b, hb, hdeps, hkind⟩ := (ReceiveData_evolves reg fuel d g n x).2 n _ hnode
  cases b with
  | mk bdeps bkind =>
    cases bkind <;> simp [NodeKind.evolves] at hkind
    rename_i op2 s1 t2 tres
    obtain ⟨hop, hs1⟩ := hkind
    simp at hdeps
    subst hop
    subst hdeps
    exact ⟨t2, tres, by rw [hb, hs1]⟩

/-- In a completed sequence of `ReceiveData` calls on a BinaryNode whose slot
1 holds `a`, the `Combine` requests made at the level of the calls pair `a`
with each Variable of the sequence, in order. -/
theorem deliver_binary_combines (reg : Registry) (fuel d : Nat) (n : NodeId) (deps : List NodeId)
    (op : OperatorType) (a : Variable) :
    ∀ (xs : List Variable) (g : DataFlowGraph) (s2 res : Option Variable),
      g.nodes[n]? = some ⟨deps, NodeKind.binary op (some a) s2 res⟩ →
      (deliver reg (fuel + 1) d n xs g).fault = none →
      (callsAt d (deliver reg (fuel + 1) d n xs g).log).filter Event.isCombine =
        xs.map (fun x => Event.combine a x op) := by
  intro xs
  induction xs with
  | nil => intro g s2 res _ _; simp [deliver, callsAt]
  | cons x rest ih =>
    intro g s2 res hnode hok
    simp only [deliver] at hok ⊢
    cases hf : (ReceiveData reg (fuel + 1) d g n x).fault with
    | some f => simp [hf] at hok
    | none =>
      simp only [hf] at hok ⊢
      obtain ⟨t2, tres, hnext⟩ := ReceiveData_binary_keeps reg (fuel + 1) d g n deps op a s2 res x hnode
      rw [callsAt_append, List.filter_append,
        ReceiveData_binary_combines reg fuel d g n deps op a s2 res x hnode hf,
        ih _ t2 tres hnext hok]
      simp

/-- A later `ReceiveData` on a BinaryNode without dependents, with data of the
type of slot 1, completes. -/
theorem ReceiveData_binary_completes (reg : Registry) (fuel d : Nat) (g : DataFlowGraph) (n : NodeId)
    (op : OperatorType) (a : Variable) (s2 res : Option Variable) (x : Variable)
    (hnode : g.nodes[n]? = some ⟨[], NodeKind.binary op (some a) s2 res⟩)
    (htype : a.valueType = x.valueType) :
    (ReceiveData reg (fuel + 1) d g n x).fault = none := by
  have hget : (g.setNode n ⟨[], NodeKind.binary op (some a) (some x) res⟩).nodes[n]? =
      some ⟨[], NodeKind.binary op (some a) (some x) res⟩ :=
    getElem?_set_self_of_some g.nodes n _ _ hnode
  rw [ReceiveData_binary_filled reg (fuel + 1) d g n [] op a s2 res x hnode, Process_succ]
  simp only [hget]
  cases hn : needsCode (reg.Combine g.registry a x op).1 with
  | true =>
    have h := OnProcess_binary_emit reg d
      (g.setNode n ⟨[], NodeKind.binary op (some a) (some x) res⟩) n [] op a x res htype hn
    rw [h]
    simp [pushAll]
  | false =>
    have h := OnProcess_binary_fold reg d
      (g.setNode n ⟨[], NodeKind.binary op (some a) (some x) res⟩) n [] op a x res htype hn
    rw [h]
    cases hc : (reg.Combine g.registry a x op).1 with
    | none => simp [hc, needsCode] at hn
    | some r =>
      have hc2 : (reg.Combine (g.setNode n ⟨[], NodeKind.binary op (some a) (some x) res⟩).registry
          a x op).1 = some r := hc
      simp [hc2, pushAll]

theorem deliver_binary_completes (reg : Registry) (fuel d : Nat) (n : NodeId)
    (op : OperatorType) (a : Variable) :
    ∀ (xs : List Variable) (g : DataFlowGraph) (s2 res : Option Variable),
      g.nodes[n]? = some ⟨[], NodeKind.binary op (some a) s2 res⟩ →
      (∀ x ∈ xs, x.valueType = a.valueType) →
      (deliver reg (fuel + 1) d n xs g).fault = none := by
  intro xs
  induction xs with
  | nil => intro g s2 res _ _; simp [deliver]
  | cons x rest ih =>
    intro g s2 res hnode htypes
    have hf := ReceiveData_binary_completes reg fuel d g n op a s2 res x hnode
      (htypes x (List.mem_cons_self _ _)).symm
    obtain ⟨t2, tres, hnext⟩ := ReceiveData_binary_keeps reg (fuel + 1) d g n [] op a s2 res x hnode
    simp only [deliver, hf]
    exact ih _ t2 tres hnext (fun y hy => htypes y (List.mem_cons_of_mem _ hy))

/-- C27. A BinaryNode is never reset. After any nonempty sequence of
`ReceiveData` calls on a fresh BinaryNode, slot 1 still holds the first
Variable received; every call on a node whose slot 1 is filled overwrites slot
2 and runs `Process`; in a completed sequence of `n` calls the node made
exactly `n - 1` `Combine` requests at the level of the calls, the `j`-th for
the first Variable and the `(j + 1)`-th; and on a node without dependents a
sequence of same-typed data always completes. -/
theorem BinaryNode_never_reset (reg : Registry) (fuel d : Nat) (g : DataFlowGraph) (n : NodeId)
    (deps : List NodeId) (op : OperatorType) (first : Variable) (later : List Variable)
    (hnode : g.nodes[n]? = some ⟨deps, NodeKind.binary op none none none⟩) :
    (∃ s2 res, (deliver reg (fuel + 1) d n (first :: later) g).graph.nodes[n]? =
        some ⟨deps, NodeKind.binary op (some first) s2 res⟩) ∧
      (∀ (h : DataFlowGraph) (a : Variable) (s2 res : Option Variable) (x : Variable),
        h.nodes[n]? = some ⟨deps, NodeKind.binary op (some a) s2 res⟩ →
        ReceiveData reg (fuel + 1) d h n x =
          Process reg (fuel + 1) d (h.setNode n ⟨deps, NodeKind.binary op (some a) (some x) res⟩) n) ∧
      ((deliver reg (fuel + 1) d n (first :: later) g).fault = none →
        (callsAt d (deliver reg (fuel + 1) d n (first :: later) g).log).filter Event.isCombine =
          later.map (fun x => Event.combine first x op)) ∧
      (deps = [] → (∀ x ∈ later, x.valueType = first.valueType) →
        (deliver reg (fuel + 1) d n (first :: later) g).fault = none) := by
  have hfirst := ReceiveData_binary_empty reg (fuel + 1) d g n deps op first hnode
  have hget : (g.setNode n ⟨deps, NodeKind.binary op (some first) none none⟩).nodes[n]? =
      some ⟨deps, NodeKind.binary op (some first) none none⟩ :=
    getElem?_set_self_of_some g.nodes n _ _ hnode
  have hd : deliver reg (fuel + 1) d n (first :: later) g =
      deliver reg (fuel + 1) d n later
        (g.setNode n ⟨deps, NodeKind.binary op (some first) none none⟩) := by
    simp [deliver, hfirst]
  refine ⟨deliver_keeps_first reg (fuel + 1) d g n deps op first later hnode, ?_, ?_, ?_⟩
  · intro h a s2 res x hh
    exact ReceiveData_binary_filled reg (fuel + 1) d h n deps op a s2 res x hh
  · intro hok
    rw [hd] at hok ⊢
    exact deliver_binary_combines reg fuel d n deps op first later _ none none hget hok
  · intro hdeps htypes
    subst hdeps
    rw [hd]
    exact deliver_binary_completes reg fuel d n op first later _ none none hget htypes

/-- Witness for C27: the lone BinaryNode is sent the literals 5, 4 and 5; it
computes twice, both times with the literal 5 as first operand. -/
theorem BinaryNode_never_reset_witness :
    (deliver plainRegistry 3 0 0 [literalFive, literalFour, literalFive] loneBinaryGraph).fault = none ∧
      (callsAt 0 (deliver plainRegistry 3 0 0 [literalFive, literalFour, literalFive]
          loneBinaryGraph).log).filter Event.isCombine =
        [Event.combine literalFive literalFour 2, Event.combine literalFive literalFive 2] :=
  ⟨(BinaryNode_never_reset plainRegistry 2 0 loneBinaryGraph 0 [] 2 literalFive
      [literalFour, literalFive] rfl).2.2.2 rfl (by decide),
   (BinaryNode_never_reset plainRegistry 2 0 loneBinaryGraph 0 [] 2 literalFive
      [literalFour, literalFive] rfl).2.2.1 (by decide)⟩

/-! ## C28 and C30: arrival order and double registration -/

/-- The log of a `Process` whose `OnProcess` produced `v` without a fault
starts with the entry, the calls of `OnProcess`, the result and the calls of
the push loop. -/
theorem Process_log_shape (reg : Registry) (fuel d : Nat) (g : DataFlowGraph) (n : NodeId)
    (node : DataNode) (v : Variable) (hnode : g.nodes[n]? = some node)
    (hfault : (OnProcess reg d g n node).2.fault = none)
    (hres : (OnProcess reg d g n node).1 = some v) :
    ∃ tail, (Process reg (fuel + 1) d g n).log =
      ⟨d, Event.enter n⟩ :: ((OnProcess reg d g n node).2.log ++ ⟨d, Event.result n (some v)⟩ ::
        ((pushAll (fun g1 m x => ReceiveData reg fuel (d + 1) g1 m x) d v node.dependencies
          (OnProcess reg d g n node).2.graph).log ++ tail)) := by
  rw [Process_succ]
  simp only [hnode, hfault, hres]
  split
  · exact ⟨[], by simp⟩
  · exact ⟨[⟨d, Event.freeVar v⟩], rfl⟩

/-- The log of a push loop starts with the first push and what it set off. -/
theorem pushAll_cons_log (recv : DataFlowGraph → NodeId → Variable → Run) (d : Nat) (v : Variable)
    (m : NodeId) (rest : List NodeId) (g : DataFlowGraph) :
    ∃ tail, (pushAll recv d v (m :: rest) g).log =
      ⟨d, Event.receive m v⟩ :: ((recv g m v).log ++ tail) := by
  simp only [pushAll]
  split
  · exact ⟨[], by simp⟩
  · exact ⟨_, rfl⟩

/-- A Literal or Argument node wrapping `a`: `OnProcess` returns `a`, raises
no fault, leaves the graph and makes no `Combine` request. -/
theorem OnProcess_source (reg : Registry) (d : Nat) (g : DataFlowGraph) (n : NodeId)
    (deps : List NodeId) (kind : NodeKind) (a : Variable)
    (hk : kind = NodeKind.literal (some a) ∨ kind = NodeKind.arg (some a)) :
    (OnProcess reg d g n ⟨deps, kind⟩).1 = some a ∧
      (OnProcess reg d g n ⟨deps, kind⟩).2.graph = g ∧
      (OnProcess reg d g n ⟨deps, kind⟩).2.fault = none ∧
      combines (OnProcess reg d g n ⟨deps, kind⟩).2.log = [] := by
  rcases hk with hk | hk <;> subst hk <;> simp [OnProcess, combines]

/-- A producer whose only dependent is a BinaryNode with empty slots: the
whole run of its `Process`. -/
theorem Process_into_empty_binary (reg : Registry) (fuel d : Nat) (g : DataFlowGraph)
    (n b : NodeId) (node : DataNode) (bdeps : List NodeId) (op : OperatorType) (r : Variable)
    (hnode : g.nodes[n]? = some node)
    (hdeps : node.dependencies = [b])
    (hne : b ≠ n)
    (hb : g.nodes[b]? = some ⟨bdeps, NodeKind.binary op none none none⟩)
    (hres : (OnProcess reg d g n node).1 = some r)
    (hfault : (OnProcess reg d g n node).2.fault = none) :
    Process reg (fuel + 1) d g n =
      ⟨(OnProcess reg d g n node).2.graph.setNode b ⟨bdeps, NodeKind.binary op (some r) none none⟩,
       ⟨d, Event.enter n⟩ :: ((OnProcess reg d g n node).2.log ++
          [⟨d, Event.result n (some r)⟩, ⟨d, Event.receive b r⟩, ⟨d, Event.freeVar r⟩]),
       none⟩ := by
  have hb1 : (OnProcess reg d g n node).2.graph.nodes[b]? =
      some ⟨bdeps, NodeKind.binary op none none none⟩ := by
    rw [OnProcess_other reg d g n node b hne, hb]
  have hrecv := ReceiveData_binary_empty reg fuel (d + 1) _ b bdeps op r hb1
  rw [Process_succ]
  simp only [hnode, hfault, hres, hdeps, pushAll, hrecv]
  simp

theorem combines_append (l1 l2 : List Call) : combines (l1 ++ l2) = combines l1 ++ combines l2 := by
  simp [combines]

theorem combines_cons (c : Call) (l : List Call) : combines (c :: l) = combines [c] ++ combines l := by
  rw [← combines_append]
  rfl

/-- C28. Two fresh source nodes A and B wrapping `a` and `b` of one type are
wired to a BinaryNode with empty slots; the two orders of the `AddDependent`
calls give the same graph. On it, processing A then B makes the first
`Combine` request `Combine(a, b, op)`, and processing B then A makes it
`Combine(b, a, op)`. -/
theorem operand_roles_by_arrival (reg : Registry) (fuel : Nat) (kindA kindB : NodeKind)
    (a b : Variable) (op : OperatorType) (depsC : List NodeId) (s : Nat)
    (hA : kindA = NodeKind.literal (some a) ∨ kindA = NodeKind.arg (some a))
    (hB : kindB = NodeKind.literal (some b) ∨ kindB = NodeKind.arg (some b))
    (htype : a.valueType = b.valueType) :
    (wire [(0, some 2), (1, some 2)] (twoSourcesGraph kindA kindB op depsC s)).graph =
        (wire [(1, some 2), (0, some 2)] (twoSourcesGraph kindA kindB op depsC s)).graph ∧
      (combines (session reg (fuel + 2) [ClientCall.process 0, ClientCall.process 1]
        (wire [(0, some 2), (1, some 2)] (twoSourcesGraph kindA kindB op depsC s)).graph).log).head? =
        some (a, b, op) ∧
      (combines (session reg (fuel + 2) [ClientCall.process 1, ClientCall.process 0]
        (wire [(0, some 2), (1, some 2)] (twoSourcesGraph kindA kindB op depsC s)).graph).log).head? =
        some (b, a, op) := by
  have hw : (wire [(0, some 2), (1, some 2)] (twoSourcesGraph kindA kindB op depsC s)).graph =
      ⟨[⟨[2], kindA⟩, ⟨[2], kindB⟩, ⟨depsC, NodeKind.binary op none none none⟩], s⟩ := by
    simp [wire, AddDependent, twoSourcesGraph, DataFlowGraph.setNode]
  have hw2 : (wire [(1, some 2), (0, some 2)] (twoSourcesGraph kindA kindB op depsC s)).graph =
      ⟨[⟨[2], kindA⟩, ⟨[2], kindB⟩, ⟨depsC, NodeKind.binary op none none none⟩], s⟩ := by
    simp [wire, AddDependent, twoSourcesGraph, DataFlowGraph.setNode]
  -- the general two-step run: the node at `i` first, then the node at `j`
  have key : ∀ (i j : NodeId) (ki kj : NodeKind) (x y : Variable) (g : DataFlowGraph),
      i ≠ 2 → j ≠ 2 → i ≠ j →
      g.nodes[i]? = some ⟨[2], ki⟩ → g.nodes[j]? = some ⟨[2], kj⟩ →
      g.nodes[2]? = some ⟨depsC, NodeKind.binary op none none none⟩ →
      (ki = NodeKind.literal (some x) ∨ ki = NodeKind.arg (some x)) →
      (kj = NodeKind.literal (some y) ∨ kj = NodeKind.arg (some y)) →
      x.valueType = y.valueType →
      (combines (session reg (fuel + 2) [ClientCall.process i, ClientCall.process j] g).log).head? =
        some (x, y, op) := by
    intro i j ki kj x y g hi hj hij hgi hgj hgc hki hkj hxy
    obtain ⟨hri, hgi2, hfi, hci⟩ := OnProcess_source reg 0 g i [2] ki x hki
    have h1 := Process_into_empty_binary reg (fuel + 1) 0 g i 2 ⟨[2], ki⟩ depsC op x hgi rfl
      (Ne.symm hi) hgc hri hfi
    rw [hgi2] at h1
    have hg1j : (g.setNode 2 ⟨depsC, NodeKind.binary op (some x) none none⟩).nodes[j]? =
        some ⟨[2], kj⟩ := by
      simp [DataFlowGraph.setNode, List.getElem?_set, Ne.symm hj, hgj]
    have hg1c : (g.setNode 2 ⟨depsC, NodeKind.binary op (some x) none none⟩).nodes[2]? =
        some ⟨depsC, NodeKind.binary op (some x) none none⟩ :=
      getElem?_set_self_of_some g.nodes 2 _ _ hgc
    obtain ⟨hrj, hgj2, hfj, hcj⟩ := OnProcess_source reg 0
      (g.setNode 2 ⟨depsC, NodeKind.binary op (some x) none none⟩) j [2] kj y hkj
    obtain ⟨tail, htail⟩ := Process_log_shape reg (fuel + 1) 0 _ j ⟨[2], kj⟩ y hg1j hfj hrj
    obtain ⟨tail2, htail2⟩ := pushAll_cons_log
      (fun g1 m z => ReceiveData reg (fuel + 1) (0 + 1) g1 m z) 0 y 2 []
      (OnProcess reg 0 (g.setNode 2 ⟨depsC, NodeKind.binary op (some x) none none⟩) j ⟨[2], kj⟩).2.graph
    rw [hgj2] at htail2
    rw [hgj2] at htail
    dsimp only at htail
    have hrecv := ReceiveData_binary_filled reg (fuel + 1) (0 + 1)
      (g.setNode 2 ⟨depsC, NodeKind.binary op (some x) none none⟩) 2 depsC op x none none y hg1c
    obtain ⟨rest, hrest⟩ := Process_binary_starts reg fuel (0 + 1)
      ((g.setNode 2 ⟨depsC, NodeKind.binary op (some x) none none⟩).setNode 2
        ⟨depsC, NodeKind.binary op (some x) (some y) none⟩) 2 depsC op x y none
      (getElem?_set_self_of_some _ 2 _ _ hg1c) hxy
    simp only [session, perform, h1]
    cases hf2 : (Process reg (fuel + 2) 0
        (g.setNode 2 ⟨depsC, NodeKind.binary op (some x) none none⟩) j).fault <;>
      · simp only [List.append_nil]
        rw [htail, htail2, hrecv, hrest]
        simp only [combines_append, combines_cons _ (_ ++ _), combines_cons _ (_ :: _), hci, hcj]
        simp [combines]
  refine ⟨by rw [hw, hw2], ?_, ?_⟩
  · rw [hw]
    exact key 0 1 kindA kindB a b _ (by decide) (by decide) (by decide) rfl rfl rfl hA hB htype
  · rw [hw]
    exact key 1 0 kindB kindA b a _ (by decide) (by decide) (by decide) rfl rfl rfl hB hA htype.symm

/-- Witness for C28 with a LiteralNode for the literal 5 and an ArgNode
wrapping the literal 4's Variable. -/
theorem operand_roles_by_arrival_witness :
    (combines (session plainRegistry 3 [ClientCall.process 0, ClientCall.process 1]
        (wire [(0, some 2), (1, some 2)]
          (twoSourcesGraph (NodeKind.literal (some literalFive)) (NodeKind.arg (some literalFour))
            2 [] 0)).graph).log).head? = some (literalFive, literalFour, 2) ∧
      (combines (session plainRegistry 3 [ClientCall.process 1, ClientCall.process 0]
        (wire [(0, some 2), (1, some 2)]
          (twoSourcesGraph (NodeKind.literal (some literalFive)) (NodeKind.arg (some literalFour))
            2 [] 0)).graph).log).head? = some (literalFour, literalFive, 2) :=
  (operand_roles_by_arrival plainRegistry 1 (NodeKind.literal (some literalFive))
    (NodeKind.arg (some literalFour)) literalFive literalFour 2 [] 0 (Or.inl rfl) (Or.inr rfl) rfl).2

theorem callsAt_other (d : Nat) (l : List Call) (h : ∀ c ∈ l, c.depth ≠ d) : callsAt d l = [] := by
  simp only [callsAt, List.map_eq_nil_iff, List.filter_eq_nil_iff]
  intro c hc
  simp [h c hc]

/-- The push loop over a dependents list that names a BinaryNode with empty
slots twice. -/
theorem pushAll_twice (reg : Registry) (fuel d : Nat) (g : DataFlowGraph) (b : NodeId)
    (bdeps : List NodeId) (op : OperatorType) (v : Variable)
    (hb : g.nodes[b]? = some ⟨bdeps, NodeKind.binary op none none none⟩) :
    (pushAll (fun g1 m x => ReceiveData reg fuel (d + 1) g1 m x) d v [b, b] g).fault =
        (ReceiveData reg fuel (d + 1)
          (g.setNode b ⟨bdeps, NodeKind.binary op (some v) none none⟩) b v).fault ∧
      (pushAll (fun g1 m x => ReceiveData reg fuel (d + 1) g1 m x) d v [b, b] g).log =
        ⟨d, Event.receive b v⟩ :: ⟨d, Event.receive b v⟩ ::
          (ReceiveData reg fuel (d + 1)
            (g.setNode b ⟨bdeps, NodeKind.binary op (some v) none none⟩) b v).log := by
  have h1 := ReceiveData_binary_empty reg fuel (d + 1) g b bdeps op v hb
  simp only [pushAll, h1]
  cases hf : (ReceiveData reg fuel (d + 1)
      (g.setNode b ⟨bdeps, NodeKind.binary op (some v) none none⟩) b v).fault <;> simp

/-- C30. A producer with result `v` has the same BinaryNode with empty slots
registered twice. One `Process` of the producer pushes `v` twice; the second
push makes the BinaryNode compute, its first request being `Combine(v, v, op)`
one level below the producer. When the run completes, that is the only
`Combine` request made at that level, and the producer's `FreeVar(v)` is the
last call of the run, after both pushes. -/
theorem double_registration (reg : Registry) (fuel d : Nat) (g : DataFlowGraph) (n b : NodeId)
    (node : DataNode) (bdeps : List NodeId) (op : OperatorType) (v : Variable)
    (hnode : g.nodes[n]? = some node)
    (hdeps : node.dependencies = [b, b])
    (hne : b ≠ n)
    (hb : g.nodes[b]? = some ⟨bdeps, NodeKind.binary op none none none⟩)
    (hres : (OnProcess reg d g n node).1 = some v)
    (hfault : (OnProcess reg d g n node).2.fault = none) :
    (∃ rest, (Process reg (fuel + 2) d g n).log =
        ⟨d, Event.enter n⟩ :: ((OnProcess reg d g n node).2.log ++
          ⟨d, Event.result n (some v)⟩ :: ⟨d, Event.receive b v⟩ :: ⟨d, Event.receive b v⟩ ::
          ⟨d + 1, Event.enter b⟩ :: ⟨d + 1, Event.combine v v op⟩ :: rest)) ∧
      ((Process reg (fuel + 2) d g n).fault = none →
        (callsAt (d + 1) (Process reg (fuel + 2) d g n).log).filter Event.isCombine =
            [Event.combine v v op] ∧
          (Process reg (fuel + 2) d g n).log.getLast? = some ⟨d, Event.freeVar v⟩ ∧
          callsAt d (Process reg (fuel + 2) d g n).log =
            Event.enter n :: ((OnProcess reg d g n node).2.log.map Call.event ++
              [Event.result n (some v), Event.receive b v, Event.receive b v, Event.freeVar v])) := by
  have hb0 : (OnProcess reg d g n node).2.graph.nodes[b]? =
      some ⟨bdeps, NodeKind.binary op none none none⟩ := by
    rw [OnProcess_other reg d g n node b hne, hb]
  have hb1 : ((OnProcess reg d g n node).2.graph.setNode b
      ⟨bdeps, NodeKind.binary op (some v) none none⟩).nodes[b]? =
      some ⟨bdeps, NodeKind.binary op (some v) none none⟩ :=
    getElem?_set_self_of_some _ b _ _ hb0
  obtain ⟨hpf, hpl⟩ := pushAll_twice reg (fuel + 1) d _ b bdeps op v hb0
  have hfilled := ReceiveData_binary_filled reg (fuel + 1) (d + 1) _ b bdeps op v none none v hb1
  have hb2 : (((OnProcess reg d g n node).2.graph.setNode b
      ⟨bdeps, NodeKind.binary op (some v) none none⟩).setNode b
      ⟨bdeps, NodeKind.binary op (some v) (some v) none⟩).nodes[b]? =
      some ⟨bdeps, NodeKind.binary op (some v) (some v) none⟩ :=
    getElem?_set_self_of_some _ b _ _ hb1
  obtain ⟨rest, hrest⟩ := Process_binary_starts reg fuel (d + 1) _ b bdeps op v v none hb2 rfl
  constructor
  · obtain ⟨tail, htail⟩ := Process_log_shape reg (fuel + 1) d g n node v hnode hfault hres
    rw [hdeps, hpl, hfilled, hrest] at htail
    exact ⟨rest ++ tail, by rw [htail]; simp⟩
  · intro hok
    obtain ⟨node1, hnode1, _, hcase⟩ := Process_ok_inv reg (fuel + 1) d g n hok
    rw [hnode] at hnode1
    cases hnode1
    rcases hcase with ⟨hnone, _⟩ | ⟨x, hx, hpush, heq⟩
    · rw [hres] at hnone
      cases hnone
    · rw [hres] at hx
      cases hx
      rw [hdeps] at hpush heq
      have hok2 : (ReceiveData reg (fuel + 1) (d + 1)
          ((OnProcess reg d g n node).2.graph.setNode b
            ⟨bdeps, NodeKind.binary op (some v) none none⟩) b v).fault = none := by
        rw [← hpf]
        exact hpush
      have hcomb := ReceiveData_binary_combines reg fuel (d + 1) _ b bdeps op v none none v hb1 hok2
      refine ⟨?_, ?_, ?_⟩
      · rw [heq, hpl]
        have e : ∀ (a : Call) (l1 : List Call) (c1 c2 c3 : Call) (l2 : List Call) (c4 : Call),
            a :: (l1 ++ c1 :: (c2 :: c3 :: l2 ++ [c4])) =
              ([a] ++ l1 ++ [c1, c2, c3]) ++ (l2 ++ [c4]) := by
          intros; simp
        have hpre : callsAt (d + 1) ([(⟨d, Event.enter n⟩ : Call)] ++ (OnProcess reg d g n node).2.log ++
            [⟨d, Event.result n (some v)⟩, ⟨d, Event.receive b v⟩, ⟨d, Event.receive b v⟩]) = [] := by
          apply callsAt_other
          intro c hc
          simp only [List.mem_append, List.mem_cons, List.mem_singleton, List.not_mem_nil,
            or_false] at hc
          rcases hc with (hc | hc) | hc | hc | hc
          · rw [hc]; simp
          · rw [OnProcess_depth reg d g n node c hc]; omega
          · rw [hc]; simp
          · rw [hc]; simp
          · rw [hc]; simp
        have hpost : callsAt (d + 1) [(⟨d, Event.freeVar v⟩ : Call)] = [] := by
          simp [callsAt]
        rw [e, callsAt_append, hpre, callsAt_append, hpost]
        simpa using hcomb
      · rw [heq]
        have e : ∀ (a : Call) (l1 : List Call) (c1 : Call) (l2 : List Call) (c4 : Call),
            a :: (l1 ++ c1 :: (l2 ++ [c4])) = (a :: (l1 ++ c1 :: l2)) ++ [c4] := by
          intros; simp
        simp only [e, List.getLast?_concat]
      · rw [Process_callsAt reg (fuel + 1) d g n node hnode hok, hres, hdeps]
        simp

/-- Witness for C30 on `doubleEdgeGraph`. -/
theorem double_registration_witness :
    (Process plainRegistry 3 0 doubleEdgeGraph 0).fault = none ∧
      (callsAt 1 (Process plainRegistry 3 0 doubleEdgeGraph 0).log).filter Event.isCombine =
        [Event.combine literalFive literalFive 2] ∧
      (Process plainRegistry 3 0 doubleEdgeGraph 0).log.getLast? =
        some ⟨0, Event.freeVar literalFive⟩ :=
  ⟨by decide,
   ((double_registration plainRegistry 1 0 doubleEdgeGraph 0 1
      ⟨[1, 1], NodeKind.literal (some literalFive)⟩ [2] 2 literalFive rfl rfl (by decide) rfl rfl
      rfl).2 (by decide)).1,
   ((double_registration plainRegistry 1 0 doubleEdgeGraph 0 1
      ⟨[1, 1], NodeKind.literal (some literalFive)⟩ [2] 2 literalFive rfl rfl (by decide) rfl rfl
      rfl).2 (by decide)).2.1⟩

/-! ## C25: scenario 1 -/

/-- `Process` on an OutputNode without dependents that holds `r`. -/
theorem Process_output_leaf (reg : Registry) (fuel d : Nat) (g : DataFlowGraph) (n : NodeId)
    (pDestVar : Option Variable) (elementIndex : Int) (r : Variable)
    (hnode : g.nodes[n]? = some ⟨[], NodeKind.output pDestVar elementIndex (some r)⟩) :
    Process reg (fuel + 1) d g n =
      ⟨g, [⟨d, Event.enter n⟩, ⟨d, Event.compile n⟩, ⟨d, Event.result n (some r)⟩,
        ⟨d, Event.freeVar r⟩], none⟩ := by
  rw [Process_succ]
  simp [hnode, OnProcess, pushAll]

/-- `OnProcess` of a BinaryNode whose slots hold Variables of one type raises
no fault, and its calls are the `Combine` request, followed on the emit branch
by the allocation request and the emission call. -/
theorem OnProcess_binary_ok (reg : Registry) (d : Nat) (g : DataFlowGraph) (n : NodeId)
    (deps : List NodeId) (op : OperatorType) (a b : Variable) (res : Option Variable)
    (htype : a.valueType = b.valueType) :
    (OnProcess reg d g n ⟨deps, NodeKind.binary op (some a) (some b) res⟩).2.fault = none ∧
      (∃ r, (OnProcess reg d g n ⟨deps, NodeKind.binary op (some a) (some b) res⟩).1 = some r) ∧
      (OnProcess reg d g n ⟨deps, NodeKind.binary op (some a) (some b) res⟩).2.log =
        (if needsCode (reg.Combine g.registry a b op).1 then
          [⟨d, Event.combine a b op⟩, ⟨d, Event.addLocalScalar a.valueType⟩, ⟨d, Event.compile n⟩]
        else [⟨d, Event.combine a b op⟩]) := by
  cases hn : needsCode (reg.Combine g.registry a b op).1 with
  | true =>
    rw [OnProcess_binary_emit reg d g n deps op a b res htype hn]
    exact ⟨rfl, ⟨_, rfl⟩, by simp⟩
  | false =>
    rw [OnProcess_binary_fold reg d g n deps op a b res htype hn]
    refine ⟨rfl, ?_, by simp⟩
    cases hc : (reg.Combine g.registry a b op).1 with
    | none => simp [hc, needsCode] at hn
    | some r => exact ⟨r, rfl⟩

/-- `needsCode` in the words of the spec. -/
theorem needsCode_eq_false_iff (p : Option Variable) :
    needsCode p = false ↔ ∃ c, p = some c ∧ c.IsComputed = true := by
  cases p with
  | none => simp [needsCode]
  | some c => simp [needsCode]

/-- The whole run of scenario 1 on any graph of its shape: the literal at `i`
is processed, then the literal at `j`. -/
theorem scenario_run (reg : Registry) (fuel : Nat) (g : DataFlowGraph) (i j : NodeId)
    (x y r : Variable) (op : OperatorType) (pDestVar : Option Variable) (elementIndex : Int)
    (hi2 : i ≠ 2) (hj2 : j ≠ 2)
    (hgi : g.nodes[i]? = some ⟨[2], NodeKind.literal (some x)⟩)
    (hgj : g.nodes[j]? = some ⟨[2], NodeKind.literal (some y)⟩)
    (hg2 : g.nodes[2]? = some ⟨[3], NodeKind.binary op none none none⟩)
    (hg3 : g.nodes[3]? = some ⟨[], NodeKind.output pDestVar elementIndex none⟩)
    (htype : x.valueType = y.valueType)
    (hr : (OnProcess reg 1
      ((g.setNode 2 ⟨[3], NodeKind.binary op (some x) none none⟩).setNode 2
        ⟨[3], NodeKind.binary op (some x) (some y) none⟩) 2
      ⟨[3], NodeKind.binary op (some x) (some y) none⟩).1 = some r)
    (hscalar : r.IsScalar = true) :
    (session reg (fuel + 3) [ClientCall.process i, ClientCall.process j] g).fault = none ∧
      (session reg (fuel + 3) [ClientCall.process i, ClientCall.process j] g).log =
        [⟨0, Event.enter i⟩, ⟨0, Event.compile i⟩, ⟨0, Event.result i (some x)⟩,
          ⟨0, Event.receive 2 x⟩, ⟨0, Event.freeVar x⟩] ++
        ([⟨0, Event.enter j⟩, ⟨0, Event.compile j⟩, ⟨0, Event.result j (some y)⟩,
          ⟨0, Event.receive 2 y⟩, ⟨1, Event.enter 2⟩] ++
         (if needsCode (reg.Combine g.registry x y op).1 then
            [⟨1, Event.combine x y op⟩, ⟨1, Event.addLocalScalar x.valueType⟩, ⟨1, Event.compile 2⟩]
          else [⟨1, Event.combine x y op⟩]) ++
         [⟨1, Event.result 2 (some r)⟩, ⟨1, Event.receive 3 r⟩, ⟨2, Event.enter 3⟩,
          ⟨2, Event.compile 3⟩, ⟨2, Event.result 3 (some r)⟩, ⟨2, Event.freeVar r⟩,
          ⟨1, Event.freeVar r⟩, ⟨0, Event.freeVar y⟩]) := by
  -- first literal
  have h1 := Process_into_empty_binary reg (fuel + 2) 0 g i 2 ⟨[2], NodeKind.literal (some x)⟩ [3] op x
    hgi rfl (Ne.symm hi2) hg2 rfl rfl
  have h1' : Process reg (fuel + 3) 0 g i =
      ⟨g.setNode 2 ⟨[3], NodeKind.binary op (some x) none none⟩,
       [⟨0, Event.enter i⟩, ⟨0, Event.compile i⟩, ⟨0, Event.result i (some x)⟩,
          ⟨0, Event.receive 2 x⟩, ⟨0, Event.freeVar x⟩], none⟩ := by
    rw [h1]
    simp [OnProcess]
  -- the graphs on the way
  have hg1j : (g.setNode 2 ⟨[3], NodeKind.binary op (some x) none none⟩).nodes[j]? =
      some ⟨[2], NodeKind.literal (some y)⟩ := by
    simp [DataFlowGraph.setNode, List.getElem?_set, Ne.symm hj2, hgj]
  have hg1c : (g.setNode 2 ⟨[3], NodeKind.binary op (some x) none none⟩).nodes[2]? =
      some ⟨[3], NodeKind.binary op (some x) none none⟩ :=
    getElem?_set_self_of_some g.nodes 2 _ _ hg2
  have hg2c : ((g.setNode 2 ⟨[3], NodeKind.binary op (some x) none none⟩).setNode 2
      ⟨[3], NodeKind.binary op (some x) (some y) none⟩).nodes[2]? =
      some ⟨[3], NodeKind.binary op (some x) (some y) none⟩ :=
    getElem?_set_self_of_some _ 2 _ _ hg1c
  have hg2o : ((g.setNode 2 ⟨[3], NodeKind.binary op (some x) none none⟩).setNode 2
      ⟨[3], NodeKind.binary op (some x) (some y) none⟩).nodes[3]? =
      some ⟨[], NodeKind.output pDestVar elementIndex none⟩ := by
    simp [DataFlowGraph.setNode, List.getElem?_set, hg3]
  obtain ⟨hof, _, holog⟩ := OnProcess_binary_ok reg 1
    ((g.setNode 2 ⟨[3], NodeKind.binary op (some x) none none⟩).setNode 2
      ⟨[3], NodeKind.binary op (some x) (some y) none⟩) 2 [3] op x y none htype
  have hg3o : (OnProcess reg 1
      ((g.setNode 2 ⟨[3], NodeKind.binary op (some x) none none⟩).setNode 2
        ⟨[3], NodeKind.binary op (some x) (some y) none⟩) 2
      ⟨[3], NodeKind.binary op (some x) (some y) none⟩).2.graph.nodes[3]? =
      some ⟨[], NodeKind.output pDestVar elementIndex none⟩ := by
    rw [OnProcess_other reg 1 _ 2 _ 3 (by decide), hg2o]
  -- the OutputNode
  have h3 : ReceiveData reg (fuel + 1) (1 + 1) (OnProcess reg 1
      ((g.setNode 2 ⟨[3], NodeKind.binary op (some x) none none⟩).setNode 2
        ⟨[3], NodeKind.binary op (some x) (some y) none⟩) 2
      ⟨[3], NodeKind.binary op (some x) (some y) none⟩).2.graph 3 r =
      ⟨(OnProcess reg 1
        ((g.setNode 2 ⟨[3], NodeKind.binary op (some x) none none⟩).setNode 2
          ⟨[3], NodeKind.binary op (some x) (some y) none⟩) 2
        ⟨[3], NodeKind.binary op (some x) (some y) none⟩).2.graph.setNode 3
          ⟨[], NodeKind.output pDestVar elementIndex (some r)⟩,
       [⟨2, Event.enter 3⟩, ⟨2, Event.compile 3⟩, ⟨2, Event.result 3 (some r)⟩,
        ⟨2, Event.freeVar r⟩], none⟩ := by
    have hrd : ReceiveData reg (fuel + 1) (1 + 1) (OnProcess reg 1
        ((g.setNode 2 ⟨[3], NodeKind.binary op (some x) none none⟩).setNode 2
          ⟨[3], NodeKind.binary op (some x) (some y) none⟩) 2
        ⟨[3], NodeKind.binary op (some x) (some y) none⟩).2.graph 3 r =
        Process reg (fuel + 1) (1 + 1) ((OnProcess reg 1
          ((g.setNode 2 ⟨[3], NodeKind.binary op (some x) none none⟩).setNode 2
            ⟨[3], NodeKind.binary op (some x) (some y) none⟩) 2
          ⟨[3], NodeKind.binary op (some x) (some y) none⟩).2.graph.setNode 3
            ⟨[], NodeKind.output pDestVar elementIndex (some r)⟩) 3 := by
      simp [ReceiveData, receiveWith, hg3o, hscalar]
    rw [hrd, Process_output_leaf reg fuel (1 + 1) _ 3 pDestVar elementIndex r
      (getElem?_set_self_of_some _ 3 _ _ hg3o)]
  -- the BinaryNode
  have h2 : (ReceiveData reg (fuel + 2) (0 + 1)
      (g.setNode 2 ⟨[3], NodeKind.binary op (some x) none none⟩) 2 y).fault = none ∧
      (ReceiveData reg (fuel + 2) (0 + 1)
        (g.setNode 2 ⟨[3], NodeKind.binary op (some x) none none⟩) 2 y).log =
      ⟨1, Event.enter 2⟩ :: ((OnProcess reg 1
        ((g.setNode 2 ⟨[3], NodeKind.binary op (some x) none none⟩).setNode 2
          ⟨[3], NodeKind.binary op (some x) (some y) none⟩) 2
        ⟨[3], NodeKind.binary op (some x) (some y) none⟩).2.log ++
        [⟨1, Event.result 2 (some r)⟩, ⟨1, Event.receive 3 r⟩, ⟨2, Event.enter 3⟩,
          ⟨2, Event.compile 3⟩, ⟨2, Event.result 3 (some r)⟩, ⟨2, Event.freeVar r⟩,
          ⟨1, Event.freeVar r⟩]) := by
    rw [ReceiveData_binary_filled reg (fuel + 2) (0 + 1) _ 2 [3] op x none none y hg1c, Process_succ]
    simp only [hg2c, hof, hr, pushAll, h3]
    simp
  -- second literal
  have hsecond : (Process reg (fuel + 3) 0
      (g.setNode 2 ⟨[3], NodeKind.binary op (some x) none none⟩) j).fault = none ∧
      (Process reg (fuel + 3) 0
        (g.setNode 2 ⟨[3], NodeKind.binary op (some x) none none⟩) j).log =
      [⟨0, Event.enter j⟩, ⟨0, Event.compile j⟩, ⟨0, Event.result j (some y)⟩,
        ⟨0, Event.receive 2 y⟩] ++
      (ReceiveData reg (fuel + 2) (0 + 1)
        (g.setNode 2 ⟨[3], NodeKind.binary op (some x) none none⟩) 2 y).log ++
      [⟨0, Event.freeVar y⟩] := by
    rw [Process_succ]
    simp only [hg1j, OnProcess, pushAll, h2.1]
    simp
  have hreg : ((g.setNode 2 ⟨[3], NodeKind.binary op (some x) none none⟩).setNode 2
      ⟨[3], NodeKind.binary op (some x) (some y) none⟩).registry = g.registry := rfl
  simp only [session, perform, h1', hsecond.1, hsecond.2, h2.2, holog, hreg]
  refine ⟨trivial, ?_⟩
  simp

/-- What the claim of scenario 1 reads off a run: the OutputNode received
exactly `r`, emitted once, and the BinaryNode emitted unless `Combine` answered
with a computed Variable. -/
theorem scenario_facts (reg : Registry) (fuel : Nat) (g : DataFlowGraph) (i j : NodeId)
    (x y r : Variable) (op : OperatorType) (pDestVar : Option Variable) (elementIndex : Int)
    (hi2 : i ≠ 2) (hj2 : j ≠ 2) (hi3 : i ≠ 3) (hj3 : j ≠ 3)
    (hgi : g.nodes[i]? = some ⟨[2], NodeKind.literal (some x)⟩)
    (hgj : g.nodes[j]? = some ⟨[2], NodeKind.literal (some y)⟩)
    (hg2 : g.nodes[2]? = some ⟨[3], NodeKind.binary op none none none⟩)
    (hg3 : g.nodes[3]? = some ⟨[], NodeKind.output pDestVar elementIndex none⟩)
    (htype : x.valueType = y.valueType)
    (hr : (OnProcess reg 1
      ((g.setNode 2 ⟨[3], NodeKind.binary op (some x) none none⟩).setNode 2
        ⟨[3], NodeKind.binary op (some x) (some y) none⟩) 2
      ⟨[3], NodeKind.binary op (some x) (some y) none⟩).1 = some r)
    (hscalar : r.IsScalar = true) :
    (session reg (fuel + 3) [ClientCall.process i, ClientCall.process j] g).fault = none ∧
      deliveriesTo 3 (session reg (fuel + 3) [ClientCall.process i, ClientCall.process j] g).log =
        [r] ∧
      emissionsOf 3 (session reg (fuel + 3) [ClientCall.process i, ClientCall.process j] g).log =
        1 ∧
      (emissionsOf 2 (session reg (fuel + 3) [ClientCall.process i, ClientCall.process j] g).log =
          0 ↔
        ∃ c, (reg.Combine g.registry x y op).1 = some c ∧ c.IsComputed = true) := by
  obtain ⟨hfault, hlog⟩ := scenario_run reg fuel g i j x y r op pDestVar elementIndex hi2 hj2
    hgi hgj hg2 hg3 htype hr hscalar
  rw [hlog, ← needsCode_eq_false_iff]
  refine ⟨hfault, ?_, ?_, ?_⟩
  · cases hn : needsCode (reg.Combine g.registry x y op).1 <;> simp [deliveriesTo]
  · cases hn : needsCode (reg.Combine g.registry x y op).1 <;>
      simp [emissionsOf, List.countP_cons, hi3, hj3]
  · cases hn : needsCode (reg.Combine g.registry x y op).1 <;>
      simp [emissionsOf, List.countP_cons, hi2, hj2]

/-- C25. Scenario 1, for every registry whose answer for the BinaryNode is
scalar-shaped. Processing only the first literal completes and delivers
nothing to the OutputNode, which emits nothing. Processing both literals, in
either order, completes; the OutputNode receives exactly the BinaryNode's
result and makes exactly one emission call; and the BinaryNode makes no
emission call if and only if `Combine` answered with a computed Variable for
the two literals in their order of arrival. -/
theorem scenario_product (reg : Registry) (fuel : Nat) (r r2 : Variable)
    (hr : (OnProcess reg 1 readyProductGraph 2
      ⟨[3], NodeKind.binary 2 (some literalFive) (some literalFour) none⟩).1 = some r)
    (hscalar : r.IsScalar = true)
    (hr2 : (OnProcess reg 1
      (productGraph.setNode 2 ⟨[3], NodeKind.binary 2 (some literalFour) (some literalFive) none⟩) 2
      ⟨[3], NodeKind.binary 2 (some literalFour) (some literalFive) none⟩).1 = some r2)
    (hscalar2 : r2.IsScalar = true) :
    ((Process reg (fuel + 3) 0 productGraph 0).fault = none ∧
        deliveriesTo 3 (Process reg (fuel + 3) 0 productGraph 0).log = [] ∧
        emissionsOf 3 (Process reg (fuel + 3) 0 productGraph 0).log = 0) ∧
      ((session reg (fuel + 3) [ClientCall.process 0, ClientCall.process 1] productGraph).fault =
          none ∧
        deliveriesTo 3
          (session reg (fuel + 3) [ClientCall.process 0, ClientCall.process 1] productGraph).log =
          [r] ∧
        emissionsOf 3
          (session reg (fuel + 3) [ClientCall.process 0, ClientCall.process 1] productGraph).log =
          1 ∧
        (emissionsOf 2
            (session reg (fuel + 3) [ClientCall.process 0, ClientCall.process 1] productGraph).log =
            0 ↔
          ∃ c, (reg.Combine 0 literalFive literalFour 2).1 = some c ∧ c.IsComputed = true)) ∧
      ((session reg (fuel + 3) [ClientCall.process 1, ClientCall.process 0] productGraph).fault =
          none ∧
        deliveriesTo 3
          (session reg (fuel + 3) [ClientCall.process 1, ClientCall.process 0] productGraph).log =
          [r2] ∧
        emissionsOf 3
          (session reg (fuel + 3) [ClientCall.process 1, ClientCall.process 0] productGraph).log =
          1 ∧
        (emissionsOf 2
            (session reg (fuel + 3) [ClientCall.process 1, ClientCall.process 0] productGraph).log =
            0 ↔
          ∃ c, (reg.Combine 0 literalFour literalFive 2).1 = some c ∧ c.IsComputed = true)) := by
  refine ⟨?_, ?_, ?_⟩
  · have h1 := Process_into_empty_binary reg (fuel + 2) 0 productGraph 0 2
      ⟨[2], NodeKind.literal (some literalFive)⟩ [3] 2 literalFive rfl rfl (by decide) rfl rfl rfl
    rw [h1]
    simp [OnProcess, deliveriesTo, emissionsOf]
  · exact scenario_facts reg fuel productGraph 0 1 literalFive literalFour r 2 none 0
      (by decide) (by decide) (by decide) (by decide) rfl rfl rfl rfl rfl hr hscalar
  · exact scenario_facts reg fuel productGraph 1 0 literalFour literalFive r2 2 none 0
      (by decide) (by decide) (by decide) (by decide) rfl rfl rfl rfl rfl hr2 hscalar2

/-- Witness for C25 with the folding registry: the BinaryNode emits nothing
and the OutputNode receives the folded Variable. -/
theorem scenario_product_witness :
    deliveriesTo 3
        (session foldingRegistry 3 [ClientCall.process 0, ClientCall.process 1] productGraph).log =
        [⟨0, 0, Shape.scalar, false, true⟩] ∧
      emissionsOf 3
        (session foldingRegistry 3 [ClientCall.process 0, ClientCall.process 1] productGraph).log =
        1 :=
  ⟨(scenario_product foldingRegistry 0 ⟨0, 0, Shape.scalar, false, true⟩
      ⟨0, 0, Shape.scalar, false, true⟩ rfl rfl rfl rfl).2.1.2.1,
   (scenario_product foldingRegistry 0 ⟨0, 0, Shape.scalar, false, true⟩
      ⟨0, 0, Shape.scalar, false, true⟩ rfl rfl rfl rfl).2.1.2.2.1⟩

/-! ## C29: a chain of OutputNodes -/

/-- A cascade leaves a chain of OutputNodes a chain of OutputNodes. -/
theorem outputChain_of_evolves {g h : DataFlowGraph} (hev : g.evolves h) :
    ∀ (os deps : List NodeId), outputChain g deps os → outputChain h deps os := by
  intro os
  induction os with
  | nil => intro deps hc; exact hc
  | cons o rest ih =>
    intro deps hc
    obtain ⟨hd, odeps, p, i, q, hnode, hrest⟩ := hc
    obtain ⟨b, hb, hdeps, hkind⟩ := hev.2 o _ hnode
    cases b with
    | mk bdeps bkind =>
      cases bkind <;> simp [NodeKind.evolves] at hkind
      simp at hdeps
      subst hdeps
      exact ⟨hd, odeps, _, _, _, hb, ih odeps hrest⟩

/-- Pushing a scalar into a chain of OutputNodes completes and logs exactly
`outputChainLog`. -/
theorem pushAll_outputChain (reg : Registry) (v : Variable) (hscalar : v.IsScalar = true) :
    ∀ (os : List NodeId) (fuel d : Nat) (g : DataFlowGraph) (deps : List NodeId),
      outputChain g deps os → os.length ≤ fuel →
      (pushAll (fun g1 m x => ReceiveData reg fuel (d + 1) g1 m x) d v deps g).fault = none ∧
        (pushAll (fun g1 m x => ReceiveData reg fuel (d + 1) g1 m x) d v deps g).log =
          outputChainLog d v os := by
  intro os
  induction os with
  | nil =>
    intro fuel d g deps hc _
    simp only [outputChain] at hc
    subst hc
    simp [pushAll, outputChainLog]
  | cons o rest ih =>
    intro fuel d g deps hc hfuel
    obtain ⟨hd, odeps, p, i, q, hnode, hrest⟩ := hc
    subst hd
    cases fuel with
    | zero => simp at hfuel
    | succ f =>
      have hf : rest.length ≤ f := by simpa using hfuel
      have hget : (g.setNode o ⟨odeps, NodeKind.output p i (some v)⟩).nodes[o]? =
          some ⟨odeps, NodeKind.output p i (some v)⟩ :=
        getElem?_set_self_of_some g.nodes o _ _ hnode
      have hev : g.evolves (g.setNode o ⟨odeps, NodeKind.output p i (some v)⟩) :=
        evolves_set g o _ _ _ hnode ⟨rfl, by simp [NodeKind.evolves]⟩
      obtain ⟨hpf, hpl⟩ := ih f (d + 1) _ odeps (outputChain_of_evolves hev rest odeps hrest) hf
      have hrecv : ReceiveData reg (f + 1) (d + 1) g o v =
          Process reg (f + 1) (d + 1) (g.setNode o ⟨odeps, NodeKind.output p i (some v)⟩) o := by
        simp [ReceiveData, receiveWith, hnode, hscalar]
      have hproc : (Process reg (f + 1) (d + 1)
          (g.setNode o ⟨odeps, NodeKind.output p i (some v)⟩) o).fault = none ∧
          (Process reg (f + 1) (d + 1)
            (g.setNode o ⟨odeps, NodeKind.output p i (some v)⟩) o).log =
          ⟨d + 1, Event.enter o⟩ :: ⟨d + 1, Event.compile o⟩ :: ⟨d + 1, Event.result o (some v)⟩ ::
            (outputChainLog (d + 1) v rest ++ [⟨d + 1, Event.freeVar v⟩]) := by
        rw [Process_succ]
        simp only [hget, OnProcess, hpf, hpl]
        simp
      simp only [pushAll, hrecv, hproc.1, hproc.2]
      simp [outputChainLog]

theorem frees_outputChainLog (v : Variable) :
    ∀ (os : List NodeId) (d : Nat), frees v (outputChainLog d v os) = os.length := by
  intro os
  induction os with
  | nil => intro d; simp [outputChainLog, frees]
  | cons o rest ih =>
    intro d
    have e : outputChainLog d v (o :: rest) =
        [⟨d, Event.receive o v⟩, ⟨d + 1, Event.enter o⟩, ⟨d + 1, Event.compile o⟩,
          ⟨d + 1, Event.result o (some v)⟩] ++ (outputChainLog (d + 1) v rest ++
          [⟨d + 1, Event.freeVar v⟩]) := rfl
    rw [e, frees_append, frees_append, ih (d + 1)]
    simp [frees, Event.isFreeOf]

theorem freeDepths_append (v : Variable) (l1 l2 : List Call) :
    freeDepths v (l1 ++ l2) = freeDepths v l1 ++ freeDepths v l2 := by
  simp [freeDepths]

theorem freeDepths_other (v : Variable) (l : List Call) (h : ∀ c ∈ l, c.event.fromProcess = false) :
    freeDepths v l = [] := by
  simp only [freeDepths, List.map_eq_nil_iff, List.filter_eq_nil_iff]
  intro c hc
  have := h c hc
  cases hce : c.event <;> simp_all [Event.fromProcess, Event.isFreeOf]

theorem freeDepths_outputChainLog (v : Variable) :
    ∀ (os : List NodeId) (d : Nat),
      freeDepths v (outputChainLog d v os) ++ [d] = countdown d os.length := by
  intro os
  induction os with
  | nil => intro d; simp [outputChainLog, freeDepths, countdown]
  | cons o rest ih =>
    intro d
    have e : outputChainLog d v (o :: rest) =
        [⟨d, Event.receive o v⟩, ⟨d + 1, Event.enter o⟩, ⟨d + 1, Event.compile o⟩,
          ⟨d + 1, Event.result o (some v)⟩] ++ (outputChainLog (d + 1) v rest ++
          [⟨d + 1, Event.freeVar v⟩]) := rfl
    have h1 : freeDepths v [(⟨d, Event.receive o v⟩ : Call), ⟨d + 1, Event.enter o⟩,
        ⟨d + 1, Event.compile o⟩, ⟨d + 1, Event.result o (some v)⟩] = [] := by
      simp [freeDepths, Event.isFreeOf]
    have h2 : freeDepths v [(⟨d + 1, Event.freeVar v⟩ : Call)] = [d + 1] := by
      simp [freeDepths, Event.isFreeOf]
    rw [e, freeDepths_append, freeDepths_append, h1, h2]
    simp only [List.nil_append, List.length_cons, countdown]
    rw [ih (d + 1)]

theorem countdown_head (k : Nat) : ∀ d, (countdown d k).head? = some (d + k) := by
  induction k with
  | zero => intro d; simp [countdown]
  | succ k ih =>
    intro d
    have h := ih (d + 1)
    cases hc : countdown (d + 1) k with
    | nil => simp [hc] at h
    | cons a l =>
      simp only [hc, List.head?_cons, Option.some.injEq] at h
      simp only [countdown, hc, List.cons_append, List.head?_cons, Option.some.injEq]
      omega

theorem countdown_last (k d : Nat) : (countdown d k).getLast? = some d := by
  cases k with
  | zero => simp [countdown]
  | succ k => simp [countdown, List.getLast?_concat]

theorem countdown_length (k : Nat) : ∀ d, (countdown d k).length = k + 1 := by
  induction k with
  | zero => intro d; simp [countdown]
  | succ k ih => intro d; simp [countdown, ih]

/-- C29. A producer's scalar result `v` is forwarded through a chain of `n`
OutputNodes, each the only dependent of its predecessor. One `Process` on the
producer (with fuel for the chain) completes, and `v` is passed to `FreeVar`
exactly `n + 1` times: the levels of these calls are `d + n, ..., d + 1, d`
in this order, so the first is made by the `Process` of the innermost
OutputNode and the last by the `Process` of the producer. -/
theorem output_chain_frees (reg : Registry) (fuel d : Nat) (g : DataFlowGraph) (n : NodeId)
    (node : DataNode) (v : Variable) (os : List NodeId)
    (hnode : g.nodes[n]? = some node)
    (hres : (OnProcess reg d g n node).1 = some v)
    (hfault : (OnProcess reg d g n node).2.fault = none)
    (hscalar : v.IsScalar = true)
    (hchain : outputChain g node.dependencies os)
    (hfuel : os.length ≤ fuel) :
    (Process reg (fuel + 1) d g n).fault = none ∧
      (Process reg (fuel + 1) d g n).log =
        ⟨d, Event.enter n⟩ :: ((OnProcess reg d g n node).2.log ++
          ⟨d, Event.result n (some v)⟩ :: (outputChainLog d v os ++ [⟨d, Event.freeVar v⟩])) ∧
      frees v (Process reg (fuel + 1) d g n).log = os.length + 1 ∧
      freeDepths v (Process reg (fuel + 1) d g n).log = countdown d os.length ∧
      (freeDepths v (Process reg (fuel + 1) d g n).log).head? = some (d + os.length) ∧
      (freeDepths v (Process reg (fuel + 1) d g n).log).getLast? = some d := by
  have hev := OnProcess_evolves reg d g n node hnode
  obtain ⟨hpf, hpl⟩ := pushAll_outputChain reg v hscalar os fuel d _ node.dependencies
    (outputChain_of_evolves hev os _ hchain) hfuel
  have hon := OnProcess_log_events reg d g n node
  have hproc : Process reg (fuel + 1) d g n =
      ⟨(pushAll (fun g1 m x => ReceiveData reg fuel (d + 1) g1 m x) d v node.dependencies
          (OnProcess reg d g n node).2.graph).graph,
       ⟨d, Event.enter n⟩ :: ((OnProcess reg d g n node).2.log ++
          ⟨d, Event.result n (some v)⟩ :: (outputChainLog d v os ++ [⟨d, Event.freeVar v⟩])),
       none⟩ := by
    rw [Process_succ]
    simp only [hnode, hfault, hres, hpf, hpl]
  have e : ∀ (a : Call) (l1 : List Call) (b : Call) (l2 : List Call) (c : Call),
      a :: (l1 ++ b :: (l2 ++ [c])) = [a] ++ (l1 ++ ([b] ++ (l2 ++ [c]))) := by
    intros; simp
  have hdepths : freeDepths v (Process reg (fuel + 1) d g n).log = countdown d os.length := by
    rw [hproc]
    simp only [e, freeDepths_append]
    rw [freeDepths_other v _ hon, ← freeDepths_outputChainLog v os d]
    simp [freeDepths, Event.isFreeOf]
  refine ⟨by rw [hproc], by rw [hproc], ?_, hdepths, ?_, ?_⟩
  · rw [hproc]
    simp only [e, frees_append]
    rw [frees_other v _ hon, frees_outputChainLog v os d]
    simp [frees, Event.isFreeOf]
  · rw [hdepths]
    exact countdown_head os.length d
  · rw [hdepths]
    exact countdown_last os.length d

/-- Witness for C29: the literal of `outputChainGraph` feeds three
OutputNodes in a row; its Variable is freed four times, at levels 3, 2, 1
and 0. -/
theorem output_chain_frees_witness :
    frees literalFive (Process plainRegistry 4 0 outputChainGraph 0).log = 3 + 1 ∧
      freeDepths literalFive (Process plainRegistry 4 0 outputChainGraph 0).log = [3, 2, 1, 0] :=
  ⟨(output_chain_frees plainRegistry 3 0 outputChainGraph 0
      ⟨[1], NodeKind.literal (some literalFive)⟩ literalFive [1, 2, 3] rfl rfl rfl rfl
      ⟨rfl, [2], none, 0, none, rfl, rfl, [3], none, 1, none, rfl, rfl, [], none, 2, none, rfl, rfl⟩
      (by decide)).2.2.1,
   (output_chain_frees plainRegistry 3 0 outputChainGraph 0
      ⟨[1], NodeKind.literal (some literalFive)⟩ literalFive [1, 2, 3] rfl rfl rfl rfl
      ⟨rfl, [2], none, 0, none, rfl, rfl, [3], none, 1, none, rfl, rfl, [], none, 2, none, rfl, rfl⟩
      (by decide)).2.2.2.1⟩

/-! ## C22: termination on graphs without a cycle -/

theorem depsOf_of_evolves {g h : DataFlowGraph} (hev : g.evolves h) (a : NodeId) :
    h.depsOf a = g.depsOf a := by
  unfold DataFlowGraph.depsOf
  cases hg : g.nodes[a]? with
  | some x =>
    obtain ⟨b, hb, hdeps, _⟩ := hev.2 a x hg
    simp [hb, hdeps]
  | none =>
    have hlen : g.nodes.length ≤ a := by simpa using hg
    have hh : h.nodes[a]? = none := by
      apply List.getElem?_eq_none
      rw [← hev.1]
      exact hlen
    simp [hh]

theorem chain_of_evolves {g h : DataFlowGraph} (hev : g.evolves h) (c : List NodeId)
    (hc : h.chain c) : g.chain c := by
  obtain ⟨h1, h2⟩ := hc
  refine ⟨?_, ?_⟩
  · exact List.Chain'.imp (fun a b hab => by rw [← depsOf_of_evolves hev a]; exact hab) h1
  · intro a ha
    rw [hev.1]
    exact h2 a ha

theorem depsOf_eq (g : DataFlowGraph) (n : NodeId) (node : DataNode) (hnode : g.nodes[n]? = some node) :
    g.depsOf n = node.dependencies := by
  simp [DataFlowGraph.depsOf, hnode]

/-- A chain from a dependent extends to a chain from the node. -/
theorem chain_cons (g : DataFlowGraph) (n m : NodeId) (c : List NodeId)
    (hn : n < g.nodes.length) (hm : m ∈ g.depsOf n) (hc : g.chain (m :: c)) : g.chain (n :: m :: c) := by
  refine ⟨List.Chain'.cons hm hc.1, ?_⟩
  intro a ha
  rcases List.mem_cons.mp ha with h | h
  · rw [h]; exact hn
  · exact hc.2 a h

theorem chain_single (g : DataFlowGraph) (n : NodeId) (hn : n < g.nodes.length) : g.chain [n] := by
  refine ⟨List.chain'_singleton n, ?_⟩
  intro a ha
  simp at ha
  rw [ha]
  exact hn

theorem OnProcess_fault_not_fuel (reg : Registry) (d : Nat) (g : DataFlowGraph) (n : NodeId)
    (node : DataNode) : (OnProcess reg d g n node).2.fault ≠ some Fault.outOfFuel := by
  unfold OnProcess
  split
  · simp
  · simp
  · simp
  · simp
  · split
    · split
      · dsimp only
        split <;> simp
      · simp
    · simp

/-- The push loop stays below level `B` and does not run out of fuel when
every `ReceiveData` on a dependent does, on every graph the loop can reach. -/
theorem pushAll_bounded (recv : DataFlowGraph → NodeId → Variable → Run) (d : Nat) (v : Variable)
    (B : Nat) (hd : d < B)
    (hev : ∀ (g : DataFlowGraph) (m : NodeId) (x : Variable), g.evolves (recv g m x).graph)
    (g0 : DataFlowGraph) :
    ∀ (deps : List NodeId),
      (∀ m ∈ deps, ∀ g1, g0.evolves g1 →
        (recv g1 m v).fault ≠ some Fault.outOfFuel ∧ ∀ e ∈ (recv g1 m v).log, e.depth < B) →
      ∀ g1, g0.evolves g1 →
        (pushAll recv d v deps g1).fault ≠ some Fault.outOfFuel ∧
          ∀ e ∈ (pushAll recv d v deps g1).log, e.depth < B := by
  intro deps
  induction deps with
  | nil => intro _ g1 _; simp [pushAll]
  | cons m rest ih =>
    intro h g1 hg1
    obtain ⟨hf, hl⟩ := h m (List.mem_cons_self _ _) g1 hg1
    have hrest := ih (fun k hk g2 hg2 => h k (List.mem_cons_of_mem _ hk) g2 hg2)
      (recv g1 m v).graph (graph_evolves_trans hg1 (hev g1 m v))
    simp only [pushAll]
    cases hfault : (recv g1 m v).fault with
    | some f =>
      simp only
      refine ⟨by rw [← hfault]; exact hf, ?_⟩
      intro e he
      simp at he
      rcases he with he | he
      · rw [he]; exact hd
      · exact hl e he
    | none =>
      simp only
      refine ⟨hrest.1, ?_⟩
      intro e he
      simp at he
      rcases he with he | he | he
      · rw [he]; exact hd
      · exact hl e he
      · exact hrest.2 e he

/-- An override of `ReceiveData` stays below level `B` and does not run out of
fuel when the `Process` it may call does. -/
theorem receiveWith_bounded (reg : Registry) (proc : DataFlowGraph → NodeId → Run) (d B : Nat)
    (g : DataFlowGraph) (m : NodeId) (data : Variable)
    (h : m < g.nodes.length → d < B ∧ ∀ g2, g.evolves g2 →
      (proc g2 m).fault ≠ some Fault.outOfFuel ∧ ∀ e ∈ (proc g2 m).log, e.depth < B) :
    (receiveWith reg proc d g m data).fault ≠ some Fault.outOfFuel ∧
      ∀ e ∈ (receiveWith reg proc d g m data).log, e.depth < B := by
  unfold receiveWith
  split
  · simp
  · rename_i node hnode
    have hlt : m < g.nodes.length := by
      rcases List.getElem?_eq_some.mp hnode with ⟨hl, _⟩
      exact hl
    obtain ⟨hd, hp⟩ := h hlt
    split
    · simp [baseReceiveData]
    · simp [baseReceiveData]
    · rename_i idx pv hkind
      split
      · have hq := hp
          ⟨g.nodes.set m ⟨node.dependencies, NodeKind.input idx
              (some (reg.AddVectorElementVariable g.registry data.valueType data idx).1)⟩,
            (reg.AddVectorElementVariable g.registry data.valueType data idx).2⟩
          (evolves_set g m node _ _ hnode ⟨rfl, by simp [hkind, NodeKind.evolves]⟩)
        refine ⟨hq.1, ?_⟩
        intro e he
        simp at he
        rcases he with he | he
        · rw [he]; exact hd
        · exact hq.2 e he
      · simp
    · rename_i hkind
      split
      · exact hp _ (evolves_set g m node _ _ hnode ⟨rfl, by simp [hkind, NodeKind.evolves]⟩)
      · simp
    · rename_i hkind
      split
      · simp
      · exact hp _ (evolves_set g m node _ _ hnode ⟨rfl, by simp [hkind, NodeKind.evolves]⟩)

/-- With fuel for the longest dependency chain from a node, `Process` on the
node does not run out of fuel and nests no deeper than that chain is long. -/
theorem Process_bounded (reg : Registry) :
    ∀ (fuel d : Nat) (g : DataFlowGraph) (n : NodeId) (len : Nat),
      n < g.nodes.length →
      (∀ c, g.chain (n :: c) → (n :: c).length ≤ len) →
      len ≤ fuel →
      (Process reg fuel d g n).fault ≠ some Fault.outOfFuel ∧
        ∀ e ∈ (Process reg fuel d g n).log, e.depth < d + len := by
  intro fuel
  induction fuel with
  | zero =>
    intro d g n len hn hlen hfuel
    have := hlen [] (chain_single g n hn)
    simp at this
    omega
  | succ fuel ih =>
    intro d g n len hn hlen hfuel
    have hlen1 : 1 ≤ len := by
      have := hlen [] (chain_single g n hn)
      simpa using this
    obtain ⟨node, hnode⟩ : ∃ node, g.nodes[n]? = some node := ⟨g.nodes[n], List.getElem?_eq_getElem hn⟩
    have hon := OnProcess_depth reg d g n node
    have hof := OnProcess_fault_not_fuel reg d g n node
    have hev0 := OnProcess_evolves reg d g n node hnode
    have hpush : ∀ (v : Variable),
        (pushAll (fun g1 m x => ReceiveData reg fuel (d + 1) g1 m x) d v node.dependencies
          (OnProcess reg d g n node).2.graph).fault ≠ some Fault.outOfFuel ∧
        ∀ e ∈ (pushAll (fun g1 m x => ReceiveData reg fuel (d + 1) g1 m x) d v node.dependencies
          (OnProcess reg d g n node).2.graph).log, e.depth < d + len := by
      intro v
      refine pushAll_bounded (fun g1 m x => ReceiveData reg fuel (d + 1) g1 m x) d v (d + len)
        (by omega) (fun g2 m x => ReceiveData_evolves reg fuel (d + 1) g2 m x) g
        node.dependencies ?_ _ hev0
      intro m hm g1 hg1
      apply receiveWith_bounded
      intro hmlt
      have hmg : m < g.nodes.length := by rw [hg1.1]; exact hmlt
      have hmdeps : m ∈ g.depsOf n := by rw [depsOf_eq g n node hnode]; exact hm
      have hlen2 : 2 ≤ len := by
        have := hlen [m] (chain_cons g n m [] hn hmdeps (chain_single g m hmg))
        simpa using this
      refine ⟨by omega, ?_⟩
      intro g2 hg2
      have hq := ih (d + 1) g2 m (len - 1) (by rw [← hg2.1]; exact hmlt) ?_ (by omega)
      · refine ⟨hq.1, ?_⟩
        intro e he
        have := hq.2 e he
        omega
      · intro c hc
        have hcg : g.chain (m :: c) := chain_of_evolves (graph_evolves_trans hg1 hg2) _ hc
        have := hlen (m :: c) (chain_cons g n m c hn hmdeps hcg)
        simp at this ⊢
        omega
    rw [Process_succ]
    simp only [hnode]
    split
    · rename_i f hf
      refine ⟨by simp only; rw [← hf]; exact hof, ?_⟩
      intro e he
      simp at he
      rcases he with he | he
      · rw [he]; simp; omega
      · rw [hon e he]; omega
    · split
      · refine ⟨by simp, ?_⟩
        intro e he
        simp at he
        rcases he with he | he | he
        · rw [he]; simp; omega
        · rw [hon e he]; omega
        · rw [he]; simp; omega
      · rename_i v hv
        split
        · rename_i f hf
          refine ⟨by simp only; rw [← hf]; exact (hpush v).1, ?_⟩
          intro e he
          simp at he
          rcases he with he | he | he | he
          · rw [he]; simp; omega
          · rw [hon e he]; omega
          · rw [he]; simp; omega
          · exact (hpush v).2 e he
        · refine ⟨by simp, ?_⟩
          intro e he
          simp at he
          rcases he with he | he | he | he | he
          · rw [he]; simp; omega
          · rw [hon e he]; omega
          · rw [he]; simp; omega
          · exact (hpush v).2 e he
          · rw [he]; simp; omega

/-- A list of distinct numbers below `N` has at most `N` entries. -/
theorem nodup_bounded_length (l : List Nat) (N : Nat) (hn : l.Nodup) (hb : ∀ a ∈ l, a < N) :
    l.length ≤ N := by
  have hsub : l ⊆ List.range N := by
    intro a ha
    exact List.mem_range.mpr (hb a ha)
  have := (List.subperm_of_subset hn hsub).length_le
  simpa using this

/-- In a graph without a cycle no dependency chain has more nodes than the
graph. -/
theorem acyclic_chain_length (g : DataFlowGraph) (hac : g.acyclic) (c : List NodeId)
    (hc : g.chain c) : c.length ≤ g.nodes.length :=
  nodup_bounded_length c g.nodes.length (hac c hc) hc.2

/-- Among chains of bounded length from a node there is a longest. -/
theorem exists_longest_chain (g : DataFlowGraph) (n : NodeId) :
    ∀ (B : Nat), (∀ c, g.chain (n :: c) → (n :: c).length ≤ B) → (∃ c, g.chain (n :: c)) →
      ∃ len, len ≤ B ∧ (∃ c, g.chain (n :: c) ∧ (n :: c).length = len) ∧
        ∀ c, g.chain (n :: c) → (n :: c).length ≤ len := by
  intro B
  induction B with
  | zero =>
    intro hb ⟨c, hc⟩
    have := hb c hc
    simp at this
  | succ B ih =>
    intro hb hex
    by_cases hmax : ∃ c, g.chain (n :: c) ∧ (n :: c).length = B + 1
    · exact ⟨B + 1, le_refl _, hmax, hb⟩
    · have hb2 : ∀ c, g.chain (n :: c) → (n :: c).length ≤ B := by
        intro c hc
        have h1 := hb c hc
        have h2 : (n :: c).length ≠ B + 1 := fun h => hmax ⟨c, hc, h⟩
        omega
      obtain ⟨len, hle, hlen⟩ := ih hb2 hex
      exact ⟨len, Nat.le_succ_of_le hle, hlen⟩

/-- A graph whose dependents all have a smaller rank than the node they
depend on has no cycle. -/
theorem acyclic_of_rank (g : DataFlowGraph) (rank : NodeId → Nat)
    (h : ∀ a, a < g.nodes.length → ∀ b ∈ g.depsOf a, rank b < rank a) : g.acyclic := by
  intro c hc
  have hstep : ∀ a b, b ∈ g.depsOf a → rank b < rank a := by
    intro a b hb
    apply h a _ b hb
    by_contra hge
    have hnone : g.nodes[a]? = none := List.getElem?_eq_none (Nat.le_of_not_lt hge)
    simp [DataFlowGraph.depsOf, hnone] at hb
  have hchain : List.Chain' (fun a b => rank b < rank a) c :=
    List.Chain'.imp hstep hc.1
  have htrans : IsTrans NodeId (fun a b => rank b < rank a) :=
    ⟨fun a b c hab hbc => lt_trans hbc hab⟩
  have hpair : List.Pairwise (fun a b => rank b < rank a) c :=
    List.chain'_iff_pairwise.mp hchain
  exact hpair.imp (fun {a b} hab heq => by rw [heq] at hab; exact lt_irrefl _ hab)

/-- C22. In a graph whose dependency edges contain no cycle, the dependency
chains that start at a node of the graph have a longest one, of `len` nodes
(at most the number of nodes of the graph). `Process` on that node with fuel
for `len` nested activations never runs out of fuel, so the run ends, and no
call of the run is nested deeper than `len` activations of `Process`: every
level is below `d + len`. -/
theorem Process_terminates_acyclic (reg : Registry) (d : Nat) (g : DataFlowGraph) (n : NodeId)
    (hac : g.acyclic) (hn : n < g.nodes.length) :
    ∃ len, len ≤ g.nodes.length ∧
      (∃ c, g.chain (n :: c) ∧ (n :: c).length = len) ∧
      (∀ c, g.chain (n :: c) → (n :: c).length ≤ len) ∧
      ∀ fuel, len ≤ fuel →
        (Process reg fuel d g n).fault ≠ some Fault.outOfFuel ∧
          ∀ e ∈ (Process reg fuel d g n).log, e.depth < d + len := by
  obtain ⟨len, hle, hex, hmax⟩ := exists_longest_chain g n g.nodes.length
    (fun c hc => acyclic_chain_length g hac _ hc) ⟨[], chain_single g n hn⟩
  refine ⟨len, hle, hex, hmax, ?_⟩
  intro fuel hfuel
  exact Process_bounded reg fuel d g n len hn hmax hfuel

/-- Witness for C22: scenario 1 has no cycle, and `Process` on the second
literal of the ready graph ends within the depth of its longest chain. -/
theorem Process_terminates_acyclic_witness :
    (∃ len, len ≤ readyProductGraph.nodes.length ∧
      (∃ c, readyProductGraph.chain (1 :: c) ∧ (1 :: c).length = len) ∧
      (∀ c, readyProductGraph.chain (1 :: c) → (1 :: c).length ≤ len) ∧
      ∀ fuel, len ≤ fuel →
        (Process plainRegistry fuel 0 readyProductGraph 1).fault ≠ some Fault.outOfFuel ∧
          ∀ e ∈ (Process plainRegistry fuel 0 readyProductGraph 1).log, e.depth < 0 + len) ∧
      (Process plainRegistry 3 0 readyProductGraph 1).fault = none ∧
      (Process plainRegistry 3 0 readyProductGraph 1).log.map Call.depth =
        [0, 0, 0, 0, 1, 1, 1, 1, 1, 1, 2, 2, 2, 2, 1, 0] :=
  ⟨Process_terminates_acyclic plainRegistry 0 readyProductGraph 1
    (acyclic_of_rank readyProductGraph (fun k => 3 - k) (by decide)) (by decide),
   by decide, by decide⟩

/-! ## C31: driving an Input or Output node that holds no Variable -/

/-- C31. `Process` called (with any fuel to spend) on an InputNode or an
OutputNode whose stored Variable is absent makes the emission call for that
node and nothing else: the whole run is the entry, `Compile(node)` and the
record of the absent result, whatever dependents the node has. So the log
holds exactly one emission call, no `ReceiveData` and no `FreeVar`, the graph
is unchanged and no fault is raised. -/
theorem Process_unfed_input_output (reg : Registry) (fuel d : Nat) (g : DataFlowGraph) (n : NodeId)
    (node : DataNode) (hnode : g.nodes[n]? = some node)
    (hkind : (∃ elementIndex, node.kind = NodeKind.input elementIndex none) ∨
      (∃ pDestVar elementIndex, node.kind = NodeKind.output pDestVar elementIndex none)) :
    Process reg (fuel + 1) d g n =
        ⟨g, [⟨d, Event.enter n⟩, ⟨d, Event.compile n⟩, ⟨d, Event.result n none⟩], none⟩ ∧
      emissionsOf n (Process reg (fuel + 1) d g n).log = 1 ∧
      (Process reg (fuel + 1) d g n).log.countP (fun c => c.event.isCompile) = 1 ∧
      (∀ m, deliveriesTo m (Process reg (fuel + 1) d g n).log = []) ∧
      (∀ c ∈ (Process reg (fuel + 1) d g n).log, c.event.isPushOrFree = false) := by
  have hrun : Process reg (fuel + 1) d g n =
      ⟨g, [⟨d, Event.enter n⟩, ⟨d, Event.compile n⟩, ⟨d, Event.result n none⟩], none⟩ := by
    rw [Process_succ]
    rcases hkind with ⟨i, hk⟩ | ⟨p, i, hk⟩ <;> simp [hnode, OnProcess, hk]
  rw [hrun]
  refine ⟨rfl, ?_, ?_, ?_, ?_⟩
  · simp [emissionsOf, List.countP_cons]
  · simp [Event.isCompile, List.countP_cons]
  · intro m
    simp [deliveriesTo]
  · intro c hc
    simp at hc
    rcases hc with hc | hc | hc <;> simp [hc, Event.isPushOrFree]

/-- Witness for C31 on the OutputNode of the scenario graph before anything
was processed, with the same reading for a fresh InputNode that has a
dependent. -/
theorem Process_unfed_input_output_witness :
    Process plainRegistry 1 0 productGraph 3 =
        ⟨productGraph, [⟨0, Event.enter 3⟩, ⟨0, Event.compile 3⟩, ⟨0, Event.result 3 none⟩], none⟩ ∧
      (Process plainRegistry 5 2 ⟨[⟨[1], NodeKind.input 7 none⟩, OutputNode none 0], 0⟩ 0).log =
        [⟨2, Event.enter 0⟩, ⟨2, Event.compile 0⟩, ⟨2, Event.result 0 none⟩] :=
  ⟨(Process_unfed_input_output plainRegistry 0 0 productGraph 3 (OutputNode none 0) rfl
      (Or.inr ⟨none, 0, rfl⟩)).1,
   congrArg Run.log
    (Process_unfed_input_output plainRegistry 4 2 ⟨[⟨[1], NodeKind.input 7 none⟩, OutputNode none 0], 0⟩ 0
      ⟨[1], NodeKind.input 7 none⟩ rfl (Or.inl ⟨7, rfl⟩)).1⟩

/-! ## C6: which `ReceiveData` calls make a BinaryNode process -/

/-- A `Process` call on a BinaryNode whose two operands differ in type stops at
the assertion of `OnProcess`, right after its entry. -/
theorem Process_binary_type_stop (reg : Registry) (fuel d : Nat) (g : DataFlowGraph) (n : NodeId)
    (deps : List NodeId) (op : OperatorType) (a b : Variable) (res : Option Variable)
    (hnode : g.nodes[n]? = some ⟨deps, NodeKind.binary op (some a) (some b) res⟩)
    (htype : a.valueType ≠ b.valueType) :
    (Process reg (fuel + 1) d g n).log = [⟨d, Event.enter n⟩] ∧
      (Process reg (fuel + 1) d g n).fault = some Fault.typeMismatch := by
  rw [Process_succ]
  simp [hnode, OnProcess, htype]

/-- What a `Process` call on a BinaryNode with two same-typed operands does:
it requests `Combine` first, gets a result, sends it to the first dependent,
and in a completed run its pushes and its `FreeVar` are one push per dependent
in order and then the `FreeVar` of the result. -/
theorem Process_binary_computes (reg : Registry) (fuel d : Nat) (g : DataFlowGraph) (n : NodeId)
    (deps : List NodeId) (op : OperatorType) (a b : Variable) (res : Option Variable)
    (hnode : g.nodes[n]? = some ⟨deps, NodeKind.binary op (some a) (some b) res⟩)
    (htype : a.valueType = b.valueType) :
    ∃ r tail,
      (Process reg (fuel + 1) d g n).log =
          ⟨d, Event.enter n⟩ :: ⟨d, Event.combine a b op⟩ :: tail ∧
        (⟨d, Event.result n (some r)⟩ : Call) ∈ (Process reg (fuel + 1) d g n).log ∧
        (∀ m ms, deps = m :: ms →
          (⟨d, Event.receive m r⟩ : Call) ∈ (Process reg (fuel + 1) d g n).log) ∧
        ((Process reg (fuel + 1) d g n).fault = none →
          pushesAndFrees d (Process reg (fuel + 1) d g n).log =
            deps.map (fun m => Event.receive m r) ++ [Event.freeVar r]) := by
  obtain ⟨hf, ⟨r, hr⟩, _⟩ := OnProcess_binary_ok reg d g n deps op a b res htype
  obtain ⟨tail, htail⟩ := Process_binary_starts reg fuel d g n deps op a b res hnode htype
  obtain ⟨tail2, htail2⟩ := Process_log_shape reg fuel d g n _ r hnode hf hr
  refine ⟨r, tail, htail, ?_, ?_, ?_⟩
  · rw [htail2]
    simp
  · intro m ms hdeps
    rw [htail2]
    obtain ⟨t3, ht3⟩ := pushAll_cons_log (fun g1 k x => ReceiveData reg fuel (d + 1) g1 k x) d r m ms
      (OnProcess reg d g n ⟨deps, NodeKind.binary op (some a) (some b) res⟩).2.graph
    have hd : (⟨deps, NodeKind.binary op (some a) (some b) res⟩ : DataNode).dependencies = m :: ms :=
      hdeps
    rw [hd, ht3]
    simp
  · intro hok
    have h := Process_direct reg fuel d g n _ hnode hok
    rw [hr] at h
    exact h

/-- C6, counterexample. The BinaryNode of the scenario graph, after two
`ReceiveData` calls that both completed, processes again on the third call: it
requests `Combine` of the first Variable and the new one, emits code and pushes
the new result to its dependent. -/
theorem BinaryNode_third_receive_processes :
    (deliver plainRegistry 3 0 2 [literalFive, literalFour] productGraph).fault = none ∧
      ReceiveData plainRegistry 3 0
          (deliver plainRegistry 3 0 2 [literalFive, literalFour] productGraph).graph 2 literalFive =
        ⟨⟨[⟨[2], NodeKind.literal (some literalFive)⟩,
            ⟨[2], NodeKind.literal (some literalFour)⟩,
            ⟨[3], NodeKind.binary 2 (some literalFive) (some literalFive)
              (some ⟨1, 0, Shape.scalar, false, false⟩)⟩,
            ⟨[], NodeKind.output none 0 (some ⟨1, 0, Shape.scalar, false, false⟩)⟩], 2⟩,
          [⟨0, Event.enter 2⟩, ⟨0, Event.combine literalFive literalFive 2⟩,
            ⟨0, Event.addLocalScalar 0⟩, ⟨0, Event.compile 2⟩,
            ⟨0, Event.result 2 (some ⟨1, 0, Shape.scalar, false, false⟩)⟩,
            ⟨0, Event.receive 3 ⟨1, 0, Shape.scalar, false, false⟩⟩,
            ⟨1, Event.enter 3⟩, ⟨1, Event.compile 3⟩,
            ⟨1, Event.result 3 (some ⟨1, 0, Shape.scalar, false, false⟩)⟩,
            ⟨1, Event.freeVar ⟨1, 0, Shape.scalar, false, false⟩⟩,
            ⟨0, Event.freeVar ⟨1, 0, Shape.scalar, false, false⟩⟩],
          none⟩ := by
  decide

/-- C6, amended. For a fresh BinaryNode (with any dependents) and any sequence
`ds` of `ReceiveData` calls already delivered to it, the next call runs
`Process` on the node if and only if it is not the first one. The first call
issues no call at all. A later call whose data has the type of the first
Variable received computes and propagates: the run starts with the entry and
the `Combine` request on the first Variable and the new one, `OnProcess`
returns a result `r`, `r` is sent to the first dependent, and when the run
completes its pushes are `r` to every dependent in order, followed by
`FreeVar(r)`, with that one `Combine` request; without dependents the run
always completes. A later call whose data has another type stops at the type
assertion: the entry is the whole log, so nothing is computed or pushed. -/
theorem BinaryNode_processes_iff (reg : Registry) (fuel d : Nat) (g : DataFlowGraph) (n : NodeId)
    (deps : List NodeId) (op : OperatorType) (ds : List Variable) (x : Variable)
    (hnode : g.nodes[n]? = some ⟨deps, NodeKind.binary op none none none⟩) :
    ((⟨d, Event.enter n⟩ : Call) ∈
        (ReceiveData reg (fuel + 1) d (deliver reg (fuel + 1) d n ds g).graph n x).log ↔
      ds ≠ []) ∧
    match ds with
    | [] =>
      (ReceiveData reg (fuel + 1) d (deliver reg (fuel + 1) d n ds g).graph n x).log = [] ∧
        (ReceiveData reg (fuel + 1) d (deliver reg (fuel + 1) d n ds g).graph n x).fault = none
    | first :: _ =>
      if first.valueType = x.valueType then
        ∃ r tail,
          (ReceiveData reg (fuel + 1) d (deliver reg (fuel + 1) d n ds g).graph n x).log =
              ⟨d, Event.enter n⟩ :: ⟨d, Event.combine first x op⟩ :: tail ∧
            (⟨d, Event.result n (some r)⟩ : Call) ∈
              (ReceiveData reg (fuel + 1) d (deliver reg (fuel + 1) d n ds g).graph n x).log ∧
            (∀ m ms, deps = m :: ms → (⟨d, Event.receive m r⟩ : Call) ∈
              (ReceiveData reg (fuel + 1) d (deliver reg (fuel + 1) d n ds g).graph n x).log) ∧
            ((ReceiveData reg (fuel + 1) d (deliver reg (fuel + 1) d n ds g).graph n x).fault = none →
              pushesAndFrees d
                  (ReceiveData reg (fuel + 1) d (deliver reg (fuel + 1) d n ds g).graph n x).log =
                deps.map (fun m => Event.receive m r) ++ [Event.freeVar r] ∧
              (callsAt d
                  (ReceiveData reg (fuel + 1) d (deliver reg (fuel + 1) d n ds g).graph n x).log).filter
                Event.isCombine = [Event.combine first x op]) ∧
            (deps = [] →
              (ReceiveData reg (fuel + 1) d (deliver reg (fuel + 1) d n ds g).graph n x).fault = none)
      else
        (ReceiveData reg (fuel + 1) d (deliver reg (fuel + 1) d n ds g).graph n x).log =
            [⟨d, Event.enter n⟩] ∧
          (ReceiveData reg (fuel + 1) d (deliver reg (fuel + 1) d n ds g).graph n x).fault =
            some Fault.typeMismatch := by
  cases ds with
  | nil =>
    have h := ReceiveData_binary_empty reg (fuel + 1) d g n deps op x hnode
    simp [deliver, h]
  | cons y rest =>
    obtain ⟨s2, res, hget⟩ := deliver_keeps_first reg (fuel + 1) d g n deps op y rest hnode
    obtain ⟨tail, htail⟩ := BinaryNode_later_receive_enters reg fuel d _ n deps op y s2 res x hget
    refine ⟨by simp [htail], ?_⟩
    have hrecv := ReceiveData_binary_filled reg (fuel + 1) d _ n deps op y s2 res x hget
    have hb : (((deliver reg (fuel + 1) d n (y :: rest) g).graph).setNode n
        ⟨deps, NodeKind.binary op (some y) (some x) res⟩).nodes[n]? =
        some ⟨deps, NodeKind.binary op (some y) (some x) res⟩ :=
      getElem?_set_self_of_some _ n _ _ hget
    by_cases htype : y.valueType = x.valueType
    · simp only [htype, if_true]
      obtain ⟨r, t, h1, h2, h3, h4⟩ := Process_binary_computes reg fuel d _ n deps op y x res hb htype
      refine ⟨r, t, ?_, ?_, ?_, ?_, ?_⟩
      · rw [hrecv]; exact h1
      · rw [hrecv]; exact h2
      · rw [hrecv]; exact h3
      · intro hok
        refine ⟨?_, ReceiveData_binary_combines reg fuel d _ n deps op y s2 res x hget hok⟩
        rw [hrecv] at hok ⊢
        exact h4 hok
      · intro hdeps
        subst hdeps
        exact ReceiveData_binary_completes reg fuel d _ n op y s2 res x hget htype
    · simp only [htype, if_false]
      rw [hrecv]
      exact Process_binary_type_stop reg fuel d _ n deps op y x res hb htype

/-- Witness for the amended C6 on the BinaryNode of the scenario graph, which
feeds an OutputNode: the second call (same type as the first) computes and
pushes, and its run completes; a second call of another type stops at the
assertion. -/
theorem BinaryNode_processes_iff_witness :
    (∃ r tail,
        (ReceiveData plainRegistry 3 0 (deliver plainRegistry 3 0 2 [literalFive] productGraph).graph
            2 literalFour).log =
            ⟨0, Event.enter 2⟩ :: ⟨0, Event.combine literalFive literalFour 2⟩ :: tail ∧
          (⟨0, Event.result 2 (some r)⟩ : Call) ∈
            (ReceiveData plainRegistry 3 0 (deliver plainRegistry 3 0 2 [literalFive] productGraph).graph
              2 literalFour).log ∧
          (∀ m ms, [3] = m :: ms → (⟨0, Event.receive m r⟩ : Call) ∈
            (ReceiveData plainRegistry 3 0 (deliver plainRegistry 3 0 2 [literalFive] productGraph).graph
              2 literalFour).log) ∧
          ((ReceiveData plainRegistry 3 0 (deliver plainRegistry 3 0 2 [literalFive] productGraph).graph
              2 literalFour).fault = none →
            pushesAndFrees 0
                (ReceiveData plainRegistry 3 0
                  (deliver plainRegistry 3 0 2 [literalFive] productGraph).graph 2 literalFour).log =
              [3].map (fun m => Event.receive m r) ++ [Event.freeVar r] ∧
            (callsAt 0
                (ReceiveData plainRegistry 3 0
                  (deliver plainRegistry 3 0 2 [literalFive] productGraph).graph 2 literalFour).log).filter
              Event.isCombine = [Event.combine literalFive literalFour 2]) ∧
          ([3] = [] →
            (ReceiveData plainRegistry 3 0 (deliver plainRegistry 3 0 2 [literalFive] productGraph).graph
              2 literalFour).fault = none)) ∧
      (ReceiveData plainRegistry 3 0 (deliver plainRegistry 3 0 2 [literalFive] productGraph).graph
        2 literalFour).fault = none ∧
      pushesAndFrees 0
          (ReceiveData plainRegistry 3 0 (deliver plainRegistry 3 0 2 [literalFive] productGraph).graph
            2 literalFour).log =
        [Event.receive 3 ⟨0, 0, Shape.scalar, false, false⟩,
          Event.freeVar ⟨0, 0, Shape.scalar, false, false⟩] ∧
      ((ReceiveData plainRegistry 3 0 (deliver plainRegistry 3 0 2 [literalFive] productGraph).graph
          2 otherTypeScalar).log = [⟨0, Event.enter 2⟩] ∧
        (ReceiveData plainRegistry 3 0 (deliver plainRegistry 3 0 2 [literalFive] productGraph).graph
          2 otherTypeScalar).fault = some Fault.typeMismatch) :=
  ⟨(BinaryNode_processes_iff plainRegistry 2 0 productGraph 2 [3] 2 [literalFive] literalFour rfl).2,
   by decide, by decide,
   (BinaryNode_processes_iff plainRegistry 2 0 productGraph 2 [3] 2 [literalFive] otherTypeScalar
      rfl).2⟩

end Dataflow

namespace utilities

/-! ## The loop and one call of `PrintFormat` -/

theorem copyLiteral_plain {α : Type} (s w : Char) (text : List Char) (hp : plainText s text) :
    ∀ (os : List (Insertion α)) (rest : List Char),
      copyLiteral s w os (text ++ rest) = copyLiteral s w (os ++ literal w text) rest := by
  induction text with
  | nil => intro os rest; simp [literal]
  | cons c t ih =>
    intro os rest
    have hc := hp c (List.mem_cons_self _ _)
    have ht : plainText s t := fun x hx => hp x (List.mem_cons_of_mem _ hx)
    have e : copyLiteral s w os (c :: t ++ rest) =
        copyLiteral s w (if c ≠ w then os ++ [Insertion.character c] else os) (t ++ rest) := by
      simp only [List.cons_append, copyLiteral, hc.1, hc.2, ne_eq, not_false_eq_true, and_self,
        if_true]
      split <;> rfl
    rw [e, ih ht]
    by_cases hw : c = w
    · simp [hw, literal]
    · simp [hw, literal]

theorem copyLiteral_stop {α : Type} (s w : Char) (text : List Char) (hp : plainText s text)
    (os : List (Insertion α)) (rest : List Char) :
    copyLiteral s w os (text ++ s :: rest) = (os ++ literal w text, s :: rest) := by
  rw [copyLiteral_plain s w text hp]
  simp [copyLiteral]

theorem copyLiteral_end {α : Type} (s w : Char) (text : List Char) (hp : plainText s text)
    (os : List (Insertion α)) :
    copyLiteral s w os text = (os ++ literal w text, []) := by
  have h := copyLiteral_plain s w text hp os []
  rw [List.append_nil] at h
  rw [h]
  simp [copyLiteral]

theorem deref_plain_append (s : Char) (hs : s ≠ NUL) (text : List Char) (hp : plainText s text)
    (rest : List Char) : deref (text ++ s :: rest) ≠ NUL := by
  cases text with
  | nil => simpa [deref] using hs
  | cons c t => simpa [deref] using (hp c (List.mem_cons_self _ _)).2

theorem PrintFormat_field {α : Type} (printRest : List (Insertion α) → List Char → List (Insertion α))
    (s w : Char) (hs : s ≠ NUL) (text : List Char) (hp : plainText s text)
    (os : List (Insertion α)) (rest : List Char) (arg : α) (args : List α) :
    PrintFormat printRest s w os (text ++ s :: rest) (arg :: args) =
      PrintFormat printRest s w (os ++ literal w text ++ [Insertion.argument arg]) rest args := by
  rw [PrintFormat]
  simp only [if_neg (deref_plain_append s hs text hp rest), copyLiteral_stop s w text hp]
  simp [deref]

theorem PrintFormat_fields {α : Type} (printRest : List (Insertion α) → List Char → List (Insertion α))
    (s w : Char) (hs : s ≠ NUL) (fields : List (List Char × α)) :
    (∀ f ∈ fields, plainText s f.1) →
    ∀ (os : List (Insertion α)) (rest : List Char) (more : List α),
      PrintFormat printRest s w os (fieldsFormat s fields ++ rest) (fieldsArgs fields ++ more) =
        PrintFormat printRest s w (os ++ fieldsWritten w fields) rest more := by
  induction fields with
  | nil => intro _ os rest more; simp [fieldsFormat, fieldsArgs, fieldsWritten]
  | cons f fs ih =>
    intro hp os rest more
    have h1 := PrintFormat_field printRest s w hs f.1 (hp f (List.mem_cons_self _ _)) os
      (fieldsFormat s fs ++ rest) f.2 (fieldsArgs fs ++ more)
    have h2 := ih (fun x hx => hp x (List.mem_cons_of_mem _ hx))
      (os ++ literal w f.1 ++ [Insertion.argument f.2]) rest more
    have e1 : fieldsFormat s (f :: fs) ++ rest = f.1 ++ s :: (fieldsFormat s fs ++ rest) := by
      simp [fieldsFormat]
    have e2 : fieldsArgs (f :: fs) ++ more = f.2 :: (fieldsArgs fs ++ more) := by
      simp [fieldsArgs]
    have e3 : os ++ fieldsWritten w (f :: fs) =
        os ++ literal w f.1 ++ [Insertion.argument f.2] ++ fieldsWritten w fs := by
      simp [fieldsWritten]
    rw [e1, e2, e3, h1, h2]

theorem PrintFormat_exhausted {α : Type} (printRest : List (Insertion α) → List Char → List (Insertion α))
    (s w : Char) (hs : s ≠ NUL) (text : List Char) (hp : plainText s text)
    (os : List (Insertion α)) (arg : α) (more : List α) :
    PrintFormat printRest s w os text (arg :: more) =
      if text = [] ∨ 0 < more.length then os ++ literal w text
      else printRest (os ++ literal w text) [] := by
  cases text with
  | nil => simp [PrintFormat, deref, literal]
  | cons c t =>
    have hc := hp c (List.mem_cons_self _ _)
    rw [PrintFormat]
    have hd : deref (c :: t) ≠ NUL := by simpa [deref] using hc.2
    have hd2 : deref ([] : List Char) ≠ s := by simpa [deref] using Ne.symm hs
    simp only [hd, if_false, copyLiteral_end s w (c :: t) hp, hd2]
    cases more with
    | nil => simp [PrintFormat]
    | cons b bs => simp [PrintFormat, deref]

theorem format_split (s : Char) (format : List Char) (hn : ∀ c ∈ format, c ≠ NUL) :
    plainText s format ∨
      ∃ text rest, format = text ++ s :: rest ∧ plainText s text ∧ ∀ c ∈ rest, c ≠ NUL := by
  induction format with
  | nil => exact Or.inl (fun c hc => absurd hc (List.not_mem_nil c))
  | cons c t ih =>
    have hc := hn c (List.mem_cons_self _ _)
    have ht : ∀ x ∈ t, x ≠ NUL := fun x hx => hn x (List.mem_cons_of_mem _ hx)
    by_cases hcs : c = s
    · exact Or.inr ⟨[], t, by simp [hcs], fun x hx => absurd hx (List.not_mem_nil x), ht⟩
    · rcases ih ht with hp | ⟨text, rest, e, hp, hr⟩
      · left
        intro x hx
        rcases List.mem_cons.1 hx with hx | hx
        · exact hx ▸ ⟨hcs, hc⟩
        · exact hp x hx
      · right
        refine ⟨c :: text, rest, by simp [e], ?_, hr⟩
        intro x hx
        rcases List.mem_cons.1 hx with hx | hx
        · exact hx ▸ ⟨hcs, hc⟩
        · exact hp x hx

theorem fields_cover {α : Type} (s : Char) (args : List α) :
    ∀ (format : List Char), (∀ c ∈ format, c ≠ NUL) →
      ∃ (fields : List (List Char × α)) (rest : List Char) (more : List α),
        format = fieldsFormat s fields ++ rest ∧ args = fieldsArgs fields ++ more ∧
          (∀ f ∈ fields, plainText s f.1) ∧ (more = [] ∨ plainText s rest) := by
  induction args with
  | nil =>
    intro format _
    exact ⟨[], format, [], by simp [fieldsFormat], by simp [fieldsArgs],
      fun f hf => absurd hf (List.not_mem_nil f), Or.inl rfl⟩
  | cons a as ih =>
    intro format hn
    rcases format_split s format hn with hp | ⟨text, rest, e, hp, hr⟩
    · exact ⟨[], format, a :: as, by simp [fieldsFormat], by simp [fieldsArgs],
        fun f hf => absurd hf (List.not_mem_nil f), Or.inr hp⟩
    · obtain ⟨fields, rest2, more, e1, e2, hf, hm⟩ := ih rest hr
      refine ⟨(text, a) :: fields, rest2, more, ?_, ?_, ?_, hm⟩
      · rw [e, e1]
        simp [fieldsFormat]
      · rw [e2]
        simp [fieldsArgs]
      · intro f hf2
        rcases List.mem_cons.1 hf2 with hf2 | hf2
        · rw [hf2]
          exact hp
        · exact hf f hf2

/-! ## C32: what `PrintFormat` writes -/

/-- C32. `PrintFormat` with a substitution symbol other than the terminator,
for every stream, whitespace symbol and overload without arguments.
(1) Arguments used up first: on a format that starts with one text and
substitution symbol per argument, each text is copied without its
`whitespaceSymbol` characters and followed by its argument, in order, and the
rest of the format is handed to the overload without arguments.
(2) Format used up first: after the texts and arguments of the substitution
symbols, the closing text is copied the same way and none of the arguments
left over is written; the overload without arguments is reached only when
exactly one argument was left over and the closing text is not empty, and
then with the empty format.
(3) An empty format writes nothing whatever the arguments.
(4) Every format without a terminator inside, with every argument list, is of
form (1) or (2).
(5) The overload returning a string is the same call on a fresh stream. -/
theorem PrintFormat_writes {α : Type} (printRest : List (Insertion α) → List Char → List (Insertion α))
    (substitutionSymbol whitespaceSymbol : Char) (hs : substitutionSymbol ≠ NUL) :
    (∀ (fields : List (List Char × α)) (rest : List Char) (os : List (Insertion α)),
        (∀ f ∈ fields, plainText substitutionSymbol f.1) →
        PrintFormat printRest substitutionSymbol whitespaceSymbol os
            (fieldsFormat substitutionSymbol fields ++ rest) (fieldsArgs fields) =
          printRest (os ++ fieldsWritten whitespaceSymbol fields) rest) ∧
      (∀ (fields : List (List Char × α)) (text : List Char) (arg : α) (more : List α)
          (os : List (Insertion α)),
        (∀ f ∈ fields, plainText substitutionSymbol f.1) → plainText substitutionSymbol text →
        PrintFormat printRest substitutionSymbol whitespaceSymbol os
            (fieldsFormat substitutionSymbol fields ++ text) (fieldsArgs fields ++ arg :: more) =
          if text = [] ∨ 0 < more.length then
            os ++ fieldsWritten whitespaceSymbol fields ++ literal whitespaceSymbol text
          else
            printRest (os ++ fieldsWritten whitespaceSymbol fields ++ literal whitespaceSymbol text) []) ∧
      (∀ (os : List (Insertion α)) (arg : α) (more : List α),
        PrintFormat printRest substitutionSymbol whitespaceSymbol os [] (arg :: more) = os) ∧
      (∀ (format : List Char) (args : List α), (∀ c ∈ format, c ≠ NUL) →
        ∃ (fields : List (List Char × α)) (rest : List Char) (more : List α),
          format = fieldsFormat substitutionSymbol fields ++ rest ∧
            args = fieldsArgs fields ++ more ∧
            (∀ f ∈ fields, plainText substitutionSymbol f.1) ∧
            (more = [] ∨ plainText substitutionSymbol rest)) ∧
      (∀ (format : List Char) (args : List α),
        PrintFormatString printRest substitutionSymbol whitespaceSymbol format args =
          PrintFormat printRest substitutionSymbol whitespaceSymbol [] format args) := by
  refine ⟨?_, ?_, ?_, ?_, fun _ _ => rfl⟩
  · intro fields rest os hf
    have h := PrintFormat_fields printRest substitutionSymbol whitespaceSymbol hs fields hf os rest []
    rw [List.append_nil] at h
    rw [h, PrintFormat]
  · intro fields text arg more os hf hp
    rw [PrintFormat_fields printRest substitutionSymbol whitespaceSymbol hs fields hf os text
      (arg :: more)]
    exact PrintFormat_exhausted printRest substitutionSymbol whitespaceSymbol hs text hp _ arg more
  · intro os arg more
    simp [PrintFormat, deref]
  · intro format args hn
    exact fields_cover substitutionSymbol args format hn

/-- Witness for C32 with the symbols % and ^: the format "a^b%c%" with the
arguments 1 and 2 (arguments used up first, nothing left of the format), the
format "a^b%c" with 1 and 2 (one argument left over for the closing text) and
with 1, 2, 3 (two left over). -/
theorem PrintFormat_writes_witness :
    '%' ≠ NUL ∧
      PrintFormat echoRest '%' '^' [] ['a', '^', 'b', '%', 'c', '%'] [1, 2] =
        echoRest [Insertion.character 'a', Insertion.character 'b', Insertion.argument 1,
          Insertion.character 'c', Insertion.argument 2] [] ∧
      PrintFormat echoRest '%' '^' [] ['a', '^', 'b', '%', 'c'] [1, 2] =
        echoRest [Insertion.character 'a', Insertion.character 'b', Insertion.argument 1,
          Insertion.character 'c'] [] ∧
      PrintFormat echoRest '%' '^' [] ['a', '^', 'b', '%', 'c'] [1, 2, 3] =
        [Insertion.character 'a', Insertion.character 'b', Insertion.argument 1,
          Insertion.character 'c'] :=
  ⟨by decide,
   (PrintFormat_writes echoRest '%' '^' (by decide)).1
      [(['a', '^', 'b'], 1), (['c'], 2)] [] [] (by decide),
   (PrintFormat_writes echoRest '%' '^' (by decide)).2.1
      [(['a', '^', 'b'], 1)] ['c'] 2 [] [] (by decide) (by decide),
   (PrintFormat_writes echoRest '%' '^' (by decide)).2.1
      [(['a', '^', 'b'], 1)] ['c'] 2 [3] [] (by decide) (by decide)⟩

end utilities
